import Mathlib

/-! # dawn (a dwm derivative): window layout and state-management engine

A shallow embedding of the parts of `src/dawn.c` that keep the client
registry, the monitor/tag model, the size-hint resolver and the fullscreen
transition, followed by theorems about them.

Conventions of the embedding.

* C `int` values are `Int`; signed overflow is undefined in C and no function
  below relies on wrap-around.  C `unsigned int` tag masks are `Nat`; they are
  only combined with `&`, `|`, `^`, which never leave the 32-bit range.
* C `%` on `int` truncates towards zero: `Int.tmod`.
* Pointers to `Client` and `Monitor` records are natural numbers.  The
  intrusive singly linked lists (`m->clients` through `c->next`, `m->stack`
  through `c->snext`, `mons` through `m->next`) are the lists of the pointers
  they link, in link order.
* All optional patch blocks (`#if ..._PATCH`) are disabled, so
  `TAGMASK = (1 << NUMTAGS) - 1` and `ISVISIBLE(C)` is the plain tag test.
* Requests to the X server, bar drawing and the layout functions of `config.h`
  only read the registry; they do not appear in the registry model.
-/

namespace Dawn

/-! ## Data model -/

/-- Layout descriptor `Layout`: the symbol and the arrange function pointer
(`none` is the NULL pointer of the floating layout). -/
structure Layout where
  symbol : Nat
  arrange : Option Nat
deriving DecidableEq, Repr

/-- The values of a C `float`: a finite number (the rational it denotes), the
two infinities and NaN. -/
inductive CFloat where
  | fin (q : ℚ) : CFloat
  | pinf : CFloat
  | ninf : CFloat
  | nan : CFloat
deriving DecidableEq

/-- The C comparison `a < b` of two floating-point values: false whenever an
operand is NaN. -/
def CFloat.lt : CFloat → CFloat → Bool
  | CFloat.fin a, CFloat.fin b => decide (a < b)
  | CFloat.fin _, CFloat.pinf => true
  | CFloat.ninf, CFloat.fin _ => true
  | CFloat.ninf, CFloat.pinf => true
  | _, _ => false

/-- Modelled from the spec: the `Pertag` record (declared in the pertag patch
file, which is not among the sources): parallel arrays indexed by tag number
storing the per-tag saved master count, ratio, selected layout slot and the two
layout slots, with the current and previous tag number. -/
structure Pertag where
  curtag : Nat
  prevtag : Nat
  nmasters : Nat → Int
  mfacts : Nat → CFloat
  sellts : Nat → Nat
  ltidxs : Nat → Nat → Layout

/-- The fields of `struct Monitor` used by the core.  `tagset` and `lt` are the
two-slot arrays; `clients`, `stack` are the heads of the two client lists and
`sel` the selected client (`none` is NULL). -/
structure Monitor where
  num : Int
  mfact : CFloat
  nmaster : Int
  mx : Int
  my : Int
  mw : Int
  mh : Int
  wx : Int
  wy : Int
  ww : Int
  wh : Int
  seltags : Nat
  sellt : Nat
  tagset : Nat → Nat
  clients : List Nat
  sel : Option Nat
  stack : List Nat
  lt : Nat → Layout
  pertag : Pertag

/-- The geometry, size-hint and flag fields of `struct Client`.  The aspect
limits `mina`, `maxa` are C floats; only their sign is inspected here. -/
structure Client where
  mina : ℚ
  maxa : ℚ
  x : Int
  y : Int
  w : Int
  h : Int
  oldx : Int
  oldy : Int
  oldw : Int
  oldh : Int
  basew : Int
  baseh : Int
  incw : Int
  inch : Int
  maxw : Int
  maxh : Int
  minw : Int
  minh : Int
  bw : Int
  oldbw : Int
  isfixed : Int
  isfloating : Int
  isurgent : Int
  neverfocus : Int
  oldstate : Int
  isfullscreen : Int
  fakefullscreen : Int
deriving DecidableEq

/-- Process-wide values read by the resolver: the screen size `sw`, `sh`, the
bar height `bh`, the `resizehints` setting of `config.h`, and the
floating-point aspect correction of `applysizehints`, which is not embedded:
`aspect mina maxa w h` stands for the pair `(w, h)` left by
`if (maxa < (float)w / h) w = h * maxa + 0.5; else if (mina < (float)h / w)
h = w * mina + 0.5;`. -/
structure Env where
  sw : Int
  sh : Int
  bh : Int
  resizehints : Int
  aspect : ℚ → ℚ → Int → Int → Int × Int

/-- A rectangle handed to or produced by the resolver. -/
structure Rect where
  x : Int
  y : Int
  w : Int
  h : Int
deriving DecidableEq, Repr

/-- Macro `NUMTAGS`. -/
def NUMTAGS : Nat := 9

/-- Macro `TAGMASK` with the scratchpad patch disabled: `(1 << NUMTAGS) - 1`. -/
def TAGMASK : Nat := (1 <<< NUMTAGS) - 1

/-- Macro `WIDTH(X)`: `(X)->w + 2 * (X)->bw`. -/
def WIDTH (c : Client) : Int := c.w + 2 * c.bw

/-- Macro `HEIGHT(X)`: `(X)->h + 2 * (X)->bw`. -/
def HEIGHT (c : Client) : Int := c.h + 2 * c.bw

/-! ## Geometry / size-hint resolver -/

/-- The horizontal position clamp of `applysizehints`; `w` is the requested
width after `MAX(1, w)`. -/
def clampx (g : Env) (m : Monitor) (c : Client) (x w interact : Int) : Int :=
  if interact ≠ 0 then
    let x1 := if x > g.sw then g.sw - WIDTH c else x
    if x1 + w + 2 * c.bw < 0 then 0 else x1
  else
    let x1 := if x ≥ m.wx + m.ww then m.wx + m.ww - WIDTH c else x
    if x1 + w + 2 * c.bw ≤ m.wx then m.wx else x1

/-- The vertical position clamp of `applysizehints`. -/
def clampy (g : Env) (m : Monitor) (c : Client) (y h interact : Int) : Int :=
  if interact ≠ 0 then
    let y1 := if y > g.sh then g.sh - HEIGHT c else y
    if y1 + h + 2 * c.bw < 0 then 0 else y1
  else
    let y1 := if y ≥ m.wy + m.wh then m.wy + m.wh - HEIGHT c else y
    if y1 + h + 2 * c.bw ≤ m.wy then m.wy else y1

/-- The size part of `applysizehints`: the width and height it leaves in `*w`,
`*h`, given the requested width and height. -/
def hintsize (g : Env) (m : Monitor) (c : Client) (w h : Int) : Int × Int :=
  let w := max 1 w
  let h := max 1 h
  let h := if h < g.bh then g.bh else h
  let w := if w < g.bh then g.bh else w
  if g.resizehints ≠ 0 ∨ c.isfloating ≠ 0 ∨ ((m.lt m.sellt).arrange = none) then
    let baseismin : Bool := decide (c.basew = c.minw ∧ c.baseh = c.minh)
    let w := if !baseismin then w - c.basew else w
    let h := if !baseismin then h - c.baseh else h
    let wh := if 0 < c.mina ∧ 0 < c.maxa then g.aspect c.mina c.maxa w h else (w, h)
    let w := wh.1
    let h := wh.2
    let w := if baseismin then w - c.basew else w
    let h := if baseismin then h - c.baseh else h
    let w := if c.incw ≠ 0 then w - Int.tmod w c.incw else w
    let h := if c.inch ≠ 0 then h - Int.tmod h c.inch else h
    let w := max (w + c.basew) c.minw
    let h := max (h + c.baseh) c.minh
    let w := if c.maxw ≠ 0 then min w c.maxw else w
    let h := if c.maxh ≠ 0 then min h c.maxh else h
    (w, h)
  else
    (w, h)

/-- Function `applysizehints(c, &x, &y, &w, &h, interact)` for a client `c`
whose monitor `c->mon` is `m`: the rectangle left in `*x, *y, *w, *h` and the
returned flag (1 when the rectangle differs from the stored geometry). -/
def applysizehints (g : Env) (m : Monitor) (c : Client) (x y w h interact : Int) :
    Rect × Int :=
  let w1 := max 1 w
  let h1 := max 1 h
  let x1 := clampx g m c x w1 interact
  let y1 := clampy g m c y h1 interact
  let wh := hintsize g m c w h
  (⟨x1, y1, wh.1, wh.2⟩,
    if x1 ≠ c.x ∨ y1 ≠ c.y ∨ wh.1 ≠ c.w ∨ wh.2 ≠ c.h then 1 else 0)

/-- The `x` that the off-screen clamp of `applysizehints` gives a request beyond
its limit, for a client with border `bw` and stored width `wd` (`w` is the
requested width after `MAX(1, w)`): `sw - WIDTH(c)` in interactive mode and
`wx + ww - WIDTH(c)` otherwise, replaced by the origin of the area when the
window would end before it. -/
def offscreen_x (g : Env) (m : Monitor) (bw wd w interact : Int) : Int :=
  if interact ≠ 0 then
    (if g.sw - (wd + 2 * bw) + w + 2 * bw < 0 then 0 else g.sw - (wd + 2 * bw))
  else
    (if m.wx + m.ww - (wd + 2 * bw) + w + 2 * bw ≤ m.wx then m.wx
      else m.wx + m.ww - (wd + 2 * bw))

/-- The `y` that the off-screen clamp of `applysizehints` gives a request beyond
its limit, for a client with border `bw` and stored height `hd`. -/
def offscreen_y (g : Env) (m : Monitor) (bw hd h interact : Int) : Int :=
  if interact ≠ 0 then
    (if g.sh - (hd + 2 * bw) + h + 2 * bw < 0 then 0 else g.sh - (hd + 2 * bw))
  else
    (if m.wy + m.wh - (hd + 2 * bw) + h + 2 * bw ≤ m.wy then m.wy
      else m.wy + m.wh - (hd + 2 * bw))

/-- Function `resizeclient(c, x, y, w, h)`: the previous geometry is saved in
`oldx .. oldh` and the new one stored (the configure requests are not part of
the client record). -/
def resizeclient (c : Client) (x y w h : Int) : Client :=
  { c with oldx := c.x, x := x, oldy := c.y, y := y,
           oldw := c.w, w := w, oldh := c.h, h := h }

/-- Function `resize(c, x, y, w, h, interact)`. -/
def resize (g : Env) (m : Monitor) (c : Client) (x y w h interact : Int) : Client :=
  let r := applysizehints g m c x y w h interact
  if r.2 ≠ 0 then resizeclient c r.1.x r.1.y r.1.w r.1.h else c

/-! ## Fullscreen transition -/

/-- Function `setfullscreen(c, fullscreen)` for a client on monitor `m`.
`Int.land _ 2` is the test of the lock bit `1 << 1` of `oldstate`. -/
def setfullscreen (m : Monitor) (c : Client) (fullscreen : Int) : Client :=
  let savestate : Bool :=
    decide ((c.fakefullscreen = 0 ∧ fullscreen ≠ 0 ∧ c.isfullscreen = 0)
      ∨ (c.fakefullscreen = 2 ∧ fullscreen ≠ 0))
  let restorestate : Bool :=
    !savestate && decide ((c.fakefullscreen = 0 ∧ fullscreen = 0 ∧ c.isfullscreen ≠ 0)
      ∨ (c.fakefullscreen ≥ 2 ∧ fullscreen = 0))
  let cf : Client × Int :=
    if c.fakefullscreen = 2 ∧ fullscreen = 0 ∧ c.isfullscreen ≠ 0 then
      ({ c with fakefullscreen := 1, isfullscreen := 1 }, 1)
    else if c.fakefullscreen = 3 then
      ({ c with fakefullscreen := 1 }, fullscreen)
    else (c, fullscreen)
  let c1 : Client := { cf.1 with isfullscreen := cf.2 }
  if savestate ∧ Int.land c1.oldstate 2 = 0 then
    let c2 : Client :=
      { c1 with oldbw := c1.bw, oldstate := Int.lor c1.isfloating 2, bw := 0, isfloating := 1 }
    resizeclient c2 m.mx m.my m.mw m.mh
  else if restorestate ∧ Int.land c1.oldstate 2 ≠ 0 then
    let c2 : Client := { c1 with bw := c1.oldbw }
    let c3 : Client :=
      { c2 with oldstate := Int.land c2.oldstate 1, isfloating := Int.land c2.oldstate 1 }
    let c4 : Client := { c3 with x := c3.oldx, y := c3.oldy, w := c3.oldw, h := c3.oldh }
    resizeclient c4 c4.x c4.y c4.w c4.h
  else c1

/-! ## Client registry and monitor/tag model -/

/-- A row of the `rules` table of `config.h` as `applyrules` uses it for one
client: `matched` is the result of the title/class/instance/window-type test
of that row against the client's X properties. -/
structure Rule where
  matched : Bool
  tags : Nat
  isfloating : Int
  monitor : Int

/-- The registry state: the monitor list `mons`, the selected monitor
`selmon`, the monitor records by pointer, and the registry fields `c->tags`,
`c->mon`, `c->win` of the client records by pointer. -/
structure State where
  mons : List Nat
  selmon : Nat
  M : Nat → Monitor
  tags : Nat → Nat
  mon : Nat → Nat
  win : Nat → Nat

/-- Assignment to one cell of a pointer-indexed field or array. -/
def upd {α : Type} (f : Nat → α) (k : Nat) (v : α) : Nat → α :=
  fun j => if j = k then v else f j

/-- Assignment through a monitor pointer: `m` is replaced by `f m`. -/
def setM (s : State) (m : Nat) (f : Monitor → Monitor) : State :=
  { s with M := fun k => if k = m then f (s.M k) else s.M k }

/-- The active tag set `m->tagset[m->seltags]` of a monitor record. -/
def Monitor.curtags (m : Monitor) : Nat := m.tagset m.seltags

/-- Macro `ISVISIBLE(C)`: `C->tags & C->mon->tagset[C->mon->seltags]`. -/
def ISVISIBLE (s : State) (c : Nat) : Bool :=
  (s.tags c &&& (s.M (s.mon c)).curtags) != 0

/-- The scan-and-splice of `detach` and `detachstack` on the list of linked
pointers: walk to the first cell holding `c` and replace it by its successor.
(For `c` not in the list the C code stores `c`'s link in the final NULL cell;
every use below is on a member.) -/
def unlink (c : Nat) : List Nat → List Nat
  | [] => []
  | t :: r => if t = c then r else t :: unlink c r

/-- Function `attach(c)`: `c` becomes the head of `c->mon->clients`. -/
def attach (s : State) (c : Nat) : State :=
  setM s (s.mon c) (fun m => { m with clients := c :: m.clients })

/-- Function `attachstack(c)`: `c` becomes the head of `c->mon->stack`. -/
def attachstack (s : State) (c : Nat) : State :=
  setM s (s.mon c) (fun m => { m with stack := c :: m.stack })

/-- Function `detach(c)`. -/
def detach (s : State) (c : Nat) : State :=
  setM s (s.mon c) (fun m => { m with clients := unlink c m.clients })

/-- Function `detachstack(c)`: unlink from the recency list and, when `c` was
the selected client, select the first visible client of what remains. -/
def detachstack (s : State) (c : Nat) : State :=
  let s1 := setM s (s.mon c) (fun m => { m with stack := unlink c m.stack })
  if (s1.M (s1.mon c)).sel = some c then
    setM s1 (s1.mon c)
      (fun m => { m with sel := (s1.M (s1.mon c)).stack.find? (ISVISIBLE s1) })
  else s1

/-- The client `focus(c)` settles on: `c` when it is given and visible, else
the first visible client of the selected monitor's recency list
(`if (!c || !ISVISIBLE(c)) for (c = selmon->stack; c && !ISVISIBLE(c); c = c->snext);`). -/
def focus_pick (s : State) (c : Option Nat) : Option Nat :=
  match c with
  | none => (s.M s.selmon).stack.find? (ISVISIBLE s)
  | some c => if ISVISIBLE s c then some c else (s.M s.selmon).stack.find? (ISVISIBLE s)

/-- Function `focus(c)` (`none` is `focus(NULL)`).  `unfocus`, `seturgent`,
`grabbuttons`, `setfocus` and `drawbars` issue X requests only. -/
def focus (s : State) (c : Option Nat) : State :=
  match focus_pick s c with
  | some c =>
    let s1 : State := if s.mon c ≠ s.selmon then { s with selmon := s.mon c } else s
    let s2 := attachstack (detachstack s1 c) c
    setM s2 s2.selmon (fun m => { m with sel := some c })
  | none => setM s s.selmon (fun m => { m with sel := none })

/-- Function `wintoclient(w)`: the first client, over the monitors in list
order and their arrangement lists in order, whose window is `w`. -/
def wintoclient (s : State) (w : Nat) : Option Nat :=
  s.mons.findSome? (fun m => (s.M m).clients.find? (fun c => s.win c == w))

/-- The body of the rule loop of `applyrules` for one row: a matching row ors
its tags into `c->tags` and, when a monitor with `num == r->monitor` exists,
makes the first such monitor `c->mon`. -/
def applyrule (c : Nat) (s : State) (r : Rule) : State :=
  if r.matched then
    let s1 : State := { s with tags := upd s.tags c (s.tags c ||| r.tags) }
    match s1.mons.find? (fun m => (s1.M m).num == r.monitor) with
    | some m => { s1 with mon := upd s1.mon c m }
    | none => s1
  else s

/-- Function `applyrules(c)` on the registry fields of `c` (its `isfloating`
flag is not a registry field).  Every matching row is applied, in order. -/
def applyrules (rules : List Rule) (s : State) (c : Nat) : State :=
  let s0 : State := { s with tags := upd s.tags c 0 }
  let s1 := rules.foldl (applyrule c) s0
  let t := s1.tags c &&& TAGMASK
  { s1 with tags := upd s1.tags c (if t ≠ 0 then t else (s1.M (s1.mon c)).curtags) }

/-- The opening block of `manage(w, wa)` that decides the monitor and the tags
of the new client record `c`: those of the managed client `trans` is transient
for (`trans` is `none` when `XGetTransientForHint` fails), else the selected
monitor and the result of `applyrules`. -/
def manage_place (rules : List Rule) (s : State) (c w : Nat) (trans : Option Nat) : State :=
  let s0 : State := { s with win := upd s.win c w }
  match trans.bind (wintoclient s0) with
  | some t => { s0 with mon := upd s0.mon c (s0.mon t), tags := upd s0.tags c (s0.tags t) }
  | none => applyrules rules { s0 with mon := upd s0.mon c s0.selmon } c

/-- Function `manage(w, wa)` on the registry, `c` being the freshly allocated
client record: place it, attach it to both lists of its monitor, make it that
monitor's selected client, then `focus(NULL)`. -/
def manage (rules : List Rule) (s : State) (c w : Nat) (trans : Option Nat) : State :=
  let s1 := manage_place rules s c w trans
  let s2 := attachstack (attach s1 c) c
  let s3 := setM s2 (s2.mon c) (fun m => { m with sel := some c })
  focus s3 none

/-- Function `unmanage(c, destroyed)` on the registry; `destroyed` only
selects X requests. -/
def unmanage (s : State) (c : Nat) (_destroyed : Int) : State :=
  focus (detachstack (detach s c) c) none

/-- Function `sendmon(c, m)`. -/
def sendmon (s : State) (c m : Nat) : State :=
  if s.mon c = m then s
  else
    let s1 := detachstack (detach s c) c
    let s2 : State := { s1 with mon := upd s1.mon c m }
    let s3 : State := { s2 with tags := upd s2.tags c (s2.M m).curtags }
    focus (attachstack (attach s3 c) c) none

/-- Function `pop(c)`. -/
def pop (s : State) (c : Nat) : State :=
  focus (attach (detach s c) c) (some c)

/-- Function `tag(arg)` with `arg->ui = ui`. -/
def tag (s : State) (ui : Nat) : State :=
  match (s.M s.selmon).sel with
  | some c =>
    if ui &&& TAGMASK ≠ 0 then
      focus { s with tags := upd s.tags c (ui &&& TAGMASK) } none
    else s
  | none => s

/-- Function `toggletag(arg)` with `arg->ui = ui`. -/
def toggletag (s : State) (ui : Nat) : State :=
  match (s.M s.selmon).sel with
  | none => s
  | some c =>
    let newtags := s.tags c ^^^ (ui &&& TAGMASK)
    if newtags ≠ 0 then focus { s with tags := upd s.tags c newtags } none else s

/-- The loop `for (i = 0; !(n & 1 << i); i++);` over the 32 bit positions of an
`unsigned int`: the first `i` at or after the start with bit `i` of `n` set;
`none` when the positions are exhausted. -/
def scanbit (n : Nat) : Nat → Nat → Option Nat
  | 0, _ => none
  | fuel + 1, i => if n &&& (1 <<< i) ≠ 0 then some i else scanbit n fuel (i + 1)

/-- The pertag part of `toggleview`: the current tag after the tag set became
`newtagset`.  `none` stands for the cases C leaves undefined: the shift by
`curtag - 1` when `curtag` is 0, and a scan that finds no bit. -/
def toggleview_pertag (p : Pertag) (newtagset : Nat) : Option Pertag :=
  let p1 : Pertag :=
    if newtagset = 4294967295 then { p with prevtag := p.curtag, curtag := 0 } else p
  if p1.curtag = 0 then none
  else if newtagset &&& (1 <<< (p1.curtag - 1)) = 0 then
    match scanbit newtagset 32 0 with
    | some i => some { p1 with prevtag := p1.curtag, curtag := i + 1 }
    | none => none
  else some p1

/-- Function `toggleview(arg)` with `arg->ui = ui`. -/
def toggleview (s : State) (ui : Nat) : Option State :=
  let newtagset := (s.M s.selmon).curtags ^^^ (ui &&& TAGMASK)
  if newtagset ≠ 0 then
    match toggleview_pertag (s.M s.selmon).pertag newtagset with
    | none => none
    | some p =>
      let s1 := setM s s.selmon (fun m =>
        let sellt := p.sellts p.curtag
        { m with
          tagset := upd m.tagset m.seltags newtagset
          pertag := p
          nmaster := p.nmasters p.curtag
          mfact := p.mfacts p.curtag
          sellt := sellt
          lt := upd (upd m.lt sellt (p.ltidxs p.curtag sellt))
                  (sellt ^^^ 1) (p.ltidxs p.curtag (sellt ^^^ 1)) })
      some (focus s1 none)
  else some s

/-- Macro `INTERSECT(x, y, w, h, m)`: the area shared with `m`'s window area. -/
def INTERSECT (x y w h : Int) (m : Monitor) : Int :=
  max 0 (min (x + w) (m.wx + m.ww) - max x m.wx)
    * max 0 (min (y + h) (m.wy + m.wh) - max y m.wy)

/-- Function `recttomon(x, y, w, h)`. -/
def recttomon (s : State) (x y w h : Int) : Nat :=
  (s.mons.foldl (fun (ra : Nat × Int) m =>
    if INTERSECT x y w h (s.M m) > ra.2 then (m, INTERSECT x y w h (s.M m)) else ra)
    (s.selmon, 0)).1

/-- Function `cleanupmon(mon)` on the monitor list (the bars are not part of
the registry). -/
def cleanupmon (s : State) (m : Nat) : State :=
  { s with mons := unlink m s.mons }

/-- One pass of the body of the migration loop of `updategeom` for the head
`c` of `m->clients`: `m->clients = c->next; detachstack(c); c->mon = mons;
attach(c); attachstack(c);`, `first` being `mons`. -/
def migrate1 (s : State) (first m c : Nat) : State :=
  let s1 := setM s m (fun r => { r with clients := r.clients.tail })
  let s2 := detachstack s1 c
  let s3 : State := { s2 with mon := upd s2.mon c first }
  attachstack (attach s3 c) c

/-- The loop `while ((c = m->clients)) ...` of `updategeom`, run for at most
the given number of passes; `none` when `m->clients` is still non-empty after
them. -/
def migrate_loop (first m : Nat) : Nat → State → Option State
  | 0, s => if (s.M m).clients = [] then some s else none
  | fuel + 1, s =>
    match (s.M m).clients with
    | [] => some s
    | c :: _ => migrate_loop first m fuel (migrate1 s first m c)

/-- The migration loop with as many passes as `m->clients` has members at
entry: each pass unlinks the head, so more passes are needed only if the loop
re-attaches to the list it drains, in which case the C loop does not end. -/
def migrate (s : State) (first m : Nat) : Option State :=
  migrate_loop first m (s.M m).clients.length s

/-- One pass of `for (i = nn; i < n; i++)` in the branch `nn < n` of
`updategeom`: the last monitor's clients move to the first monitor, the
selected monitor is redirected if it was the last, and the last monitor is
removed.  The flag is `dirty`, set when a client was moved. -/
def remove_last (s : State) : Option (State × Bool) :=
  match s.mons with
  | [] => none
  | first :: rest =>
    let m := rest.getLastD first
    match migrate s first m with
    | none => none
    | some s1 =>
      let s2 : State := if m = s1.selmon then { s1 with selmon := first } else s1
      some (cleanupmon s2 m, !(s.M m).clients.isEmpty)

/-- The loop `for (i = nn; i < n; i++)` of the shrinking branch, with the
number of passes `n - nn` as argument. -/
def remove_loop : Nat → State → Bool → Option (State × Bool)
  | 0, s, dirty => some (s, dirty)
  | k + 1, s, dirty =>
    match remove_last s with
    | none => none
    | some (s1, d) => remove_loop k s1 (dirty || d)

/-- Function `updategeom()` in the branch where the `nn` distinct screens are
fewer than the monitors (`nn < n`).  `ptr` is the result of `getrootptr`
(`none` when the pointer query fails), used by `wintomon(root)`; the root
window is neither a bar nor a client window.  The result is `none` when a loop
does not end or the monitor list runs out. -/
def updategeom_less (s : State) (nn : Nat) (ptr : Option (Int × Int)) : Option State :=
  match remove_loop (s.mons.length - nn) s false with
  | none => none
  | some (s1, dirty) =>
    if dirty then
      match s1.mons with
      | [] => none
      | first :: _ =>
        let s2 : State := { s1 with selmon := first }
        match ptr with
        | some (x, y) => some { s2 with selmon := recttomon s2 x y 1 1 }
        | none => some s2
    else some s1

/-- A well-formed registry: the monitor list has no repetition and holds the
selected monitor; on every monitor the arrangement list and the recency list
have no repetition and the same members, each member's `mon` link names that
monitor, and the selected client is a member. -/
structure WF (s : State) : Prop where
  nd_mons : s.mons.Nodup
  selmon_mem : s.selmon ∈ s.mons
  nd_clients : ∀ m ∈ s.mons, (s.M m).clients.Nodup
  nd_stack : ∀ m ∈ s.mons, (s.M m).stack.Nodup
  same : ∀ m ∈ s.mons, ∀ c, c ∈ (s.M m).clients ↔ c ∈ (s.M m).stack
  owner : ∀ m ∈ s.mons, ∀ c ∈ (s.M m).clients, s.mon c = m
  sel_mem : ∀ m ∈ s.mons, ∀ c, (s.M m).sel = some c → c ∈ (s.M m).stack

/-- A managed client: a member of the arrangement list of a monitor of the
monitor list (what `wintoclient` can return). -/
def Managed (s : State) (c : Nat) : Prop := ∃ m ∈ s.mons, c ∈ (s.M m).clients

/-- A client record that is in no list, such as a newly allocated one. -/
def Fresh (s : State) (c : Nat) : Prop :=
  ∀ m ∈ s.mons, c ∉ (s.M m).clients ∧ c ∉ (s.M m).stack

instance (s : State) (c : Nat) : Decidable (Managed s c) := by
  unfold Managed; infer_instance

instance (s : State) (c : Nat) : Decidable (Fresh s c) := by
  unfold Fresh; infer_instance

/-- The visibility requirement on the selected client of monitor `m`. -/
def SelVisible (s : State) (m : Nat) : Prop :=
  ∀ c, (s.M m).sel = some c → ISVISIBLE s c = true

/-- An initial state: distinct monitors, one of them selected, each with empty
lists, no selected client and non-zero tag sets. -/
structure Init (s : State) : Prop where
  nd_mons : s.mons.Nodup
  selmon_mem : s.selmon ∈ s.mons
  empty : ∀ m ∈ s.mons, (s.M m).clients = [] ∧ (s.M m).stack = [] ∧ (s.M m).sel = none
  tagsets : ∀ m ∈ s.mons, (s.M m).tagset 0 ≠ 0 ∧ (s.M m).tagset 1 ≠ 0 ∧ (s.M m).seltags < 2

/-- States reachable through the registry operations `manage`, `unmanage`,
`sendmon`, `focus`, `pop` (the list move of `zoom`), the tag operations and the
monitor-removal branch of `updategeom`.  Operations on a client take a managed
client, `manage` a new record, `sendmon` a monitor of the list. -/
inductive Reachable : State → Prop
  | init (s : State) : Init s → Reachable s
  | manage (rules : List Rule) (s : State) (c w : Nat) (trans : Option Nat) :
      Reachable s → Fresh s c → Reachable (manage rules s c w trans)
  | unmanage (s : State) (c : Nat) (destroyed : Int) :
      Reachable s → Managed s c → Reachable (unmanage s c destroyed)
  | sendmon (s : State) (c m : Nat) :
      Reachable s → Managed s c → m ∈ s.mons → Reachable (sendmon s c m)
  | focus (s : State) (c : Option Nat) :
      Reachable s → (∀ t, c = some t → Managed s t) → Reachable (focus s c)
  | pop (s : State) (c : Nat) : Reachable s → Managed s c → Reachable (pop s c)
  | tag (s : State) (ui : Nat) : Reachable s → Reachable (tag s ui)
  | toggletag (s : State) (ui : Nat) : Reachable s → Reachable (toggletag s ui)
  | toggleview (s s1 : State) (ui : Nat) :
      Reachable s → toggleview s ui = some s1 → Reachable s1
  | updategeom (s s1 : State) (nn : Nat) (ptr : Option (Int × Int)) :
      Reachable s → 1 ≤ nn → nn < s.mons.length → updategeom_less s nn ptr = some s1 →
      Reachable s1

/-- The condition under which `manage` leaves the new client visible wherever
it becomes the selected client for good: it is placed on the selected monitor
(where `focus(NULL)` re-derives the selection) or on tags shown by its
monitor. -/
def PlacedVisible (rules : List Rule) (s : State) (c w : Nat) (trans : Option Nat) : Prop :=
  (manage_place rules s c w trans).mon c = (manage_place rules s c w trans).selmon
    ∨ ISVISIBLE (manage_place rules s c w trans) c = true

/-- States reachable through `manage`, `unmanage`, `focus`, `tag`, `toggletag`,
`toggleview` and `sendmon`.  With `strict` set, every `manage` step satisfies
`PlacedVisible`. -/
inductive Reach (strict : Bool) : State → Prop
  | init (s : State) : Init s → Reach strict s
  | manage (rules : List Rule) (s : State) (c w : Nat) (trans : Option Nat) :
      Reach strict s → Fresh s c → (strict = true → PlacedVisible rules s c w trans) →
      Reach strict (manage rules s c w trans)
  | unmanage (s : State) (c : Nat) (destroyed : Int) :
      Reach strict s → Managed s c → Reach strict (unmanage s c destroyed)
  | focus (s : State) (c : Option Nat) :
      Reach strict s → (∀ t, c = some t → Managed s t) → Reach strict (focus s c)
  | tag (s : State) (ui : Nat) : Reach strict s → Reach strict (tag s ui)
  | toggletag (s : State) (ui : Nat) : Reach strict s → Reach strict (toggletag s ui)
  | toggleview (s s1 : State) (ui : Nat) :
      Reach strict s → toggleview s ui = some s1 → Reach strict s1
  | sendmon (s : State) (c m : Nat) :
      Reach strict s → Managed s c → m ∈ s.mons → Reach strict (sendmon s c m)

/-- The number of managed clients: the summed lengths of the arrangement
lists. -/
def nclients (s : State) : Nat := (s.mons.map (fun m => (s.M m).clients.length)).sum

/-! ## Concrete records used in the examples -/

/-- A pertag record as `createmon` leaves it, with tag 1 current. -/
def exPertag : Pertag :=
  { curtag := 1, prevtag := 1, nmasters := fun _ => 1,
    mfacts := fun _ => CFloat.fin (11 / 20), sellts := fun _ => 0, ltidxs := fun _ _ => ⟨0, some 0⟩ }

/-- A 1920x1080 monitor showing tag 1 with a tiling layout and empty lists. -/
def exMon : Monitor :=
  { num := 0, mfact := CFloat.fin (11 / 20), nmaster := 1, mx := 0, my := 0, mw := 1920,
    mh := 1080, wx := 0, wy := 20, ww := 1920, wh := 1060, seltags := 0, sellt := 0,
    tagset := fun _ => 1, clients := [], sel := none, stack := [],
    lt := fun _ => ⟨0, some 0⟩, pertag := exPertag }

/-- A 1920x1080 screen with a 20 pixel bar and `resizehints = 1`; the aspect
correction is never reached in the examples. -/
def exEnv : Env :=
  { sw := 1920, sh := 1080, bh := 20, resizehints := 1, aspect := fun _ _ w h => (w, h) }

/-- A tiled 400x300 client at (10, 30) with border 1 and no size hints. -/
def exClient : Client :=
  { mina := 0, maxa := 0, x := 10, y := 30, w := 400, h := 300, oldx := 0, oldy := 0,
    oldw := 0, oldh := 0, basew := 0, baseh := 0, incw := 0, inch := 0, maxw := 0, maxh := 0,
    minw := 0, minh := 0, bw := 1, oldbw := 0, isfixed := 0, isfloating := 0, isurgent := 0,
    neverfocus := 0, oldstate := 0, isfullscreen := 0, fakefullscreen := 0 }

/-- Two monitors (pointers 0 and 1, numbered 0 and 1), monitor 0 selected,
nothing managed. -/
def exInit : State :=
  { mons := [0, 1], selmon := 0, M := fun k => { exMon with num := k },
    tags := fun _ => 0, mon := fun _ => 0, win := fun _ => 0 }

/-- A rule table with one matching row that sends the client to tag 2 of
monitor number 1. -/
def exRules : List Rule := [⟨true, 2, 0, 1⟩]

/-- The state after managing window 100 (record 7) from `exInit` under
`exRules`. -/
def exHidden : State := manage exRules exInit 7 100 none

/-- The state after managing window 101 (record 1) from `exInit` with an
empty rule table. -/
def exOne : State := manage [] exInit 1 101 none

/-- Three clients managed on monitor 0, newest first. -/
def exThree : State := manage [] (manage [] exOne 2 102 none) 3 103 none

/-- From `exThree`, clients 2 and 3 sent to monitor 1: monitor 0 holds
`[1]`, monitor 1 holds `[3, 2]`. -/
def exTwo : State := sendmon (sendmon exThree 2 1) 3 1

/-! ## Event handlers, layout and ratio operations -/

/-- The tag test of `ISVISIBLE` against the active tag set of monitor `m`:
`t->tags & m->tagset[m->seltags]`. -/
def visible_on (s : State) (m t : Nat) : Bool :=
  (s.tags t &&& (s.M m).curtags) != 0

/-- Function `destroynotify(e)` for `ev->window = w`: a tracked window is
unmanaged with `destroyed = 1`. -/
def destroynotify (s : State) (w : Nat) : State :=
  match wintoclient s w with
  | some c => unmanage s c 1
  | none => s

/-- Function `unmapnotify(e)` for `ev->window = w`: for a tracked window, an
event with `send_event` set only changes the window's WM_STATE property
(`setclientstate`, an X request), any other unmanages with `destroyed = 0`. -/
def unmapnotify (s : State) (w : Nat) (send_event : Int) : State :=
  match wintoclient s w with
  | some c => if send_event ≠ 0 then s else unmanage s c 0
  | none => s

/-- The rounding of the machine's floating-point addition and subtraction on
finite operands, as functions on the rational values of the operands.  Which
functions these are depends on the platform (evaluation precision, rounding
mode), so the theorems quantify over every such pair. -/
structure FloatOps where
  add : ℚ → ℚ → ℚ
  sub : ℚ → ℚ → ℚ

/-- The instance without rounding error; it only serves to give concrete
examples of statements that hold for every `FloatOps`. -/
def exactOps : FloatOps := ⟨fun a b => a + b, fun a b => a - b⟩

/-- The rounded operations stay within `e` of the exact result on operands of
magnitude at most 4 (single precision has `e` below one millionth there). -/
def Accurate (fl : FloatOps) (e : ℚ) : Prop :=
  ∀ a b : ℚ, |a| ≤ 4 → |b| ≤ 4 →
    |fl.add a b - (a + b)| ≤ e ∧ |fl.sub a b - (a - b)| ≤ e

/-- The floating-point sum `a + b`: the rounded sum of finite operands, and
the IEEE 754 results when an operand is an infinity or NaN.  (The rounded
result of finite operands is taken to be finite.) -/
def FloatOps.fadd (fl : FloatOps) : CFloat → CFloat → CFloat
  | CFloat.fin a, CFloat.fin b => CFloat.fin (fl.add a b)
  | CFloat.nan, _ => CFloat.nan
  | _, CFloat.nan => CFloat.nan
  | CFloat.pinf, CFloat.ninf => CFloat.nan
  | CFloat.ninf, CFloat.pinf => CFloat.nan
  | CFloat.pinf, _ => CFloat.pinf
  | _, CFloat.pinf => CFloat.pinf
  | CFloat.ninf, _ => CFloat.ninf
  | _, CFloat.ninf => CFloat.ninf

/-- The floating-point difference `a - b`, as `fadd` for the sum. -/
def FloatOps.fsub (fl : FloatOps) : CFloat → CFloat → CFloat
  | CFloat.fin a, CFloat.fin b => CFloat.fin (fl.sub a b)
  | CFloat.nan, _ => CFloat.nan
  | _, CFloat.nan => CFloat.nan
  | CFloat.pinf, CFloat.pinf => CFloat.nan
  | CFloat.ninf, CFloat.ninf => CFloat.nan
  | CFloat.pinf, _ => CFloat.pinf
  | CFloat.ninf, _ => CFloat.ninf
  | _, CFloat.pinf => CFloat.ninf
  | _, CFloat.ninf => CFloat.pinf

/-- Assignment to one cell `[i][j]` of a two-dimensional array. -/
def upd2 {α : Type} (f : Nat → Nat → α) (i j : Nat) (v : α) : Nat → Nat → α :=
  fun a b => if a = i ∧ b = j then v else f a b

/-- Function `setlayout(arg)`; `none` stands for `!arg || !arg->v`, `some v`
for the layout `arg->v` points to (pointers to rows of `layouts` are compared
by the rows, which are pairwise different).  The symbol copy, `arrange` and
`drawbar` do not touch the fields kept here. -/
def setlayout (s : State) (arg : Option Layout) : State :=
  setM s s.selmon (fun m =>
    let toggle : Bool := decide (arg = none ∨ arg ≠ some (m.lt m.sellt))
    let p1 : Pertag :=
      if toggle then
        { m.pertag with
          sellts := upd m.pertag.sellts m.pertag.curtag (m.pertag.sellts m.pertag.curtag ^^^ 1) }
      else m.pertag
    let sellt : Nat := if toggle then p1.sellts p1.curtag else m.sellt
    let p2 : Pertag :=
      match arg with
      | some v => { p1 with ltidxs := upd2 p1.ltidxs p1.curtag sellt v }
      | none => p1
    { m with pertag := p2, sellt := sellt, lt := upd m.lt sellt (p2.ltidxs p2.curtag sellt) })

/-- Function `setmfact(arg)`; `none` is a NULL `arg`, `some a` the value
`arg->f`, any value of a `float`, NaN and the infinities included.  The
comparisons are those of C, false on NaN.  The constants 0.05 and 0.95 are
1/20 and 19/20: no `float` lies between these and the `double` constants of
the C comparison. -/
def setmfact (fl : FloatOps) (s : State) (arg : Option CFloat) : State :=
  match arg with
  | none => s
  | some a =>
    if ((s.M s.selmon).lt (s.M s.selmon).sellt).arrange = none then s
    else
      let f : CFloat :=
        if a.lt (CFloat.fin 1) then fl.fadd a (s.M s.selmon).mfact
        else fl.fsub a (CFloat.fin 1)
      if f.lt (CFloat.fin (1 / 20)) = true ∨ (CFloat.fin (19 / 20)).lt f = true then s
      else
        setM s s.selmon (fun m =>
          { m with
            mfact := f
            pertag := { m.pertag with mfacts := upd m.pertag.mfacts m.pertag.curtag f } })

/-- A run of `toggleview` calls with the given arguments, in order; `none`
when one of them has no defined result. -/
def toggleviews (s : State) : List Nat → Option State
  | [] => some s
  | u :: us =>
    match toggleview s u with
    | some s1 => toggleviews s1 us
    | none => none

/-- The current tag number `selmon->pertag->curtag`. -/
def curtag (s : State) : Nat := (s.M s.selmon).pertag.curtag

/-- The live settings of a monitor agree with the values saved for its current
tag, as `createmon` sets them up. -/
def PertagSync (m : Monitor) : Prop :=
  m.mfact = m.pertag.mfacts m.pertag.curtag
    ∧ m.sellt = m.pertag.sellts m.pertag.curtag
    ∧ m.lt m.sellt = m.pertag.ltidxs m.pertag.curtag m.sellt

/-- Xlib constant `CWX`. -/
def CWX : Nat := 1
/-- Xlib constant `CWY`. -/
def CWY : Nat := 2
/-- Xlib constant `CWWidth`. -/
def CWWidth : Nat := 4
/-- Xlib constant `CWHeight`. -/
def CWHeight : Nat := 8
/-- Xlib constant `CWBorderWidth`. -/
def CWBorderWidth : Nat := 16

/-- The fields of `XConfigureRequestEvent` read for a managed window. -/
structure ConfigureRequest where
  value_mask : Nat
  x : Int
  y : Int
  width : Int
  height : Int
  border_width : Int

/-- Function `configurerequest(e)` for the window of a managed client `c`
(`wintoclient` found it): `selm` is the record of the selected monitor, `m`
that of `c->mon`, `ignore` the flag `ignoreconfigurerequests`.  `configure`
and `XMoveResizeWindow` are X requests; C `/` on `int` is `Int.tdiv`. -/
def configurerequest (ignore : Int) (selm m : Monitor) (c : Client)
    (ev : ConfigureRequest) : Client :=
  if ignore ≠ 0 then c
  else if ev.value_mask &&& CWBorderWidth ≠ 0 then { c with bw := ev.border_width }
  else if c.isfloating ≠ 0 ∨ (selm.lt selm.sellt).arrange = none then
    let c1 : Client :=
      if ev.value_mask &&& CWX ≠ 0 then { c with oldx := c.x, x := m.mx + ev.x } else c
    let c2 : Client :=
      if ev.value_mask &&& CWY ≠ 0 then { c1 with oldy := c1.y, y := m.my + ev.y } else c1
    let c3 : Client :=
      if ev.value_mask &&& CWWidth ≠ 0 then { c2 with oldw := c2.w, w := ev.width } else c2
    let c4 : Client :=
      if ev.value_mask &&& CWHeight ≠ 0 then { c3 with oldh := c3.h, h := ev.height } else c3
    let c5 : Client :=
      if c4.x + c4.w > m.mx + m.mw ∧ c4.isfloating ≠ 0 then
        { c4 with x := m.mx + (Int.tdiv m.mw 2 - Int.tdiv (WIDTH c4) 2) }
      else c4
    let c6 : Client :=
      if c5.y + c5.h > m.my + m.mh ∧ c5.isfloating ≠ 0 then
        { c5 with y := m.my + (Int.tdiv m.mh 2 - Int.tdiv (HEIGHT c5) 2) }
      else c5
    c6
  else c


/-- From `exThree`: client 2 focused and then moved to the hidden tag 2; the
recency list is `[3, 2, 1]` with client 3 selected and client 2 hidden. -/
def exMid : State := tag (focus exThree (some 2)) 2


/-- The settings saved for tag `a` on the selected monitor name the layout `A`
in the saved layout slot and the ratio `r`, and they are the live settings
whenever `a` is the current tag. -/
def SavedFor (a : Nat) (A : Layout) (r : CFloat) (s : State) : Prop :=
  (s.M s.selmon).pertag.ltidxs a ((s.M s.selmon).pertag.sellts a) = A
    ∧ (s.M s.selmon).pertag.mfacts a = r
    ∧ (curtag s = a →
        (s.M s.selmon).sellt = (s.M s.selmon).pertag.sellts a
          ∧ (s.M s.selmon).lt (s.M s.selmon).sellt = A
          ∧ (s.M s.selmon).mfact = r)

/-- Two monitor records with the same layout and ratio settings. -/
def SameSettings (m k : Monitor) : Prop :=
  k.pertag = m.pertag ∧ k.lt = m.lt ∧ k.mfact = m.mfact ∧ k.sellt = m.sellt


/-- A second monitor, to the right of `exMon`, whose active layout has no
arrangement function (floating). -/
def exFloatMon : Monitor := { exMon with num := 1, mx := 1920, wx := 1920, lt := fun _ => ⟨1, none⟩ }

/-- A configure request that carries a position `x = 5` and a width of 640
and no border width. -/
def exReq : ConfigureRequest := ⟨CWX ||| CWWidth, 5, 0, 640, 0, 0⟩


/-- A tiling layout, the first one chosen in the tag-switch example. -/
def exLtA : Layout := ⟨1, some 1⟩

/-- A second tiling layout. -/
def exLtB : Layout := ⟨2, some 2⟩

/-- From `exInit` (tag 1 current): layout `exLtA` and ratio argument 1.6 are
chosen, then `toggleview` adds tag 2 and removes tag 1, which makes tag 2
current. -/
def exOnB : State :=
  (toggleviews (setmfact exactOps (setlayout exInit (some exLtA)) (some (CFloat.fin (8 / 5))))
      [2, 1]).getD
    exInit

/-- From `exOnB`: layout `exLtB` and ratio argument 1.3 are chosen, then
`toggleview` adds tag 1 and removes tag 2, which makes tag 1 current again. -/
def exBack : State :=
  (toggleviews (setmfact exactOps (setlayout exOnB (some exLtB)) (some (CFloat.fin (13 / 10))))
      [1, 2]).getD
    exInit

/-! ## Screen overlap and pointer grabs -/

/-- The rectangle `r` of a window with border width `bw`, its border included,
shares at least one pixel with the screen rectangle `[0, sw) x [0, sh)`. -/
def overlaps_screen (g : Env) (bw : Int) (r : Rect) : Prop :=
  r.x < g.sw ∧ 0 < r.x + r.w + 2 * bw ∧ r.y < g.sh ∧ 0 < r.y + r.h + 2 * bw

instance (g : Env) (bw : Int) (r : Rect) : Decidable (overlaps_screen g bw r) := by
  unfold overlaps_screen
  exact inferInstance

/-- A floating copy of `exClient`, as a client moved with the mouse is. -/
def exFloat : Client := { exClient with isfloating := 1 }

/-- The events `XMaskEvent` hands to the loops of `movemouse` and
`resizemouse`, by the cases of their `switch`; `handled` stands for
ConfigureRequest, Expose and MapRequest, `motion` carries the time stamp and
the pointer position, `other` is any event type the switch has no case for. -/
inductive DragEvent where
  | handled : DragEvent
  | motion (time : Nat) (x y : Int) : DragEvent
  | buttonRelease : DragEvent
  | other : DragEvent
deriving DecidableEq, Repr

/-- The Xlib calls of `movemouse` and `resizemouse` that concern the pointer,
with their results: `XGrabPointer` (true is `GrabSuccess`), `XQueryPointer`
(true is a non-zero return), `XMaskEvent` and `XUngrabPointer`. -/
inductive PointerCall where
  | grab (ok : Bool) : PointerCall
  | query (ok : Bool) : PointerCall
  | maskEvent : PointerCall
  | ungrab : PointerCall
deriving DecidableEq, Repr

/-- Whether the pointer grab is held after a sequence of calls. -/
def grab_held (tr : List PointerCall) : Bool :=
  tr.foldl (fun held call =>
    match call with
    | PointerCall.grab true => true
    | PointerCall.ungrab => false
    | _ => held) false

/-- The loop `do { XMaskEvent(...); ... } while (ev.type != ButtonRelease)`:
one `XMaskEvent` call per event up to and including the first ButtonRelease;
`none` when the events end without one (`XMaskEvent` then blocks). -/
def drag_loop : List DragEvent → Option (List PointerCall)
  | [] => none
  | DragEvent.buttonRelease :: _ => some [PointerCall.maskEvent]
  | _ :: evs =>
    match drag_loop evs with
    | some tr => some (PointerCall.maskEvent :: tr)
    | none => none

/-- Function `movemouse(arg)`, its pointer calls: `sel` is `selmon->sel`,
`grab` the result of `XGrabPointer`, `ptr` the result of `getrootptr`, `evs`
the events delivered afterwards.  `none` when the function does not return. -/
def movemouse_calls (sel : Option Client) (grab ptr : Bool) (evs : List DragEvent) :
    Option (List PointerCall) :=
  match sel with
  | none => some []
  | some c =>
    if c.isfullscreen ≠ 0 ∧ c.fakefullscreen ≠ 1 then some []
    else if grab = false then some [PointerCall.grab false]
    else if ptr = false then some [PointerCall.grab true, PointerCall.query false]
    else
      match drag_loop evs with
      | some tr =>
        some ([PointerCall.grab true, PointerCall.query true] ++ tr ++ [PointerCall.ungrab])
      | none => none

/-- Function `resizemouse(arg)`, its pointer calls: here `XQueryPointer` comes
before `XGrabPointer`. -/
def resizemouse_calls (sel : Option Client) (grab ptr : Bool) (evs : List DragEvent) :
    Option (List PointerCall) :=
  match sel with
  | none => some []
  | some c =>
    if c.isfullscreen ≠ 0 ∧ c.fakefullscreen ≠ 1 then some []
    else if ptr = false then some [PointerCall.query false]
    else if grab = false then some [PointerCall.query true, PointerCall.grab false]
    else
      match drag_loop evs with
      | some tr =>
        some ([PointerCall.query true, PointerCall.grab true] ++ tr ++ [PointerCall.ungrab])
      | none => none

/-! ## Monitor navigation -/

/-- The link `m->next` of monitor `m` in the monitor list: the pointer that
follows `m`, `none` (NULL) for the last monitor. -/
def mon_next : List Nat → Nat → Option Nat
  | [], _ => none
  | a :: r, m => if a = m then r.head? else mon_next r m

/-- The loop `for (m = mons; m->next != selmon; m = m->next);` of `dirtomon`:
the monitor whose link is `selmon`; `none` when the walk runs off the list. -/
def walk_to_pred : List Nat → Nat → Option Nat
  | [], _ => none
  | a :: r, sel => if r.head? = some sel then some a else walk_to_pred r sel

/-- Function `dirtomon(dir)`.  The loop `for (m = mons; m->next; m = m->next);`
ends at the last monitor of the list. -/
def dirtomon (s : State) (dir : Int) : Option Nat :=
  if dir > 0 then
    match mon_next s.mons s.selmon with
    | some m => some m
    | none => s.mons.head?
  else if s.mons.head? = some s.selmon then s.mons.getLast?
  else walk_to_pred s.mons s.selmon

/-- Repeated navigation: `k` times the selected monitor is replaced by
`dirtomon(dir)`; the monitor selected at the end. -/
def dirtomon_steps (s : State) (dir : Int) : Nat → Option Nat
  | 0 => some s.selmon
  | k + 1 =>
    match dirtomon s dir with
    | some m => dirtomon_steps { s with selmon := m } dir k
    | none => none

/-- Function `focusmon(arg)` with `arg->i = i`; `none` when a NULL pointer
would be followed. -/
def focusmon (s : State) (i : Int) : Option State :=
  match s.mons with
  | [] => none
  | [_] => some s
  | _ =>
    match dirtomon s i with
    | none => none
    | some m => if m = s.selmon then some s else some (focus { s with selmon := m } none)

/-! ## Key and error dispatch -/

/-- Xlib modifier mask `ShiftMask`. -/
def ShiftMask : Nat := 1
/-- Xlib modifier mask `LockMask` (CapsLock). -/
def LockMask : Nat := 2
/-- Xlib modifier mask `ControlMask`. -/
def ControlMask : Nat := 4
/-- Xlib modifier mask `Mod1Mask`. -/
def Mod1Mask : Nat := 8
/-- Xlib modifier mask `Mod2Mask`. -/
def Mod2Mask : Nat := 16
/-- Xlib modifier mask `Mod3Mask`. -/
def Mod3Mask : Nat := 32
/-- Xlib modifier mask `Mod4Mask`. -/
def Mod4Mask : Nat := 64
/-- Xlib modifier mask `Mod5Mask`. -/
def Mod5Mask : Nat := 128

/-- The complement `~x` of a 32-bit `unsigned int`. -/
def bitnot32 (x : Nat) : Nat := 4294967295 ^^^ (x % 4294967296)

/-- Macro `CLEANMASK(mask)`, with the global `numlockmask` as a parameter:
`mask & ~(numlockmask|LockMask) & (ShiftMask|ControlMask|Mod1Mask|...|Mod5Mask)`. -/
def CLEANMASK (numlockmask mask : Nat) : Nat :=
  mask &&& bitnot32 (numlockmask ||| LockMask)
    &&& (ShiftMask ||| ControlMask ||| Mod1Mask ||| Mod2Mask ||| Mod3Mask ||| Mod4Mask
          ||| Mod5Mask)

/-- A row of the `keys` table: modifier mask, key symbol and whether the
function pointer is set. -/
structure Key where
  mod : Nat
  keysym : Nat
  func : Bool

/-- The test of `keypress` for one row of the key table: the row fires for a
key event with key symbol `keysym` and modifier state `state`. -/
def keypress_fires (numlockmask : Nat) (k : Key) (keysym state : Nat) : Bool :=
  keysym == k.keysym && CLEANMASK numlockmask k.mod == CLEANMASK numlockmask state && k.func

/-- Xlib error code `BadWindow`. -/
def BadWindow : Nat := 3
/-- Xlib error code `BadMatch`. -/
def BadMatch : Nat := 8
/-- Xlib error code `BadDrawable`. -/
def BadDrawable : Nat := 9
/-- Xlib error code `BadAccess`. -/
def BadAccess : Nat := 10
/-- X protocol request code `X_ConfigureWindow`. -/
def X_ConfigureWindow : Nat := 12
/-- X protocol request code `X_GrabButton`. -/
def X_GrabButton : Nat := 28
/-- X protocol request code `X_GrabKey`. -/
def X_GrabKey : Nat := 33
/-- X protocol request code `X_SetInputFocus`. -/
def X_SetInputFocus : Nat := 42
/-- X protocol request code `X_CopyArea`. -/
def X_CopyArea : Nat := 62
/-- X protocol request code `X_PolySegment`. -/
def X_PolySegment : Nat := 66
/-- X protocol request code `X_PolyFillRectangle`. -/
def X_PolyFillRectangle : Nat := 70
/-- X protocol request code `X_PolyText8`. -/
def X_PolyText8 : Nat := 74

/-- What `xerror` does with an error event. -/
inductive ErrorAction where
  | swallowed : ErrorAction
  | passed : ErrorAction
deriving DecidableEq, Repr

/-- Function `xerror(dpy, ee)`: `swallowed` is `return 0` without a call of
`xerrorxlib`, `passed` the call `return xerrorxlib(dpy, ee)`. -/
def xerror (request_code error_code : Nat) : ErrorAction :=
  if error_code = BadWindow
    ∨ (request_code = X_SetInputFocus ∧ error_code = BadMatch)
    ∨ (request_code = X_PolyText8 ∧ error_code = BadDrawable)
    ∨ (request_code = X_PolyFillRectangle ∧ error_code = BadDrawable)
    ∨ (request_code = X_PolySegment ∧ error_code = BadDrawable)
    ∨ (request_code = X_ConfigureWindow ∧ error_code = BadMatch)
    ∨ (request_code = X_GrabButton ∧ error_code = BadAccess)
    ∨ (request_code = X_GrabKey ∧ error_code = BadAccess)
    ∨ (request_code = X_CopyArea ∧ error_code = BadDrawable) then ErrorAction.swallowed
  else ErrorAction.passed

/-- The allow-list of (request, error) pairs as the specification lists it. -/
def xerror_allowed : List (Nat × Nat) :=
  [(X_SetInputFocus, BadMatch), (X_PolyText8, BadDrawable), (X_PolyFillRectangle, BadDrawable),
   (X_PolySegment, BadDrawable), (X_ConfigureWindow, BadMatch), (X_GrabButton, BadAccess),
   (X_GrabKey, BadAccess), (X_CopyArea, BadDrawable)]

/-! ## Moving a client with the mouse -/

/-- The effect of `arrange(m)` on the record of a client `c` of monitor `m`:
`showhide` resizes a visible client to its own geometry when the layout is
floating or the client is floating, unless it is fullscreen (`vis` is
`ISVISIBLE(c)`); then `arrangemon` calls the layout function of `m`, if there
is one, whose effect on `c` is the parameter `layout` (the layout functions are
in the configuration, not in `dawn.c`).  `restack` issues X requests only. -/
def arrange_client (g : Env) (m : Monitor) (vis : Bool) (layout : Client → Client)
    (c : Client) : Client :=
  let c1 : Client :=
    if vis = true ∧ ((m.lt m.sellt).arrange = none ∨ c.isfloating ≠ 0) ∧ c.isfullscreen = 0 then
      resize g m c c.x c.y c.w c.h 0
    else c
  if (m.lt m.sellt).arrange ≠ none then layout c1 else c1

/-- Function `togglefloating(NULL)` for the selected client `c` of monitor `m`
(`c->mon`): `c->isfloating = !c->isfloating || c->isfixed`, the resize to its
own geometry when it became floating, and the closing `arrange(c->mon)`. -/
def togglefloating (g : Env) (m : Monitor) (vis : Bool) (layout : Client → Client)
    (c : Client) : Client :=
  if c.isfullscreen ≠ 0 ∧ c.fakefullscreen ≠ 1 then c
  else
    let c1 : Client := { c with isfloating := if c.isfloating = 0 ∨ c.isfixed ≠ 0 then 1 else 0 }
    let c2 : Client := if c1.isfloating ≠ 0 then resize g m c1 c1.x c1.y c1.w c1.h 0 else c1
    arrange_client g m vis layout c2

/-- The candidate `nx` of a motion step of `movemouse` after edge snapping:
`ocx` is the client's `x` at the start of the drag, `x` the pointer position at
the start, `ex` the pointer position of the event, `snap` the configured
threshold (`unsigned int snap`). -/
def movemouse_nx (snap : Nat) (selm : Monitor) (c : Client) (ocx x ex : Int) : Int :=
  let nx := ocx + (ex - x)
  if (selm.wx - nx).natAbs < snap then selm.wx
  else if ((selm.wx + selm.ww) - (nx + WIDTH c)).natAbs < snap then
    selm.wx + selm.ww - WIDTH c
  else nx

/-- The candidate `ny` of a motion step of `movemouse` after edge snapping. -/
def movemouse_ny (snap : Nat) (selm : Monitor) (c : Client) (ocy y ey : Int) : Int :=
  let ny := ocy + (ey - y)
  if (selm.wy - ny).natAbs < snap then selm.wy
  else if ((selm.wy + selm.wh) - (ny + HEIGHT c)).natAbs < snap then
    selm.wy + selm.wh - HEIGHT c
  else ny

/-- The `MotionNotify` case of the loop of `movemouse` for the dragged client
`c`, the selected client of the selected monitor `selm`: the client record and
`lasttime` after the step.  `Time` is an `unsigned long`, so the difference of
the time stamps is taken modulo 2^64.  `vis` and `layout` are the parameters
of `arrange_client`. -/
def movemouse_motion (g : Env) (snap : Nat) (selm : Monitor) (vis : Bool)
    (layout : Client → Client) (c : Client)
    (ocx ocy x y : Int) (lasttime time : Nat) (ex ey : Int) : Client × Nat :=
  if (time + 18446744073709551616 - lasttime) % 18446744073709551616 ≤ 1000 / 60 then
    (c, lasttime)
  else
    let nx := movemouse_nx snap selm c ocx x ex
    let ny := movemouse_ny snap selm c ocy y ey
    let c1 : Client :=
      if c.isfloating = 0 ∧ (selm.lt selm.sellt).arrange ≠ none
          ∧ ((nx - c.x).natAbs > snap ∨ (ny - c.y).natAbs > snap) then
        togglefloating g selm vis layout c
      else c
    let c2 : Client :=
      if (selm.lt selm.sellt).arrange = none ∨ c1.isfloating ≠ 0 then
        resize g selm c1 nx ny c1.w c1.h 1
      else c1
    (c2, time)

/-! ## Scratchpads over workspaces (`src/lib/renamed_scratchpads.c`) -/

/-- Modelled from the spec: the `Workspace` record and the client fields
`ws`, `scratchkey` and the `Invisible` flag are declared in a header that is
not among the sources.  A workspace owns an arrangement list (`ws->clients`,
linked through `c->next`) and a recency list (`ws->stack`, linked through
`c->snext`) and a selected client, as a monitor of `dawn.c` does; here the
links are kept as pointer fields, `none` being NULL.  `workspaces` is the list
of workspace pointers in link order and `monnum` is `ws->mon->num`. -/
structure WHeap where
  workspaces : List Nat
  selws : Nat
  clients : Nat → Option Nat
  stack : Nat → Option Nat
  sel : Nat → Option Nat
  monnum : Nat → Int
  next : Nat → Option Nat
  snext : Nat → Option Nat
  ws : Nat → Nat
  scratchkey : Nat → Nat
  invisible : Nat → Bool

/-- The cell a `Client **tc` points to: the list head of a workspace or the
link field of a client. -/
inductive Cell where
  | head (ws : Nat) : Cell
  | link (c : Nat) : Cell
deriving DecidableEq, Repr

/-- The list of pointers reached from `start` through the link `nxt`, read with
`fuel` steps; `none` when the fuel runs out before NULL. -/
def chain (nxt : Nat → Option Nat) : Nat → Option Nat → Option (List Nat)
  | _, none => some []
  | 0, some _ => none
  | fuel + 1, some c =>
    match chain nxt fuel (nxt c) with
    | some r => some (c :: r)
    | none => none

/-- The scan `for (tc = &c->ws->clients; *tc && *tc != c; tc = &(*tc)->next);`
of `detach`: the cell it stops at. -/
def detach_scan (h : WHeap) (c : Nat) : Nat → Cell → Option Cell
  | 0, _ => none
  | fuel + 1, tc =>
    match (match tc with
      | Cell.head w => h.clients w
      | Cell.link t => h.next t) with
    | none => some tc
    | some t => if t = c then some tc else detach_scan h c fuel (Cell.link t)

/-- Modelled from the spec: the workspace variant of `detach(c)` is not among
the sources; it is `detach` of `dawn.c` with `c->ws` in place of `c->mon`: the
cell that points to `c` receives `c->next`, and `c->next` itself is left as it
is. -/
def ws_detach (fuel : Nat) (h : WHeap) (c : Nat) : Option WHeap :=
  match detach_scan h c fuel (Cell.head (h.ws c)) with
  | some (Cell.head w) => some { h with clients := upd h.clients w (h.next c) }
  | some (Cell.link t) => some { h with next := upd h.next t (h.next c) }
  | none => none

/-- The scan of `detachstack` over the recency links. -/
def detachstack_scan (h : WHeap) (c : Nat) : Nat → Cell → Option Cell
  | 0, _ => none
  | fuel + 1, tc =>
    match (match tc with
      | Cell.head w => h.stack w
      | Cell.link t => h.snext t) with
    | none => some tc
    | some t => if t = c then some tc else detachstack_scan h c fuel (Cell.link t)

/-- The loop `for (t = stack; t && !ISVISIBLE(t); t = t->snext);`. -/
def first_visible (vis : Nat → Bool) (h : WHeap) : Nat → Option Nat → Option (Option Nat)
  | _, none => some none
  | 0, some _ => none
  | fuel + 1, some t => if vis t then some (some t) else first_visible vis h fuel (h.snext t)

/-- Modelled from the spec: the workspace variant of `detachstack(c)`, taken
as `detachstack` of `dawn.c` with `c->ws` in place of `c->mon`; `vis` stands
for the macro `ISVISIBLE`. -/
def ws_detachstack (fuel : Nat) (vis : Nat → Bool) (h : WHeap) (c : Nat) : Option WHeap :=
  let h1 : Option WHeap :=
    match detachstack_scan h c fuel (Cell.head (h.ws c)) with
    | some (Cell.head w) => some { h with stack := upd h.stack w (h.snext c) }
    | some (Cell.link t) => some { h with snext := upd h.snext t (h.snext c) }
    | none => none
  match h1 with
  | none => none
  | some h1 =>
    if h1.sel (h1.ws c) = some c then
      match first_visible vis h1 fuel (h1.stack (h1.ws c)) with
      | some t => some { h1 with sel := upd h1.sel (h1.ws c) t }
      | none => none
    else some h1

/-- Modelled from the spec: the workspace variant of `attachstack(c)`:
`c->snext = c->ws->stack; c->ws->stack = c;`. -/
def ws_attachstack (h : WHeap) (c : Nat) : WHeap :=
  { h with snext := upd h.snext c (h.stack (h.ws c)), stack := upd h.stack (h.ws c) (some c) }

/-- The counters of the first pass of `togglescratch`. -/
structure ScratchCount where
  scratchvisible : Int
  multimonscratch : Bool
  scratchmon : Int
  numscratchpads : Int

/-- The inner loop `for (c = ws->clients; c; c = c->next)` of the first pass
of `togglescratch` for workspace `w`; `vis` and `hidden` stand for the macros
`ISVISIBLE` and `HIDDEN`. -/
def count_ws (vis hidden : Nat → Bool) (h : WHeap) (key w : Nat) :
    Nat → Option Nat → ScratchCount → Option ScratchCount
  | _, none, a => some a
  | 0, some _, _ => none
  | fuel + 1, some c, a =>
    if h.scratchkey c ≠ key then count_ws vis hidden h key w fuel (h.next c) a
    else
      let a1 : ScratchCount :=
        if a.scratchmon ≠ -1 ∧ a.scratchmon ≠ h.monnum w then
          { a with multimonscratch := true }
        else a
      let a2 : ScratchCount :=
        if vis c ∧ hidden c = false then { a1 with scratchvisible := a1.scratchvisible + 1 }
        else a1
      count_ws vis hidden h key w fuel (h.next c)
        { a2 with scratchmon := h.monnum w, numscratchpads := a2.numscratchpads + 1 }

/-- The first pass of `togglescratch` over the workspaces. -/
def count_all (vis hidden : Nat → Bool) (h : WHeap) (key n : Nat) :
    List Nat → ScratchCount → Option ScratchCount
  | [], a => some a
  | w :: ws, a =>
    match count_ws vis hidden h key w n (h.clients w) a with
    | some a1 => count_all vis hidden h key n ws a1
    | none => none

/-- The state of the second pass of `togglescratch`: the heap, `found`, and
the temporary list `monclients` with its end `last`. -/
structure Collect where
  heap : WHeap
  found : Option Nat
  last : Option Nat
  monclients : Option Nat

/-- The inner loop `for (c = ws->stack; c; c = next)` of the second pass of
`togglescratch` for workspace `w`.  The X requests for a hidden client do not
touch the heap. -/
def collect_ws (n : Nat) (vis : Nat → Bool) (a : ScratchCount) (key w : Nat) :
    Nat → Option Nat → Collect → Option Collect
  | _, none, st => some st
  | 0, some _, _ => none
  | fuel + 1, some c, st =>
    let next := st.heap.snext c
    if st.heap.scratchkey c ≠ key then collect_ws n vis a key w fuel next st
    else
      let found : Option Nat :=
        match st.found with
        | none => some c
        | some fd =>
          if w = st.heap.selws ∧ st.heap.ws fd ≠ st.heap.selws then some c else some fd
      if a.multimonscratch = false ∧ st.heap.ws c ≠ st.heap.selws then
        match ws_detach n st.heap c with
        | none => none
        | some h1 =>
          match ws_detachstack n vis h1 c with
          | none => none
          | some h2 =>
            match st.last with
            | some l =>
              collect_ws n vis a key w fuel next
                { heap := { h2 with next := upd h2.next l (some c) }, found := found,
                  last := some c, monclients := st.monclients }
            | none =>
              collect_ws n vis a key w fuel next
                { heap := h2, found := found, last := some c, monclients := some c }
      else if a.scratchvisible = a.numscratchpads then
        collect_ws n vis a key w fuel next
          { st with heap := { st.heap with invisible := upd st.heap.invisible c true },
                    found := found }
      else
        collect_ws n vis a key w fuel next
          { st with heap := { st.heap with invisible := upd st.heap.invisible c false },
                    found := found }

/-- The second pass of `togglescratch` over the workspaces. -/
def collect_all (n : Nat) (vis : Nat → Bool) (a : ScratchCount) (key : Nat) :
    List Nat → Collect → Option Collect
  | [], st => some st
  | w :: ws, st =>
    match collect_ws n vis a key w n (st.heap.stack w) st with
    | some st1 => collect_all n vis a key ws st1
    | none => none

/-- The loop `for (last = selws->clients; last && last->next; last = last->next);`
from a non-NULL start. -/
def last_client (h : WHeap) : Nat → Nat → Option Nat
  | 0, _ => none
  | fuel + 1, l =>
    match h.next l with
    | none => some l
    | some t => last_client h fuel t

/-- The third loop of `togglescratch`, `for (c = monclients; c; c = next)`:
each client of the temporary list gets `c->ws = selws`, is linked after the
last client of `selws->clients`, gets `c->next = NULL`, is pushed on the
recency list and loses the `Invisible` flag.  The geometry of a floating
client is not part of the heap. -/
def attach_moved (n : Nat) : Nat → WHeap → Option Nat → Option WHeap
  | _, h, none => some h
  | 0, _, some _ => none
  | fuel + 1, h, some c =>
    let next := h.next c
    let h1 : WHeap := { h with ws := upd h.ws c h.selws }
    let h2 : Option WHeap :=
      match h1.clients h1.selws with
      | some first =>
        match last_client h1 n first with
        | some l => some { h1 with next := upd h1.next l (some c) }
        | none => none
      | none => some { h1 with clients := upd h1.clients h1.selws (some c) }
    match h2 with
    | none => none
    | some h2 =>
      let h3 : WHeap := ws_attachstack { h2 with next := upd h2.next c none } c
      attach_moved n fuel { h3 with invisible := upd h3.invisible c false } next

/-- The first two passes of `togglescratch` for the key `key`: the heap with
the temporary list collected.  `n` bounds the length of every list walk;
`none` when a walk does not end within `n` steps. -/
def togglescratch_collect (n : Nat) (vis hidden : Nat → Bool) (h : WHeap) (key : Nat) :
    Option Collect :=
  match count_all vis hidden h key n h.workspaces ⟨0, false, -1, 0⟩ with
  | none => none
  | some a => collect_all n vis a key h.workspaces ⟨h, none, none, none⟩

/-- Function `togglescratch(arg)` with `((char**)arg->v)[0][0] = key`, up to
its third loop: the heap after the matching scratchpad clients were shown,
hidden or moved.  The closing `focus`/`arrange`/`spawnscratch` step leaves the
arrangement lists and the `ws` links as they are. -/
def togglescratch_move (n : Nat) (vis hidden : Nat → Bool) (h : WHeap) (key : Nat) :
    Option WHeap :=
  match togglescratch_collect n vis hidden h key with
  | none => none
  | some st => attach_moved n n st.heap st.monclients

/-- Two workspaces on two monitors: the selected workspace 0 holds client 3
(no scratch key); workspace 1 holds the clients 1 and 2 with arrangement list
`[1, 2]` and recency list `[2, 1]`. -/
def exHeap : WHeap :=
  { workspaces := [0, 1], selws := 0,
    clients := fun w => if w = 0 then some 3 else if w = 1 then some 1 else none,
    stack := fun w => if w = 0 then some 3 else if w = 1 then some 2 else none,
    sel := fun w => if w = 0 then some 3 else if w = 1 then some 2 else none,
    monnum := fun w => w,
    next := fun c => if c = 1 then some 2 else none,
    snext := fun c => if c = 2 then some 1 else none,
    ws := fun c => if c = 3 then 0 else 1,
    scratchkey := fun _ => 0,
    invisible := fun _ => false }

/-- The heap `exHeap` with both clients of workspace 1 marked with scratch
key 7. -/
def exHeapBoth : WHeap := { exHeap with scratchkey := fun c => if c = 3 then 0 else 7 }

/-- The heap `exHeap` with only client 1 marked with scratch key 7: client 2,
its successor in the arrangement list, is not a scratchpad. -/
def exHeapOne : WHeap := { exHeap with scratchkey := fun c => if c = 1 then 7 else 0 }

/-! ## Bar module placement -/

/-- Enum value `BAR_ALIGN_LEFT`. -/
def BAR_ALIGN_LEFT : Int := 0
/-- Enum value `BAR_ALIGN_CENTER`. -/
def BAR_ALIGN_CENTER : Int := 1
/-- Enum value `BAR_ALIGN_RIGHT`. -/
def BAR_ALIGN_RIGHT : Int := 2
/-- Enum value `BAR_ALIGN_LEFT_LEFT`. -/
def BAR_ALIGN_LEFT_LEFT : Int := 3
/-- Enum value `BAR_ALIGN_LEFT_RIGHT`. -/
def BAR_ALIGN_LEFT_RIGHT : Int := 4
/-- Enum value `BAR_ALIGN_LEFT_CENTER`. -/
def BAR_ALIGN_LEFT_CENTER : Int := 5
/-- Enum value `BAR_ALIGN_NONE`. -/
def BAR_ALIGN_NONE : Int := 6
/-- Enum value `BAR_ALIGN_RIGHT_LEFT`. -/
def BAR_ALIGN_RIGHT_LEFT : Int := 7
/-- Enum value `BAR_ALIGN_RIGHT_RIGHT`. -/
def BAR_ALIGN_RIGHT_RIGHT : Int := 8
/-- Enum value `BAR_ALIGN_RIGHT_CENTER`. -/
def BAR_ALIGN_RIGHT_CENTER : Int := 9

/-- A row of `barrules` as `drawbarwin` reads it: the monitor and bar
selectors, the alignment, and the width function (`none` is a NULL pointer) as
a function of the offered width `warg.w`. -/
structure BarRule where
  monitor : Int
  bar : Int
  alignment : Int
  widthfunc : Option (Int → Int)

/-- The fields of `struct Bar` that `drawbarwin` reads for the placement, with
`monindex` for `bar->mon->index` and `onselmon` for `bar->mon == selmon`. -/
structure Bar where
  idx : Int
  borderpx : Int
  bw : Int
  monindex : Int
  onselmon : Bool

/-- The placement variables of `drawbarwin`: the left and the right free
area. -/
structure BarArea where
  lx : Int
  lw : Int
  rx : Int
  rw : Int
deriving DecidableEq, Repr

/-- The body of the rule loop of `drawbarwin` for a rule that passes the
filters at its head: the areas afterwards and the values stored in `bar->x[r]`
and `bar->w[r]`.  `fw` is what the width function returned. -/
def place_module (a : BarArea) (alignment fw : Int) : BarArea × Int × Int :=
  let warg_w := if alignment < BAR_ALIGN_RIGHT_LEFT then a.lw else a.rw
  let w := min warg_w fw
  let a1 : BarArea :=
    if a.lw ≤ 0 then { a with lw := a.rw, lx := a.rx }
    else if a.rw ≤ 0 then { a with rw := a.lw, rx := a.lx }
    else a
  if alignment = BAR_ALIGN_LEFT_RIGHT ∨ alignment = BAR_ALIGN_RIGHT then
    let x := a1.lx + a1.lw - w
    let rw := if a1.lx = a1.rx then a1.rw - w else a1.rw
    ({ a1 with rw := rw, lw := a1.lw - w }, x, w)
  else if alignment = BAR_ALIGN_LEFT_CENTER ∨ alignment = BAR_ALIGN_CENTER then
    let x := a1.lx + Int.tdiv a1.lw 2 - Int.tdiv w 2
    let a2 : BarArea :=
      if a1.lx = a1.rx then { a1 with rw := a1.rx + a1.rw - x - w, rx := x + w } else a1
    ({ a2 with lw := x - a2.lx }, x, w)
  else if alignment = BAR_ALIGN_RIGHT_LEFT then
    let x := a1.rx
    let a2 : BarArea :=
      if a1.lx = a1.rx then { a1 with lx := a1.lx + w, lw := a1.lw - w } else a1
    ({ a2 with rx := a2.rx + w, rw := a2.rw - w }, x, w)
  else if alignment = BAR_ALIGN_RIGHT_RIGHT then
    let x := a1.rx + a1.rw - w
    let lw := if a1.lx = a1.rx then a1.lw - w else a1.lw
    ({ a1 with lw := lw, rw := a1.rw - w }, x, w)
  else if alignment = BAR_ALIGN_RIGHT_CENTER then
    let x := a1.rx + Int.tdiv a1.rw 2 - Int.tdiv w 2
    let a2 : BarArea :=
      if a1.lx = a1.rx then { a1 with lw := a1.lx + a1.lw - x + w, lx := x + w } else a1
    ({ a2 with rw := x - a2.rx }, x, w)
  else
    let x := a1.lx
    let a2 : BarArea :=
      if a1.lx = a1.rx then { a1 with rx := a1.rx + w, rw := a1.rw - w } else a1
    ({ a2 with lx := a2.lx + w, lw := a2.lw - w }, x, w)

/-- The rule loop of `drawbarwin`: for every rule, in order, the pair
`(bar->x[r], bar->w[r])` it stores, or `none` for a rule skipped by the
filters at the loop head (`'A'` is 65). -/
def place_rules (bar : Bar) : BarArea → List BarRule → List (Option (Int × Int))
  | _, [] => []
  | a, br :: rest =>
    match br.widthfunc with
    | none => none :: place_rules bar a rest
    | some f =>
      if br.bar ≠ bar.idx ∨ (br.monitor = 65 ∧ bar.onselmon = false) then
        none :: place_rules bar a rest
      else if br.monitor ≠ 65 ∧ br.monitor ≠ -1 ∧ br.monitor ≠ bar.monindex then
        none :: place_rules bar a rest
      else
        let r := place_module a br.alignment
          (f (if br.alignment < BAR_ALIGN_RIGHT_LEFT then a.lw else a.rw))
        some r.2 :: place_rules bar r.1 rest

/-- Function `drawbarwin(bar)` for a bar that has a window and is not external
(otherwise it returns at once), the placement of the modules: the free areas
start as the inner area of the bar, `lx = rx = borderpx` and
`lw = rw = bw - 2 * borderpx`. -/
def drawbarwin (bar : Bar) (rules : List BarRule) : List (Option (Int × Int)) :=
  place_rules bar
    ⟨bar.borderpx, bar.bw - 2 * bar.borderpx, bar.borderpx, bar.bw - 2 * bar.borderpx⟩ rules

/-- A bar 100 pixels wide without border, on the selected monitor. -/
def exBar : Bar := ⟨0, 0, 100, 0, true⟩

/-- Two rules for `exBar`: a module of width 20 with alignment
`BAR_ALIGN_RIGHT_CENTER`, then a module of width 10 with alignment
`BAR_ALIGN_RIGHT`. -/
def exBarRules : List BarRule :=
  [⟨-1, 0, BAR_ALIGN_RIGHT_CENTER, some (fun _ => 20)⟩,
   ⟨-1, 0, BAR_ALIGN_RIGHT, some (fun _ => 10)⟩]

/-! # Theorems -/

/-! ## Lists -/

theorem unlink_eq_filter (c : Nat) (l : List Nat) (hn : l.Nodup) :
    unlink c l = l.filter (fun t => t != c) := by
  induction l with
  | nil => rfl
  | cons t r ih =>
    have hr := (List.nodup_cons.mp hn)
    by_cases h : t = c
    · subst h
      have e : r.filter (fun x => x != t) = r := by
        apply List.filter_eq_self.mpr
        intro a ha
        have : a ≠ t := fun e => hr.1 (e ▸ ha)
        simpa using this
      rw [List.filter_cons]
      simp only [unlink, if_true, bne_self_eq_false, Bool.false_eq_true, if_false]
      exact e.symm
    · have hb : (t != c) = true := by simpa using h
      rw [List.filter_cons]
      simp only [unlink, h, if_false, hb, if_true, ih hr.2]

theorem mem_unlink {c t : Nat} {l : List Nat} (hn : l.Nodup) :
    t ∈ unlink c l ↔ t ∈ l ∧ t ≠ c := by
  rw [unlink_eq_filter c l hn]; simp

theorem nodup_unlink {c : Nat} {l : List Nat} (hn : l.Nodup) : (unlink c l).Nodup := by
  rw [unlink_eq_filter c l hn]; exact hn.filter _

theorem unlink_of_not_mem {c : Nat} {l : List Nat} (h : c ∉ l) : unlink c l = l := by
  induction l with
  | nil => rfl
  | cons t r ih =>
    have h1 : t ≠ c := fun e => h (e ▸ List.mem_cons_self _ _)
    have h2 : c ∉ r := fun e => h (List.mem_cons_of_mem _ e)
    simp [unlink, h1, ih h2]

theorem nodup_cons_unlink {c : Nat} {l : List Nat} (hn : l.Nodup) : (c :: unlink c l).Nodup := by
  refine List.nodup_cons.mpr ⟨?_, nodup_unlink hn⟩
  intro h
  exact ((mem_unlink hn).mp h).2 rfl

theorem mem_cons_unlink {c t : Nat} {l : List Nat} (hn : l.Nodup) (hc : c ∈ l) :
    t ∈ c :: unlink c l ↔ t ∈ l := by
  simp only [List.mem_cons, mem_unlink hn]
  constructor
  · rintro (rfl | h)
    · exact hc
    · exact h.1
  · intro h
    by_cases e : t = c
    · exact Or.inl e
    · exact Or.inr ⟨h, e⟩

theorem perm_cons_unlink {c : Nat} {l : List Nat} (hn : l.Nodup) (hc : c ∈ l) :
    (c :: unlink c l).Perm l := by
  apply (List.perm_ext_iff_of_nodup (nodup_cons_unlink hn) hn).mpr
  intro a
  exact mem_cons_unlink hn hc

/-! ## Field access after the primitive updates -/

@[simp] theorem upd_same {α : Type} (f : Nat → α) (k : Nat) (v : α) : upd f k v k = v := by
  simp [upd]

theorem upd_of_ne {α : Type} (f : Nat → α) {k j : Nat} (v : α) (h : j ≠ k) :
    upd f k v j = f j := by
  simp [upd, h]

@[simp] theorem setM_mons (s : State) (m : Nat) (f : Monitor → Monitor) :
    (setM s m f).mons = s.mons := rfl
@[simp] theorem setM_selmon (s : State) (m : Nat) (f : Monitor → Monitor) :
    (setM s m f).selmon = s.selmon := rfl
@[simp] theorem setM_tags (s : State) (m : Nat) (f : Monitor → Monitor) :
    (setM s m f).tags = s.tags := rfl
@[simp] theorem setM_mon (s : State) (m : Nat) (f : Monitor → Monitor) :
    (setM s m f).mon = s.mon := rfl
@[simp] theorem setM_win (s : State) (m : Nat) (f : Monitor → Monitor) :
    (setM s m f).win = s.win := rfl
theorem setM_M (s : State) (m k : Nat) (f : Monitor → Monitor) :
    (setM s m f).M k = if k = m then f (s.M k) else s.M k := rfl
@[simp] theorem setM_M_self (s : State) (m : Nat) (f : Monitor → Monitor) :
    (setM s m f).M m = f (s.M m) := by simp [setM]
theorem setM_M_ne (s : State) {m k : Nat} (f : Monitor → Monitor) (h : k ≠ m) :
    (setM s m f).M k = s.M k := by simp [setM, h]

theorem ISVISIBLE_congr {s t : State} (ht : t.tags = s.tags) (hm : t.mon = s.mon)
    (hc : ∀ k, (t.M k).curtags = (s.M k).curtags) : ISVISIBLE t = ISVISIBLE s := by
  funext c
  simp [ISVISIBLE, ht, hm, hc]

theorem setM_curtags (s : State) (m : Nat) (f : Monitor → Monitor)
    (hf : ∀ r, (f r).curtags = r.curtags) (k : Nat) :
    ((setM s m f).M k).curtags = (s.M k).curtags := by
  by_cases h : k = m
  · subst h; simp [hf]
  · simp [setM_M_ne s f h]

theorem ISVISIBLE_setM (s : State) (m : Nat) (f : Monitor → Monitor)
    (hf : ∀ r, (f r).curtags = r.curtags) : ISVISIBLE (setM s m f) = ISVISIBLE s :=
  ISVISIBLE_congr rfl rfl (setM_curtags s m f hf)

@[simp] theorem ISVISIBLE_setsel (s : State) (m : Nat) (v : Option Nat) :
    ISVISIBLE (setM s m (fun r => { r with sel := v })) = ISVISIBLE s :=
  ISVISIBLE_setM s m (fun r => { r with sel := v }) (fun _ => rfl)

/-! ### attach, attachstack, detach -/

@[simp] theorem attach_mons (s : State) (c : Nat) : (attach s c).mons = s.mons := rfl
@[simp] theorem attach_selmon (s : State) (c : Nat) : (attach s c).selmon = s.selmon := rfl
@[simp] theorem attach_tags (s : State) (c : Nat) : (attach s c).tags = s.tags := rfl
@[simp] theorem attach_mon (s : State) (c : Nat) : (attach s c).mon = s.mon := rfl
@[simp] theorem attach_win (s : State) (c : Nat) : (attach s c).win = s.win := rfl
@[simp] theorem attach_clients (s : State) (c k : Nat) :
    ((attach s c).M k).clients
      = if k = s.mon c then c :: (s.M k).clients else (s.M k).clients := by
  unfold attach; rw [setM_M]; split_ifs <;> rfl
@[simp] theorem attach_stack (s : State) (c k : Nat) :
    ((attach s c).M k).stack = (s.M k).stack := by
  unfold attach; rw [setM_M]; split_ifs <;> rfl
@[simp] theorem attach_sel (s : State) (c k : Nat) :
    ((attach s c).M k).sel = (s.M k).sel := by
  unfold attach; rw [setM_M]; split_ifs <;> rfl
@[simp] theorem attach_curtags (s : State) (c k : Nat) :
    ((attach s c).M k).curtags = (s.M k).curtags := by
  unfold attach; rw [setM_M]; split_ifs <;> rfl
@[simp] theorem ISVISIBLE_attach (s : State) (c : Nat) :
    ISVISIBLE (attach s c) = ISVISIBLE s :=
  ISVISIBLE_congr rfl rfl (attach_curtags s c)

@[simp] theorem attachstack_mons (s : State) (c : Nat) : (attachstack s c).mons = s.mons := rfl
@[simp] theorem attachstack_selmon (s : State) (c : Nat) :
    (attachstack s c).selmon = s.selmon := rfl
@[simp] theorem attachstack_tags (s : State) (c : Nat) : (attachstack s c).tags = s.tags := rfl
@[simp] theorem attachstack_mon (s : State) (c : Nat) : (attachstack s c).mon = s.mon := rfl
@[simp] theorem attachstack_win (s : State) (c : Nat) : (attachstack s c).win = s.win := rfl
@[simp] theorem attachstack_stack (s : State) (c k : Nat) :
    ((attachstack s c).M k).stack
      = if k = s.mon c then c :: (s.M k).stack else (s.M k).stack := by
  unfold attachstack; rw [setM_M]; split_ifs <;> rfl
@[simp] theorem attachstack_clients (s : State) (c k : Nat) :
    ((attachstack s c).M k).clients = (s.M k).clients := by
  unfold attachstack; rw [setM_M]; split_ifs <;> rfl
@[simp] theorem attachstack_sel (s : State) (c k : Nat) :
    ((attachstack s c).M k).sel = (s.M k).sel := by
  unfold attachstack; rw [setM_M]; split_ifs <;> rfl
@[simp] theorem attachstack_curtags (s : State) (c k : Nat) :
    ((attachstack s c).M k).curtags = (s.M k).curtags := by
  unfold attachstack; rw [setM_M]; split_ifs <;> rfl
@[simp] theorem ISVISIBLE_attachstack (s : State) (c : Nat) :
    ISVISIBLE (attachstack s c) = ISVISIBLE s :=
  ISVISIBLE_congr rfl rfl (attachstack_curtags s c)

@[simp] theorem detach_mons (s : State) (c : Nat) : (detach s c).mons = s.mons := rfl
@[simp] theorem detach_selmon (s : State) (c : Nat) : (detach s c).selmon = s.selmon := rfl
@[simp] theorem detach_tags (s : State) (c : Nat) : (detach s c).tags = s.tags := rfl
@[simp] theorem detach_mon (s : State) (c : Nat) : (detach s c).mon = s.mon := rfl
@[simp] theorem detach_win (s : State) (c : Nat) : (detach s c).win = s.win := rfl
@[simp] theorem detach_clients (s : State) (c k : Nat) :
    ((detach s c).M k).clients
      = if k = s.mon c then unlink c (s.M k).clients else (s.M k).clients := by
  unfold detach; rw [setM_M]; split_ifs <;> rfl
@[simp] theorem detach_stack (s : State) (c k : Nat) :
    ((detach s c).M k).stack = (s.M k).stack := by
  unfold detach; rw [setM_M]; split_ifs <;> rfl
@[simp] theorem detach_sel (s : State) (c k : Nat) :
    ((detach s c).M k).sel = (s.M k).sel := by
  unfold detach; rw [setM_M]; split_ifs <;> rfl
@[simp] theorem detach_curtags (s : State) (c k : Nat) :
    ((detach s c).M k).curtags = (s.M k).curtags := by
  unfold detach; rw [setM_M]; split_ifs <;> rfl
@[simp] theorem ISVISIBLE_detach (s : State) (c : Nat) :
    ISVISIBLE (detach s c) = ISVISIBLE s :=
  ISVISIBLE_congr rfl rfl (detach_curtags s c)

/-! ### detachstack -/

@[simp] theorem detachstack_mons (s : State) (c : Nat) : (detachstack s c).mons = s.mons := by
  unfold detachstack; simp only []; split_ifs <;> rfl
@[simp] theorem detachstack_selmon (s : State) (c : Nat) :
    (detachstack s c).selmon = s.selmon := by
  unfold detachstack; simp only []; split_ifs <;> rfl
@[simp] theorem detachstack_tags (s : State) (c : Nat) : (detachstack s c).tags = s.tags := by
  unfold detachstack; simp only []; split_ifs <;> rfl
@[simp] theorem detachstack_mon (s : State) (c : Nat) : (detachstack s c).mon = s.mon := by
  unfold detachstack; simp only []; split_ifs <;> rfl
@[simp] theorem detachstack_win (s : State) (c : Nat) : (detachstack s c).win = s.win := by
  unfold detachstack; simp only []; split_ifs <;> rfl
@[simp] theorem detachstack_clients (s : State) (c k : Nat) :
    ((detachstack s c).M k).clients = (s.M k).clients := by
  unfold detachstack; simp only []; split_ifs <;> (simp only [setM_M]; split_ifs <;> rfl)
@[simp] theorem detachstack_stack (s : State) (c k : Nat) :
    ((detachstack s c).M k).stack
      = if k = s.mon c then unlink c (s.M k).stack else (s.M k).stack := by
  unfold detachstack; simp only []; split_ifs <;> simp only [setM_M, setM_mon] <;> split_ifs <;> rfl
@[simp] theorem detachstack_curtags (s : State) (c k : Nat) :
    ((detachstack s c).M k).curtags = (s.M k).curtags := by
  unfold detachstack; simp only []; split_ifs <;> (simp only [setM_M]; split_ifs <;> rfl)
@[simp] theorem ISVISIBLE_detachstack (s : State) (c : Nat) :
    ISVISIBLE (detachstack s c) = ISVISIBLE s :=
  ISVISIBLE_congr (detachstack_tags s c) (detachstack_mon s c) (detachstack_curtags s c)

theorem detachstack_sel (s : State) (c k : Nat) :
    ((detachstack s c).M k).sel
      = if k = s.mon c ∧ (s.M k).sel = some c
        then (unlink c (s.M k).stack).find? (ISVISIBLE s) else (s.M k).sel := by
  have hv : ISVISIBLE (setM s (s.mon c) (fun m => { m with stack := unlink c m.stack }))
      = ISVISIBLE s := ISVISIBLE_setM _ _ _ (fun _ => rfl)
  unfold detachstack
  simp only [setM_mon, setM_M_self, hv]
  by_cases hk : k = s.mon c
  · subst hk
    by_cases hs : (s.M (s.mon c)).sel = some c
    · simp [hs]
    · simp [hs]
  · by_cases hs : (s.M (s.mon c)).sel = some c
    · simp [hs, hk, setM_M_ne]
    · simp [hs, hk, setM_M_ne]

/-! ## Preservation of well-formedness -/

theorem Managed.mon_mem {s : State} {c : Nat} (hw : WF s) (h : Managed s c) :
    s.mon c ∈ s.mons := by
  obtain ⟨m, hm, hc⟩ := h
  rw [hw.owner m hm c hc]; exact hm

theorem Managed.mem_clients {s : State} {c : Nat} (hw : WF s) (h : Managed s c) :
    c ∈ (s.M (s.mon c)).clients := by
  obtain ⟨m, hm, hc⟩ := h
  rw [hw.owner m hm c hc]; exact hc

theorem Managed.mem_stack {s : State} {c : Nat} (hw : WF s) (h : Managed s c) :
    c ∈ (s.M (s.mon c)).stack :=
  (hw.same _ (h.mon_mem hw) c).mp (h.mem_clients hw)

theorem WF.managed_of_stack {s : State} (hw : WF s) {m c : Nat} (hm : m ∈ s.mons)
    (hc : c ∈ (s.M m).stack) : Managed s c :=
  ⟨m, hm, (hw.same m hm c).mpr hc⟩

theorem WF.mon_of_stack {s : State} (hw : WF s) {m c : Nat} (hm : m ∈ s.mons)
    (hc : c ∈ (s.M m).stack) : s.mon c = m :=
  hw.owner m hm c ((hw.same m hm c).mpr hc)

/-- Changing only the tags keeps the registry well formed. -/
theorem WF.set_tags {s : State} (hw : WF s) (t : Nat → Nat) : WF { s with tags := t } :=
  ⟨hw.nd_mons, hw.selmon_mem, hw.nd_clients, hw.nd_stack, hw.same, hw.owner, hw.sel_mem⟩

theorem WF.set_win {s : State} (hw : WF s) (t : Nat → Nat) : WF { s with win := t } :=
  ⟨hw.nd_mons, hw.selmon_mem, hw.nd_clients, hw.nd_stack, hw.same, hw.owner, hw.sel_mem⟩

theorem WF.set_selmon {s : State} (hw : WF s) {m : Nat} (hm : m ∈ s.mons) :
    WF { s with selmon := m } :=
  ⟨hw.nd_mons, hm, hw.nd_clients, hw.nd_stack, hw.same, hw.owner, hw.sel_mem⟩

/-- Redirecting the `mon` link of a client that is in no list. -/
theorem WF.set_mon_fresh {s : State} (hw : WF s) {c : Nat} (hf : Fresh s c) (m : Nat) :
    WF { s with mon := upd s.mon c m } := by
  refine ⟨hw.nd_mons, hw.selmon_mem, hw.nd_clients, hw.nd_stack, hw.same, ?_, hw.sel_mem⟩
  intro k hk t ht
  have : t ≠ c := fun e => (hf k hk).1 (e ▸ ht)
  simp only [upd, this, if_false]
  exact hw.owner k hk t ht

/-- Selecting a member of the recency list, or nothing. -/
theorem WF.set_sel {s : State} (hw : WF s) (m : Nat) (v : Option Nat)
    (hv : ∀ c, v = some c → c ∈ (s.M m).stack) :
    WF (setM s m (fun r => { r with sel := v })) := by
  refine ⟨hw.nd_mons, hw.selmon_mem, ?_, ?_, ?_, ?_, ?_⟩
  all_goals intro k hk
  all_goals simp only [setM_M, setM_mons, setM_mon] at hk ⊢
  · split_ifs <;> exact hw.nd_clients _ hk
  · split_ifs <;> exact hw.nd_stack _ hk
  · split_ifs <;> exact hw.same _ hk
  · split_ifs <;> exact hw.owner _ hk
  · split_ifs with e
    · subst e; exact hv
    · exact hw.sel_mem _ hk

theorem find?_mem_of_eq {p : Nat → Bool} {l : List Nat} {t : Nat} (h : l.find? p = some t) :
    t ∈ l := List.mem_of_find?_eq_some h

/-- Block `detachstack(c); attachstack(c)` of `focus` on a managed client. -/
theorem WF.restack {s : State} (hw : WF s) {c : Nat} (hc : Managed s c) :
    WF (attachstack (detachstack s c) c) := by
  have hm := hc.mon_mem hw
  have hs := hc.mem_stack hw
  refine ⟨by simpa using hw.nd_mons, by simpa using hw.selmon_mem, ?_, ?_, ?_, ?_, ?_⟩
  all_goals intro k hk
  all_goals simp only [attachstack_mons, detachstack_mons, attachstack_clients,
    detachstack_clients, attachstack_stack, detachstack_stack, attachstack_mon,
    detachstack_mon, attachstack_sel, detachstack_sel] at hk ⊢
  · exact hw.nd_clients _ hk
  · split_ifs with e
    · exact nodup_cons_unlink (hw.nd_stack _ hk)
    · exact hw.nd_stack _ hk
  · intro t
    split_ifs with e
    · subst e
      rw [mem_cons_unlink (hw.nd_stack _ hk) hs]; exact hw.same _ hk t
    · exact hw.same _ hk t
  · exact hw.owner _ hk
  · intro t ht
    by_cases e : k = s.mon c
    · subst e
      simp only [if_true, true_and] at ht ⊢
      rw [mem_cons_unlink (hw.nd_stack _ hk) hs]
      split_ifs at ht with h1
      · exact ((mem_unlink (hw.nd_stack _ hk)).mp (find?_mem_of_eq ht)).1
      · exact hw.sel_mem _ hk t ht
    · simp only [e, if_false, false_and] at ht ⊢
      exact hw.sel_mem _ hk t ht

/-- Block `detach(c); detachstack(c)` of `unmanage` and `sendmon`. -/
theorem WF.remove {s : State} (hw : WF s) {c : Nat} (hc : Managed s c) :
    WF (detachstack (detach s c) c) ∧ Fresh (detachstack (detach s c) c) c := by
  have hm := hc.mon_mem hw
  constructor
  · refine ⟨by simpa using hw.nd_mons, by simpa using hw.selmon_mem, ?_, ?_, ?_, ?_, ?_⟩
    all_goals intro k hk
    all_goals simp only [detachstack_mons, detach_mons, detachstack_clients, detach_clients,
      detachstack_stack, detach_stack, detachstack_mon, detach_mon, detachstack_sel,
      detach_sel] at hk ⊢
    · split_ifs with e
      · exact nodup_unlink (hw.nd_clients _ hk)
      · exact hw.nd_clients _ hk
    · split_ifs with e
      · exact nodup_unlink (hw.nd_stack _ hk)
      · exact hw.nd_stack _ hk
    · intro t
      split_ifs with e
      · rw [mem_unlink (hw.nd_clients _ hk), mem_unlink (hw.nd_stack _ hk), hw.same _ hk t]
      · exact hw.same _ hk t
    · intro t ht
      split_ifs at ht with e
      · exact hw.owner _ hk t ((mem_unlink (hw.nd_clients _ hk)).mp ht).1
      · exact hw.owner _ hk t ht
    · intro t ht
      by_cases e : k = s.mon c
      · subst e
        simp only [if_true, true_and] at ht ⊢
        split_ifs at ht with h1
        · exact find?_mem_of_eq ht
        · refine (mem_unlink (hw.nd_stack _ hk)).mpr ⟨hw.sel_mem _ hk t ht, ?_⟩
          rintro rfl; exact h1 ht
      · simp only [e, if_false, false_and] at ht ⊢
        exact hw.sel_mem _ hk t ht
  · intro k hk
    simp only [detachstack_mons, detach_mons, detachstack_clients, detach_clients,
      detachstack_stack, detach_stack, detachstack_mon, detach_mon] at hk ⊢
    by_cases e : k = s.mon c
    · subst e
      simp only [if_true]
      rw [mem_unlink (hw.nd_clients _ hk), mem_unlink (hw.nd_stack _ hk)]
      simp
    · simp only [e, if_false]
      have h1 : c ∉ (s.M k).clients := fun h => e (hw.owner k hk c h).symm
      exact ⟨h1, fun h => h1 ((hw.same k hk c).mpr h)⟩

/-- Block `attach(c); attachstack(c)` for a client in no list whose `mon`
link names a monitor of the list. -/
theorem WF.insert {s : State} (hw : WF s) {c : Nat} (hf : Fresh s c) (hm : s.mon c ∈ s.mons) :
    WF (attachstack (attach s c) c) := by
  refine ⟨hw.nd_mons, hw.selmon_mem, ?_, ?_, ?_, ?_, ?_⟩
  all_goals intro k hk
  all_goals simp only [attachstack_mons, attach_mons, attachstack_clients, attach_clients,
    attachstack_stack, attach_stack, attachstack_mon, attach_mon, attachstack_sel,
    attach_sel] at hk ⊢
  · split_ifs with e
    · exact List.nodup_cons.mpr ⟨(hf k hk).1, hw.nd_clients _ hk⟩
    · exact hw.nd_clients _ hk
  · split_ifs with e
    · exact List.nodup_cons.mpr ⟨(hf k hk).2, hw.nd_stack _ hk⟩
    · exact hw.nd_stack _ hk
  · intro t
    split_ifs with e
    · simp only [List.mem_cons, hw.same _ hk t]
    · exact hw.same _ hk t
  · intro t ht
    split_ifs at ht with e
    · rcases List.mem_cons.mp ht with rfl | h
      · exact e.symm
      · exact hw.owner _ hk t h
    · exact hw.owner _ hk t ht
  · intro t ht
    split_ifs with e
    · exact List.mem_cons_of_mem _ (hw.sel_mem _ hk t ht)
    · exact hw.sel_mem _ hk t ht

/-- Block `detach(c); attach(c)` of `pop`. -/
theorem WF.reattach {s : State} (hw : WF s) {c : Nat} (hc : Managed s c) :
    WF (attach (detach s c) c) := by
  have hm := hc.mon_mem hw
  have hs := hc.mem_clients hw
  refine ⟨hw.nd_mons, hw.selmon_mem, ?_, ?_, ?_, ?_, ?_⟩
  all_goals intro k hk
  all_goals simp only [attach_mons, detach_mons, attach_clients, detach_clients,
    attach_stack, detach_stack, attach_mon, detach_mon, attach_sel, detach_sel] at hk ⊢
  · split_ifs with e
    · exact nodup_cons_unlink (hw.nd_clients _ hk)
    · exact hw.nd_clients _ hk
  · exact hw.nd_stack _ hk
  · intro t
    split_ifs with e
    · subst e
      rw [mem_cons_unlink (hw.nd_clients _ hk) hs]; exact hw.same _ hk t
    · exact hw.same _ hk t
  · intro t ht
    split_ifs at ht with e
    · subst e
      exact hw.owner _ hk t ((mem_cons_unlink (hw.nd_clients _ hk) hs).mp ht)
    · exact hw.owner _ hk t ht
  · exact hw.sel_mem _ hk

/-! ### focus -/

theorem focus_pick_spec {s : State} {c : Option Nat} {t : Nat} (h : focus_pick s c = some t) :
    ISVISIBLE s t = true ∧
      (c = some t ∨ (s.M s.selmon).stack.find? (ISVISIBLE s) = some t) := by
  unfold focus_pick at h
  cases c with
  | none =>
    exact ⟨List.find?_some h, Or.inr h⟩
  | some c0 =>
    simp only at h
    split_ifs at h with hv
    · cases h; exact ⟨hv, Or.inl rfl⟩
    · exact ⟨List.find?_some h, Or.inr h⟩

theorem focus_pick_managed {s : State} (hw : WF s) {c : Option Nat}
    (hc : ∀ t, c = some t → Managed s t) {t : Nat} (h : focus_pick s c = some t) :
    Managed s t := by
  rcases (focus_pick_spec h).2 with h1 | h1
  · exact hc t h1
  · exact hw.managed_of_stack hw.selmon_mem (find?_mem_of_eq h1)

/-- The monitor of the client `focus` settles on after a fallback is the
selected monitor. -/
theorem focus_pick_mon {s : State} (hw : WF s) {c : Option Nat} {t : Nat}
    (h : focus_pick s c = some t) : c = some t ∨ s.mon t = s.selmon := by
  rcases (focus_pick_spec h).2 with h1 | h1
  · exact Or.inl h1
  · exact Or.inr (hw.mon_of_stack hw.selmon_mem (find?_mem_of_eq h1))

/-- The state `focus` produces when it settles on client `t`. -/
theorem focus_some {s : State} {c : Option Nat} {t : Nat} (h : focus_pick s c = some t) :
    focus s c = setM (attachstack (detachstack { s with selmon := s.mon t } t) t) (s.mon t)
      (fun m => { m with sel := some t }) := by
  unfold focus
  rw [h]
  by_cases e : s.mon t = s.selmon
  · have : ({ s with selmon := s.mon t } : State) = s := by rw [e]
    simp [e]
  · simp [e]

theorem focus_none {s : State} {c : Option Nat} (h : focus_pick s c = none) :
    focus s c = setM s s.selmon (fun m => { m with sel := none }) := by
  unfold focus
  rw [h]

theorem wf_focus {s : State} (hw : WF s) (c : Option Nat)
    (hc : ∀ t, c = some t → Managed s t) : WF (focus s c) := by
  cases h : focus_pick s c with
  | none =>
    rw [focus_none h]
    exact hw.set_sel _ _ (fun _ h => by cases h)
  | some t =>
    rw [focus_some h]
    have ht := focus_pick_managed hw hc h
    have hw1 : WF { s with selmon := s.mon t } := hw.set_selmon (ht.mon_mem hw)
    have ht1 : Managed { s with selmon := s.mon t } t := ht
    have hw2 := hw1.restack ht1
    apply hw2.set_sel
    intro c0 h0
    cases h0
    simp

@[simp] theorem focus_mons (s : State) (c : Option Nat) : (focus s c).mons = s.mons := by
  cases h : focus_pick s c with
  | none => rw [focus_none h]; rfl
  | some t => rw [focus_some h]; simp

@[simp] theorem focus_tags (s : State) (c : Option Nat) : (focus s c).tags = s.tags := by
  cases h : focus_pick s c with
  | none => rw [focus_none h]; rfl
  | some t => rw [focus_some h]; simp

@[simp] theorem focus_mon (s : State) (c : Option Nat) : (focus s c).mon = s.mon := by
  cases h : focus_pick s c with
  | none => rw [focus_none h]; rfl
  | some t => rw [focus_some h]; simp

@[simp] theorem focus_win (s : State) (c : Option Nat) : (focus s c).win = s.win := by
  cases h : focus_pick s c with
  | none => rw [focus_none h]; rfl
  | some t => rw [focus_some h]; simp

@[simp] theorem focus_clients (s : State) (c : Option Nat) (k : Nat) :
    ((focus s c).M k).clients = (s.M k).clients := by
  cases h : focus_pick s c with
  | none => rw [focus_none h, setM_M]; split_ifs <;> rfl
  | some t => rw [focus_some h, setM_M]; split_ifs <;> simp

@[simp] theorem focus_curtags (s : State) (c : Option Nat) (k : Nat) :
    ((focus s c).M k).curtags = (s.M k).curtags := by
  cases h : focus_pick s c with
  | none => rw [focus_none h, setM_M]; split_ifs <;> rfl
  | some t =>
    rw [focus_some h, setM_M]
    split_ifs
    · show ((attachstack (detachstack { s with selmon := s.mon t } t) t).M k).curtags = _
      simp
    · simp

@[simp] theorem ISVISIBLE_focus (s : State) (c : Option Nat) :
    ISVISIBLE (focus s c) = ISVISIBLE s :=
  ISVISIBLE_congr (focus_tags s c) (focus_mon s c) (focus_curtags s c)

theorem managed_congr {s t : State} {c : Nat} (hm : t.mons = s.mons)
    (hc : ∀ k, (t.M k).clients = (s.M k).clients) : Managed t c ↔ Managed s c := by
  unfold Managed
  simp only [hm, hc]

theorem fresh_congr {s t : State} {c : Nat} (hm : t.mons = s.mons)
    (hc : ∀ k, (t.M k).clients = (s.M k).clients) (hs : ∀ k, (t.M k).stack = (s.M k).stack) :
    Fresh t c ↔ Fresh s c := by
  unfold Fresh
  simp only [hm, hc, hs]

/-! ### placement of a new client -/

theorem wintoclient_managed {s : State} {w t : Nat} (h : wintoclient s w = some t) :
    Managed s t := by
  unfold wintoclient at h
  obtain ⟨m, hm, hf⟩ := List.exists_of_findSome?_eq_some h
  exact ⟨m, hm, find?_mem_of_eq hf⟩

/-- A state that differs from `s` only in registry fields of the client `c`,
whose `mon` link still names a monitor of the list if it did. -/
theorem applyrule_frame (c : Nat) (s : State) (r : Rule) :
    (applyrule c s r).mons = s.mons ∧ (applyrule c s r).selmon = s.selmon
      ∧ (applyrule c s r).M = s.M ∧ (applyrule c s r).win = s.win
      ∧ (∀ t, t ≠ c → (applyrule c s r).tags t = s.tags t ∧ (applyrule c s r).mon t = s.mon t)
      ∧ (s.mon c ∈ s.mons → (applyrule c s r).mon c ∈ s.mons) := by
  unfold applyrule
  by_cases hr : r.matched = true
  · rw [if_pos hr]
    simp only []
    cases hf : List.find? (fun m => (s.M m).num == r.monitor) s.mons with
    | none =>
      refine ⟨rfl, rfl, rfl, rfl, ?_, fun h => h⟩
      intro t ht
      simp [upd, ht]
    | some m =>
      refine ⟨rfl, rfl, rfl, rfl, ?_, fun _ => ?_⟩
      · intro t ht
        simp [upd, ht]
      · simp only [upd, if_true]
        exact find?_mem_of_eq hf
  · rw [if_neg hr]
    exact ⟨rfl, rfl, rfl, rfl, fun _ _ => ⟨rfl, rfl⟩, fun h => h⟩

theorem foldl_applyrule_frame (c : Nat) (rules : List Rule) (s : State) :
    (rules.foldl (applyrule c) s).mons = s.mons ∧ (rules.foldl (applyrule c) s).selmon = s.selmon
      ∧ (rules.foldl (applyrule c) s).M = s.M ∧ (rules.foldl (applyrule c) s).win = s.win
      ∧ (∀ t, t ≠ c → (rules.foldl (applyrule c) s).tags t = s.tags t
          ∧ (rules.foldl (applyrule c) s).mon t = s.mon t)
      ∧ (s.mon c ∈ s.mons → (rules.foldl (applyrule c) s).mon c ∈ s.mons) := by
  induction rules generalizing s with
  | nil => exact ⟨rfl, rfl, rfl, rfl, fun _ _ => ⟨rfl, rfl⟩, fun h => h⟩
  | cons r rs ih =>
    obtain ⟨a1, a2, a3, a4, a5, a6⟩ := applyrule_frame c s r
    obtain ⟨b1, b2, b3, b4, b5, b6⟩ := ih (applyrule c s r)
    simp only [List.foldl_cons]
    refine ⟨b1.trans a1, b2.trans a2, b3.trans a3, b4.trans a4, ?_, ?_⟩
    · intro t ht
      exact ⟨(b5 t ht).1.trans (a5 t ht).1, (b5 t ht).2.trans (a5 t ht).2⟩
    · intro h
      have := b6 (a1 ▸ a6 h)
      rwa [a1] at this

theorem applyrules_frame (rules : List Rule) (s : State) (c : Nat) :
    (applyrules rules s c).mons = s.mons ∧ (applyrules rules s c).selmon = s.selmon
      ∧ (applyrules rules s c).M = s.M ∧ (applyrules rules s c).win = s.win
      ∧ (∀ t, t ≠ c → (applyrules rules s c).tags t = s.tags t
          ∧ (applyrules rules s c).mon t = s.mon t)
      ∧ (s.mon c ∈ s.mons → (applyrules rules s c).mon c ∈ s.mons) := by
  obtain ⟨b1, b2, b3, b4, b5, b6⟩ :=
    foldl_applyrule_frame c rules { s with tags := upd s.tags c 0 }
  unfold applyrules
  refine ⟨b1, b2, b3, b4, ?_, b6⟩
  intro t ht
  refine ⟨?_, (b5 t ht).2⟩
  show upd _ c _ t = _
  simp only [upd, ht, if_false]
  rw [(b5 t ht).1]
  simp [upd, ht]

theorem manage_place_frame (rules : List Rule) {s : State} (hw : WF s) (c w : Nat)
    (trans : Option Nat) :
    (manage_place rules s c w trans).mons = s.mons
      ∧ (manage_place rules s c w trans).selmon = s.selmon
      ∧ (manage_place rules s c w trans).M = s.M
      ∧ (∀ t, t ≠ c → (manage_place rules s c w trans).tags t = s.tags t
          ∧ (manage_place rules s c w trans).mon t = s.mon t)
      ∧ (manage_place rules s c w trans).mon c ∈ s.mons := by
  unfold manage_place
  simp only []
  cases ht : trans.bind (wintoclient { s with win := upd s.win c w }) with
  | some t =>
    refine ⟨rfl, rfl, rfl, ?_, ?_⟩
    · intro u hu
      simp [upd, hu]
    · simp only [upd, if_true]
      obtain ⟨w0, _, h2⟩ := Option.bind_eq_some.mp ht
      have hm : Managed s t := wintoclient_managed (s := { s with win := upd s.win c w }) h2
      exact hm.mon_mem hw
  | none =>
    obtain ⟨b1, b2, b3, _, b5, b6⟩ := applyrules_frame rules
      { s with win := upd s.win c w, mon := upd s.mon c s.selmon } c
    refine ⟨b1, b2, b3, ?_, ?_⟩
    · intro u hu
      refine ⟨(b5 u hu).1, ?_⟩
      rw [(b5 u hu).2]
      simp [upd, hu]
    · apply b6
      simp only [upd, if_true]
      exact hw.selmon_mem

/-- Well-formedness only reads the lists, the selection and the `mon` links of
list members. -/
theorem WF.frame {s t : State} (hw : WF s) (h1 : t.mons = s.mons) (h2 : t.selmon = s.selmon)
    (h3 : t.M = s.M) (h4 : ∀ c, Managed s c → t.mon c = s.mon c) : WF t := by
  refine ⟨h1 ▸ hw.nd_mons, ?_, ?_, ?_, ?_, ?_, ?_⟩
  · rw [h1, h2]; exact hw.selmon_mem
  all_goals rw [h1, h3]
  · exact hw.nd_clients
  · exact hw.nd_stack
  · exact hw.same
  · intro m hm c hc
    rw [h4 c ⟨m, hm, hc⟩]; exact hw.owner m hm c hc
  · exact hw.sel_mem

theorem Fresh.not_managed {s : State} {c : Nat} (hf : Fresh s c) {t : Nat} (ht : Managed s t) :
    t ≠ c := by
  obtain ⟨m, hm, hc⟩ := ht
  rintro rfl
  exact (hf m hm).1 hc

theorem wf_manage {s : State} (hw : WF s) (rules : List Rule) {c : Nat} (hf : Fresh s c)
    (w : Nat) (trans : Option Nat) : WF (manage rules s c w trans) := by
  obtain ⟨p1, p2, p3, p4, p5⟩ := manage_place_frame rules hw c w trans
  have hw1 : WF (manage_place rules s c w trans) :=
    hw.frame p1 p2 p3 (fun t ht => (p4 t (hf.not_managed ht)).2)
  have hf1 : Fresh (manage_place rules s c w trans) c :=
    (fresh_congr p1 (fun k => by rw [p3]) (fun k => by rw [p3])).mpr hf
  have hw2 := hw1.insert hf1 (p1 ▸ p5)
  unfold manage
  apply wf_focus _ _ (fun _ h => by cases h)
  apply hw2.set_sel
  intro t ht
  cases ht
  simp

theorem wf_unmanage {s : State} (hw : WF s) {c : Nat} (hc : Managed s c) (d : Int) :
    WF (unmanage s c d) :=
  wf_focus (hw.remove hc).1 _ (fun _ h => by cases h)

theorem wf_sendmon {s : State} (hw : WF s) {c m : Nat} (hc : Managed s c) (hm : m ∈ s.mons) :
    WF (sendmon s c m) := by
  unfold sendmon
  split_ifs with e
  · exact hw
  · obtain ⟨h1, h2⟩ := hw.remove hc
    have h3 := (h1.set_mon_fresh h2 m).set_tags
      (upd (detachstack (detach s c) c).tags c
        (({ detachstack (detach s c) c with
            mon := upd (detachstack (detach s c) c).mon c m } : State).M m).curtags)
    have h4 : Fresh ({ detachstack (detach s c) c with
        mon := upd (detachstack (detach s c) c).mon c m,
        tags := upd (detachstack (detach s c) c).tags c
          (({ detachstack (detach s c) c with
            mon := upd (detachstack (detach s c) c).mon c m } : State).M m).curtags } : State) c :=
      h2
    apply wf_focus _ _ (fun _ h => by cases h)
    apply h3.insert h4
    show upd _ c m c ∈ _
    simp only [upd, if_true]
    simpa using hm

theorem wf_pop {s : State} (hw : WF s) {c : Nat} (hc : Managed s c) : WF (pop s c) := by
  unfold pop
  apply wf_focus (hw.reattach hc)
  intro t ht
  cases ht
  obtain ⟨m, hm, hcm⟩ := hc
  have hmc := hw.owner m hm c hcm
  subst hmc
  exact ⟨s.mon c, hm, by simp⟩

theorem wf_tag {s : State} (hw : WF s) (ui : Nat) : WF (tag s ui) := by
  unfold tag
  split
  · split_ifs
    · exact wf_focus (hw.set_tags _) _ (fun _ h => by cases h)
    · exact hw
  · exact hw

theorem wf_toggletag {s : State} (hw : WF s) (ui : Nat) : WF (toggletag s ui) := by
  unfold toggletag
  split
  · exact hw
  · simp only
    split_ifs
    · exact wf_focus (hw.set_tags _) _ (fun _ h => by cases h)
    · exact hw

/-- Rewriting fields of a monitor other than its lists and selection. -/
theorem WF.setM_other {s : State} (hw : WF s) (m : Nat) (f : Monitor → Monitor)
    (h1 : ∀ r, (f r).clients = r.clients) (h2 : ∀ r, (f r).stack = r.stack)
    (h3 : ∀ r, (f r).sel = r.sel) : WF (setM s m f) := by
  refine ⟨hw.nd_mons, hw.selmon_mem, ?_, ?_, ?_, ?_, ?_⟩
  all_goals intro k hk
  all_goals simp only [setM_M, setM_mons, setM_mon] at hk ⊢
  · split_ifs
    · rw [h1]; exact hw.nd_clients _ hk
    · exact hw.nd_clients _ hk
  · split_ifs
    · rw [h2]; exact hw.nd_stack _ hk
    · exact hw.nd_stack _ hk
  · split_ifs
    · rw [h1, h2]; exact hw.same _ hk
    · exact hw.same _ hk
  · split_ifs
    · rw [h1]; exact hw.owner _ hk
    · exact hw.owner _ hk
  · split_ifs
    · rw [h2, h3]; exact hw.sel_mem _ hk
    · exact hw.sel_mem _ hk

theorem wf_toggleview {s s1 : State} (hw : WF s) {ui : Nat} (h : toggleview s ui = some s1) :
    WF s1 := by
  unfold toggleview at h
  simp only at h
  split_ifs at h with h0
  · split at h
    · cases h
    · cases h
      apply wf_focus _ _ (fun _ h => by cases h)
      exact hw.setM_other _ _ (fun _ => rfl) (fun _ => rfl) (fun _ => rfl)
  · cases h; exact hw

/-! ### monitor removal -/

theorem setM_congr (s : State) (m : Nat) {f g : Monitor → Monitor}
    (h : f (s.M m) = g (s.M m)) : setM s m f = setM s m g := by
  unfold setM
  congr 1
  funext k
  split_ifs with e
  · subst e; exact h
  · rfl

theorem migrate1_eq {s : State} (hw : WF s) {first m c : Nat} {r : List Nat}
    (hm : m ∈ s.mons) (hl : (s.M m).clients = c :: r) :
    migrate1 s first m c
      = attachstack (attach ({ detachstack (detach s c) c with
          mon := upd (detachstack (detach s c) c).mon c first } : State) c) c := by
  have hc : s.mon c = m := hw.owner m hm c (by rw [hl]; exact List.mem_cons_self _ _)
  have e : setM s m (fun r => { r with clients := r.clients.tail }) = detach s c := by
    unfold detach
    rw [hc]
    apply setM_congr
    simp [hl, unlink]
  unfold migrate1
  simp only [e]

theorem migrate1_spec {s : State} (hw : WF s) {first m c : Nat} {r : List Nat}
    (hm : m ∈ s.mons) (hf : first ∈ s.mons) (hne : m ≠ first)
    (hl : (s.M m).clients = c :: r) :
    WF (migrate1 s first m c)
      ∧ (migrate1 s first m c).mons = s.mons
      ∧ (migrate1 s first m c).selmon = s.selmon
      ∧ (migrate1 s first m c).tags = s.tags
      ∧ ((migrate1 s first m c).M m).clients = r
      ∧ ((migrate1 s first m c).M first).clients = c :: (s.M first).clients
      ∧ ((migrate1 s first m c).M first).stack = c :: (s.M first).stack
      ∧ (∀ k, k ≠ m → k ≠ first →
          ((migrate1 s first m c).M k).clients = (s.M k).clients
            ∧ ((migrate1 s first m c).M k).stack = (s.M k).stack)
      ∧ (∀ t, (migrate1 s first m c).mon t = if t = c then first else s.mon t) := by
  have hcm : c ∈ (s.M m).clients := by rw [hl]; exact List.mem_cons_self _ _
  have hc : s.mon c = m := hw.owner m hm c hcm
  have hmg : Managed s c := ⟨m, hm, hcm⟩
  obtain ⟨h1, h2⟩ := hw.remove hmg
  have h3 := h1.set_mon_fresh h2 first
  have h4 : Fresh ({ detachstack (detach s c) c with
      mon := upd (detachstack (detach s c) c).mon c first } : State) c := h2
  have h5 : ({ detachstack (detach s c) c with
      mon := upd (detachstack (detach s c) c).mon c first } : State).mon c = first := by
    simp [upd]
  rw [migrate1_eq hw hm hl]
  refine ⟨h3.insert h4 (by rw [h5]; simpa using hf), by simp, by simp, by simp, ?_, ?_, ?_, ?_, ?_⟩
  · simp [hne, hc, hl, unlink]
  · simp [hc, Ne.symm hne]
  · simp [hc, Ne.symm hne]
  · intro k hk1 hk2
    simp [hc, hk1, hk2]
  · intro t
    simp [upd]

theorem migrate_loop_spec {first m : Nat} (hne : m ≠ first) :
    ∀ (n : Nat) (s : State), WF s → m ∈ s.mons → first ∈ s.mons →
      (s.M m).clients.length = n →
      ∃ s1, migrate_loop first m n s = some s1 ∧ WF s1 ∧ s1.mons = s.mons
        ∧ s1.selmon = s.selmon ∧ s1.tags = s.tags
        ∧ (s1.M m).clients = []
        ∧ (s1.M first).clients = (s.M m).clients.reverse ++ (s.M first).clients
        ∧ (s1.M first).stack = (s.M m).clients.reverse ++ (s.M first).stack
        ∧ (∀ k, k ≠ m → k ≠ first →
            (s1.M k).clients = (s.M k).clients ∧ (s1.M k).stack = (s.M k).stack)
        ∧ (∀ t, s1.mon t = if t ∈ (s.M m).clients then first else s.mon t) := by
  intro n
  induction n with
  | zero =>
    intro s hw _ _ hl
    have h0 : (s.M m).clients = [] := List.length_eq_zero.mp hl
    refine ⟨s, by simp [migrate_loop, h0], hw, rfl, rfl, rfl, h0, by simp [h0], by simp [h0],
      fun _ _ _ => ⟨rfl, rfl⟩, fun t => by simp [h0]⟩
  | succ n ih =>
    intro s hw hm hf hl
    obtain ⟨c, r, hcr⟩ : ∃ c r, (s.M m).clients = c :: r := by
      cases h : (s.M m).clients with
      | nil => rw [h] at hl; cases hl
      | cons c r => exact ⟨c, r, rfl⟩
    obtain ⟨a1, a2, a3, a4, a5, a6, a7, a8, a9⟩ := migrate1_spec hw hm hf hne hcr
    have hlen : ((migrate1 s first m c).M m).clients.length = n := by
      rw [a5]; rw [hcr] at hl; simp at hl; exact hl
    obtain ⟨s1, b0, b1, b2, b3, b4, b5, b6, b7, b8, b9⟩ :=
      ih (migrate1 s first m c) a1 (a2 ▸ hm) (a2 ▸ hf) hlen
    have hnd : c ∉ r := by
      have := hw.nd_clients m hm
      rw [hcr] at this
      exact (List.nodup_cons.mp this).1
    refine ⟨s1, by simp [migrate_loop, hcr, b0], b1, b2.trans a2, b3.trans a3, b4.trans a4, b5,
      ?_, ?_, ?_, ?_⟩
    · rw [b6, a5, a6, hcr]; simp
    · rw [b7, a5, a7, hcr]; simp
    · intro k h1 h2
      exact ⟨(b8 k h1 h2).1.trans (a8 k h1 h2).1, (b8 k h1 h2).2.trans (a8 k h1 h2).2⟩
    · intro t
      rw [b9, a5, a9, hcr]
      by_cases e : t = c
      · subst e; simp [hnd]
      · simp [e]

theorem unlink_append_last {m : Nat} {l : List Nat} (h : m ∉ l) : unlink m (l ++ [m]) = l := by
  induction l with
  | nil => simp [unlink]
  | cons t r ih =>
    have h1 : t ≠ m := fun e => h (e ▸ List.mem_cons_self _ _)
    have h2 : m ∉ r := fun e => h (List.mem_cons_of_mem _ e)
    simp [unlink, h1, ih h2]

theorem getLastD_append_last (l : List Nat) (m d : Nat) : (l ++ [m]).getLastD d = m := by
  induction l generalizing d with
  | nil => rfl
  | cons t r ih =>
    cases r with
    | nil => rfl
    | cons u v => simp [List.getLastD]

theorem wf_cleanupmon {t : State} (hw : WF t) {first m : Nat} {keep : List Nat}
    (hmons : t.mons = first :: (keep ++ [m])) (hsel : t.selmon ≠ m) :
    WF (cleanupmon t m) ∧ (cleanupmon t m).mons = first :: keep := by
  have hnd := hw.nd_mons
  rw [hmons] at hnd
  have hnd2 : ((first :: keep) ++ [m]).Nodup := by simpa using hnd
  have hnotin : m ∉ first :: keep := fun hmem =>
    (List.nodup_append.mp hnd2).2.2 hmem (List.mem_singleton_self m)
  have hun : (cleanupmon t m).mons = first :: keep := by
    show unlink m t.mons = _
    rw [hmons]
    exact unlink_append_last (l := first :: keep) hnotin
  have hsub : ∀ k, k ∈ first :: keep → k ∈ t.mons := by
    intro k hk
    rw [hmons]
    exact List.mem_append_left [m] hk
  refine ⟨⟨?_, ?_, ?_, ?_, ?_, ?_, ?_⟩, hun⟩
  · rw [hun]; exact (List.nodup_append.mp hnd2).1
  · rw [hun]
    have h1 := hw.selmon_mem
    rw [hmons] at h1
    have h1 : t.selmon ∈ (first :: keep) ++ [m] := by simpa using h1
    rcases List.mem_append.mp h1 with h | h
    · exact h
    · exact absurd (List.mem_singleton.mp h) hsel
  all_goals rw [hun]
  all_goals intro k hk
  · exact hw.nd_clients k (hsub k hk)
  · exact hw.nd_stack k (hsub k hk)
  · exact hw.same k (hsub k hk)
  · exact hw.owner k (hsub k hk)
  · exact hw.sel_mem k (hsub k hk)

theorem remove_last_spec {s : State} (hw : WF s) {first m : Nat} {keep : List Nat}
    (hmons : s.mons = first :: (keep ++ [m])) :
    ∃ s1 d, remove_last s = some (s1, d) ∧ WF s1 ∧ s1.mons = first :: keep
      ∧ s1.tags = s.tags
      ∧ (s1.M first).clients = (s.M m).clients.reverse ++ (s.M first).clients
      ∧ (s1.M first).stack = (s.M m).clients.reverse ++ (s.M first).stack
      ∧ (∀ k, k ≠ m → k ≠ first →
          (s1.M k).clients = (s.M k).clients ∧ (s1.M k).stack = (s.M k).stack)
      ∧ (∀ t, s1.mon t = if t ∈ (s.M m).clients then first else s.mon t) := by
  have hnd := hw.nd_mons
  rw [hmons] at hnd
  have hm : m ∈ s.mons := by rw [hmons]; simp
  have hf : first ∈ s.mons := by rw [hmons]; simp
  have hne : m ≠ first := by
    rintro rfl
    exact (List.nodup_cons.mp hnd).1 (by simp)
  obtain ⟨s1, b0, b1, b2, b3, b4, b5, b6, b7, b8, b9⟩ :=
    migrate_loop_spec hne _ s hw hm hf rfl
  have hmig : migrate s first m = some s1 := b0
  have hlast : (keep ++ [m]).getLastD first = m := getLastD_append_last keep m first
  have hres : remove_last s
      = some (cleanupmon (if m = s1.selmon then { s1 with selmon := first } else s1) m,
          !(s.M m).clients.isEmpty) := by
    unfold remove_last
    rw [hmons]
    simp only [hlast, hmig]
  have hwf : WF (if m = s1.selmon then ({ s1 with selmon := first } : State) else s1)
      ∧ (if m = s1.selmon then ({ s1 with selmon := first } : State) else s1).selmon ≠ m := by
    split_ifs with e
    · exact ⟨b1.set_selmon (b2 ▸ hf), Ne.symm hne⟩
    · exact ⟨b1, Ne.symm e⟩
  have hmons2 : (if m = s1.selmon then ({ s1 with selmon := first } : State) else s1).mons
      = first :: (keep ++ [m]) := by
    split_ifs <;> exact b2.trans hmons
  obtain ⟨c1, c2⟩ := wf_cleanupmon hwf.1 hmons2 hwf.2
  refine ⟨_, _, hres, c1, c2, ?_, ?_, ?_, ?_, ?_⟩
  · show (if m = s1.selmon then ({ s1 with selmon := first } : State) else s1).tags = _
    split_ifs <;> exact b4
  · show ((if m = s1.selmon then ({ s1 with selmon := first } : State) else s1).M first).clients = _
    split_ifs <;> exact b6
  · show ((if m = s1.selmon then ({ s1 with selmon := first } : State) else s1).M first).stack = _
    split_ifs <;> exact b7
  · intro k h1 h2
    show ((if m = s1.selmon then ({ s1 with selmon := first } : State) else s1).M k).clients = _
      ∧ ((if m = s1.selmon then ({ s1 with selmon := first } : State) else s1).M k).stack = _
    split_ifs <;> exact b8 k h1 h2
  · intro t
    have e : (if m = s1.selmon then ({ s1 with selmon := first } : State) else s1).mon
        = s1.mon := by split_ifs <;> rfl
    show (if m = s1.selmon then ({ s1 with selmon := first } : State) else s1).mon t = _
    rw [e]; exact b9 t

theorem exists_concat_of_length_succ {l : List Nat} {k : Nat} (h : l.length = k + 1) :
    ∃ l1 a, l = l1 ++ [a] ∧ l1.length = k := by
  rcases List.eq_nil_or_concat l with e | ⟨l1, a, e⟩
  · rw [e] at h; cases h
  · rw [List.concat_eq_append] at e
    refine ⟨l1, a, e, ?_⟩
    rw [e] at h
    simpa using h

theorem remove_loop_spec (first : Nat) :
    ∀ (k : Nat) (s : State) (keep removed : List Nat) (dirty : Bool), WF s →
      s.mons = first :: (keep ++ removed) → removed.length = k →
      ∃ s1 d, remove_loop k s dirty = some (s1, d) ∧ WF s1 ∧ s1.mons = first :: keep
        ∧ s1.tags = s.tags
        ∧ (s1.M first).clients
            = (removed.map (fun m => (s.M m).clients.reverse)).flatten ++ (s.M first).clients
        ∧ (s1.M first).stack
            = (removed.map (fun m => (s.M m).clients.reverse)).flatten ++ (s.M first).stack
        ∧ (∀ k ∈ keep, (s1.M k).clients = (s.M k).clients ∧ (s1.M k).stack = (s.M k).stack)
        ∧ (∀ t, s1.mon t = if ∃ m ∈ removed, t ∈ (s.M m).clients then first else s.mon t) := by
  intro k
  induction k with
  | zero =>
    intro s keep removed dirty hw hmons hlen
    have h0 : removed = [] := List.length_eq_zero.mp hlen
    subst h0
    exact ⟨s, dirty, rfl, hw, by simpa using hmons, rfl, by simp, by simp,
      fun _ _ => ⟨rfl, rfl⟩, fun t => by simp⟩
  | succ k ih =>
    intro s keep removed dirty hw hmons hlen
    obtain ⟨rem1, m, hrem, hlen1⟩ := exists_concat_of_length_succ hlen
    subst hrem
    have hmons1 : s.mons = first :: ((keep ++ rem1) ++ [m]) := by
      rw [hmons]; simp
    have hnd := hw.nd_mons
    rw [hmons1] at hnd
    have hnd2 : ((first :: (keep ++ rem1)) ++ [m]).Nodup := by simpa using hnd
    have hmnot : m ∉ first :: (keep ++ rem1) := fun hmem =>
      (List.nodup_append.mp hnd2).2.2 hmem (List.mem_singleton_self m)
    have hfnot : first ∉ keep ++ rem1 := fun hmem =>
      (List.nodup_cons.mp (List.nodup_append.mp hnd2).1).1 hmem
    obtain ⟨s1, d, a0, a1, a2, a3, a4, a5, a6, a7⟩ := remove_last_spec hw hmons1
    obtain ⟨s2, d2, b0, b1, b2, b3, b4, b5, b6, b7⟩ :=
      ih s1 keep rem1 (dirty || d) a1 a2 hlen1
    have hother : ∀ k ∈ keep ++ rem1,
        (s1.M k).clients = (s.M k).clients ∧ (s1.M k).stack = (s.M k).stack := by
      intro k hk
      apply a6 k
      · rintro rfl; exact hmnot (List.mem_cons_of_mem _ hk)
      · rintro rfl; exact hfnot hk
    have hmap : rem1.map (fun m => (s1.M m).clients.reverse)
        = rem1.map (fun m => (s.M m).clients.reverse) := by
      apply List.map_congr_left
      intro a ha
      rw [(hother a (List.mem_append_right _ ha)).1]
    refine ⟨s2, d2, by simp [remove_loop, a0, b0], b1, b2, b3.trans a3, ?_, ?_, ?_, ?_⟩
    · rw [b4, hmap, a4]; simp
    · rw [b5, hmap, a5]; simp
    · intro k hk
      have h1 := hother k (List.mem_append_left _ hk)
      exact ⟨(b6 k hk).1.trans h1.1, (b6 k hk).2.trans h1.2⟩
    · intro t
      rw [b7, a7]
      have hiff : (∃ m ∈ rem1, t ∈ (s1.M m).clients) ↔ (∃ m ∈ rem1, t ∈ (s.M m).clients) := by
        constructor
        · rintro ⟨a, ha, ht⟩
          exact ⟨a, ha, by rwa [(hother a (List.mem_append_right _ ha)).1] at ht⟩
        · rintro ⟨a, ha, ht⟩
          exact ⟨a, ha, by rwa [(hother a (List.mem_append_right _ ha)).1]⟩
      by_cases h1 : ∃ m ∈ rem1, t ∈ (s.M m).clients
      · have h2 : ∃ m0 ∈ rem1 ++ [m], t ∈ (s.M m0).clients := by
          obtain ⟨a, ha, ht⟩ := h1
          exact ⟨a, List.mem_append_left _ ha, ht⟩
        rw [if_pos (hiff.mpr h1), if_pos h2]
      · rw [if_neg (fun h => h1 (hiff.mp h))]
        by_cases h3 : t ∈ (s.M m).clients
        · have h2 : ∃ m0 ∈ rem1 ++ [m], t ∈ (s.M m0).clients := ⟨m, by simp, h3⟩
          rw [if_pos h3, if_pos h2]
        · have h2 : ¬ ∃ m0 ∈ rem1 ++ [m], t ∈ (s.M m0).clients := by
            rintro ⟨a, ha, ht⟩
            rcases List.mem_append.mp ha with h | h
            · exact h1 ⟨a, h, ht⟩
            · rw [List.mem_singleton.mp h] at ht; exact h3 ht
          rw [if_neg h3, if_neg h2]

theorem recttomon_foldl_mem (s : State) (x y w h : Int) (l : List Nat) (init : Nat × Int) :
    (l.foldl (fun (ra : Nat × Int) m =>
      if INTERSECT x y w h (s.M m) > ra.2 then (m, INTERSECT x y w h (s.M m)) else ra) init).1
        = init.1
    ∨ (l.foldl (fun (ra : Nat × Int) m =>
      if INTERSECT x y w h (s.M m) > ra.2 then (m, INTERSECT x y w h (s.M m)) else ra) init).1
        ∈ l := by
  induction l generalizing init with
  | nil => exact Or.inl rfl
  | cons a r ih =>
    simp only [List.foldl_cons]
    by_cases e : INTERSECT x y w h (s.M a) > init.2
    · rw [if_pos e]
      rcases ih (a, INTERSECT x y w h (s.M a)) with h1 | h1
      · exact Or.inr (by rw [h1]; exact List.mem_cons_self _ _)
      · exact Or.inr (List.mem_cons_of_mem _ h1)
    · rw [if_neg e]
      rcases ih init with h1 | h1
      · exact Or.inl h1
      · exact Or.inr (List.mem_cons_of_mem _ h1)

theorem recttomon_mem {s : State} (hs : s.selmon ∈ s.mons) (x y w h : Int) :
    recttomon s x y w h ∈ s.mons := by
  unfold recttomon
  rcases recttomon_foldl_mem s x y w h s.mons (s.selmon, 0) with h1 | h1
  · rw [h1]; exact hs
  · exact h1

/-- The state `updategeom` leaves in the shrinking branch: the last
`n - nn` monitors are gone and their clients sit on the first monitor. -/
theorem updategeom_less_spec {s : State} (hw : WF s) {nn : Nat} (h1 : 1 ≤ nn)
    (h2 : nn < s.mons.length) (ptr : Option (Int × Int)) :
    ∃ s1 first keep removed, updategeom_less s nn ptr = some s1
      ∧ s.mons = first :: (keep ++ removed) ∧ keep.length + 1 = nn
      ∧ WF s1 ∧ s1.mons = first :: keep ∧ s1.tags = s.tags
      ∧ (s1.M first).clients
          = (removed.map (fun m => (s.M m).clients.reverse)).flatten ++ (s.M first).clients
      ∧ (s1.M first).stack
          = (removed.map (fun m => (s.M m).clients.reverse)).flatten ++ (s.M first).stack
      ∧ (∀ k ∈ keep, (s1.M k).clients = (s.M k).clients ∧ (s1.M k).stack = (s.M k).stack)
      ∧ (∀ t, s1.mon t = if ∃ m ∈ removed, t ∈ (s.M m).clients then first else s.mon t) := by
  obtain ⟨first, rest, hmons⟩ : ∃ first rest, s.mons = first :: rest := by
    cases h : s.mons with
    | nil => rw [h] at h2; simp at h2
    | cons a r => exact ⟨a, r, rfl⟩
  have hlen : rest.length + 1 = s.mons.length := by rw [hmons]; simp
  have hsplit : s.mons = first :: (rest.take (nn - 1) ++ rest.drop (nn - 1)) := by
    rw [List.take_append_drop]; exact hmons
  have hk : (rest.drop (nn - 1)).length = s.mons.length - nn := by
    rw [List.length_drop]; omega
  have hkeep : (rest.take (nn - 1)).length + 1 = nn := by
    rw [List.length_take]; omega
  obtain ⟨s1, d, a0, a1, a2, a3, a4, a5, a6, a7⟩ :=
    remove_loop_spec first _ s _ _ false hw hsplit hk
  unfold updategeom_less
  rw [a0]
  simp only []
  by_cases hd : d = true
  · rw [if_pos hd]
    split
    · next h0 => rw [a2] at h0; cases h0
    · next f r h0 =>
      have hf : f = first := by rw [a2] at h0; injection h0 with h0 _; exact h0.symm
      subst hf
      have hw2 : WF ({ s1 with selmon := f } : State) :=
        a1.set_selmon (a2 ▸ List.mem_cons_self _ _)
      cases ptr with
      | none => exact ⟨_, f, _, _, rfl, hsplit, hkeep, hw2, a2, a3, a4, a5, a6, a7⟩
      | some p =>
        obtain ⟨x, y⟩ := p
        exact ⟨_, f, _, _, rfl, hsplit, hkeep,
          hw2.set_selmon (recttomon_mem hw2.selmon_mem x y 1 1), a2, a3, a4, a5, a6, a7⟩
  · rw [if_neg hd]
    exact ⟨_, first, _, _, rfl, hsplit, hkeep, a1, a2, a3, a4, a5, a6, a7⟩

theorem wf_updategeom_less {s s1 : State} (hw : WF s) {nn : Nat} (h1 : 1 ≤ nn)
    (h2 : nn < s.mons.length) {ptr : Option (Int × Int)}
    (h : updategeom_less s nn ptr = some s1) : WF s1 := by
  obtain ⟨s2, _, _, _, a0, _, _, a1, _⟩ := updategeom_less_spec hw h1 h2 ptr
  rw [a0] at h
  cases h
  exact a1

theorem init_wf {s : State} (h : Init s) : WF s := by
  refine ⟨h.nd_mons, h.selmon_mem, ?_, ?_, ?_, ?_, ?_⟩
  all_goals intro m hm
  all_goals obtain ⟨e1, e2, e3⟩ := h.empty m hm
  · rw [e1]; exact List.nodup_nil
  · rw [e2]; exact List.nodup_nil
  · intro c; rw [e1, e2]
  · intro c hc; rw [e1] at hc; cases hc
  · intro c hc; rw [e3] at hc; cases hc

theorem reachable_wf {s : State} (h : Reachable s) : WF s := by
  induction h with
  | init s hi => exact init_wf hi
  | manage rules s c w trans _ hf ih => exact wf_manage ih rules hf w trans
  | unmanage s c d _ hc ih => exact wf_unmanage ih hc d
  | sendmon s c m _ hc hm ih => exact wf_sendmon ih hc hm
  | focus s c _ hc ih => exact wf_focus ih c hc
  | pop s c _ hc ih => exact wf_pop ih hc
  | tag s ui _ ih => exact wf_tag ih ui
  | toggletag s ui _ ih => exact wf_toggletag ih ui
  | toggleview s s1 ui _ h ih => exact wf_toggleview ih h
  | updategeom s s1 nn ptr _ h1 h2 h ih => exact wf_updategeom_less ih h1 h2 h

/-! ## Visibility of the selected clients -/

theorem ISVISIBLE_eq_of {s t : State} {c : Nat} (h1 : t.tags c = s.tags c)
    (h2 : t.mon c = s.mon c) (h3 : (t.M (s.mon c)).curtags = (s.M (s.mon c)).curtags) :
    ISVISIBLE t c = ISVISIBLE s c := by
  simp [ISVISIBLE, h1, h2, h3]

theorem focus_selmon_visible {s : State} (c : Option Nat) :
    SelVisible (focus s c) (focus s c).selmon := by
  intro t ht
  rw [ISVISIBLE_focus]
  cases h : focus_pick s c with
  | none =>
    rw [focus_none h] at ht
    simp at ht
  | some u =>
    rw [focus_some h] at ht
    simp at ht
    subst ht
    exact (focus_pick_spec h).1

theorem focus_sel_other {s : State} {c : Option Nat} {u k : Nat}
    (h : focus_pick s c = some u) (hk : k ≠ s.mon u) : ((focus s c).M k).sel = (s.M k).sel := by
  rw [focus_some h, setM_M_ne _ _ hk]
  simp [detachstack_sel, hk]

theorem focus_all_visible {s : State} (hw : WF s) (c : Option Nat)
    (hO : ∀ k ∈ s.mons, k ≠ s.selmon → SelVisible s k)
    (hS : ∀ t, c = some t → s.mon t ≠ s.selmon → SelVisible s s.selmon) :
    ∀ k ∈ (focus s c).mons, SelVisible (focus s c) k := by
  intro k hk t ht
  rw [focus_mons] at hk
  rw [ISVISIBLE_focus]
  cases h : focus_pick s c with
  | none =>
    rw [focus_none h] at ht
    by_cases e : k = s.selmon
    · subst e; simp at ht
    · rw [setM_M_ne _ _ e] at ht
      exact hO k hk e t ht
  | some u =>
    by_cases e : k = s.mon u
    · subst e
      rw [focus_some h] at ht
      simp at ht
      subst ht
      exact (focus_pick_spec h).1
    · rw [focus_sel_other h e] at ht
      by_cases e2 : k = s.selmon
      · subst e2
        rcases focus_pick_mon hw h with h1 | h1
        · exact hS u h1 (Ne.symm e) t ht
        · exact absurd h1.symm e
      · exact hO k hk e2 t ht

/-- The selected clients stay visible when only a client that no monitor
selects changes its tags or monitor link. -/
theorem visible_frame (s t : State) (c : Nat)
    (hsel : ∀ k, (t.M k).sel = (s.M k).sel)
    (hcur : ∀ k, (t.M k).curtags = (s.M k).curtags)
    (hoth : ∀ u, u ≠ c → t.tags u = s.tags u ∧ t.mon u = s.mon u)
    {k : Nat} (hc : (s.M k).sel ≠ some c) (hv : SelVisible s k) :
    SelVisible t k := by
  intro u hu
  rw [hsel] at hu
  have hne : u ≠ c := by rintro rfl; exact hc hu
  rw [ISVISIBLE_eq_of (hoth u hne).1 (hoth u hne).2 (hcur _)]
  exact hv u hu

theorem Fresh.not_sel {s : State} (hw : WF s) {c : Nat} (hf : Fresh s c) {k : Nat}
    (hk : k ∈ s.mons) : (s.M k).sel ≠ some c :=
  fun h => (hf k hk).2 (hw.sel_mem k hk c h)

theorem remove_all_visible {s : State} {c : Nat}
    (hv : ∀ k ∈ s.mons, SelVisible s k) :
    ∀ k ∈ (detachstack (detach s c) c).mons, SelVisible (detachstack (detach s c) c) k := by
  intro k hk t ht
  simp only [detachstack_mons, detach_mons] at hk
  simp only [ISVISIBLE_detachstack, ISVISIBLE_detach]
  rw [detachstack_sel] at ht
  simp only [detach_mon, detach_sel, detach_stack, ISVISIBLE_detach] at ht
  split_ifs at ht with e
  · exact List.find?_some ht
  · exact hv k hk t ht

theorem manage_all_visible {s : State} (hw : WF s) (rules : List Rule) {c : Nat}
    (hf : Fresh s c) (w : Nat) (trans : Option Nat)
    (hp : PlacedVisible rules s c w trans) (hv : ∀ k ∈ s.mons, SelVisible s k) :
    ∀ k ∈ (manage rules s c w trans).mons, SelVisible (manage rules s c w trans) k := by
  obtain ⟨p1, p2, p3, p4, p5⟩ := manage_place_frame rules hw c w trans
  have hw1 : WF (manage_place rules s c w trans) :=
    hw.frame p1 p2 p3 (fun t ht => (p4 t (hf.not_managed ht)).2)
  have hf1 : Fresh (manage_place rules s c w trans) c :=
    (fresh_congr p1 (fun k => by rw [p3]) (fun k => by rw [p3])).mpr hf
  have hw2 := hw1.insert hf1 (p1 ▸ p5)
  have hw3 : WF (setM (attachstack (attach (manage_place rules s c w trans) c) c)
      ((attachstack (attach (manage_place rules s c w trans) c) c).mon c)
      (fun m => { m with sel := some c })) := by
    apply hw2.set_sel
    intro t ht
    cases ht
    simp
  unfold manage
  apply focus_all_visible hw3 none
  · intro k hk hne t ht
    simp only [setM_mons, attachstack_mons, attach_mons, setM_selmon, attachstack_selmon,
      attach_selmon, attachstack_mon, attach_mon] at hk hne
    have hvis : ISVISIBLE (setM (attachstack (attach (manage_place rules s c w trans) c) c)
        ((attachstack (attach (manage_place rules s c w trans) c) c).mon c)
        (fun m => { m with sel := some c })) = ISVISIBLE (manage_place rules s c w trans) := by
      rw [ISVISIBLE_setsel]
      simp
    rw [hvis]
    by_cases e : k = (manage_place rules s c w trans).mon c
    · have ht2 : t = c := by
        subst e
        simp at ht
        exact ht.symm
      subst ht2
      rcases hp with h | h
      · exact absurd (e.trans h) hne
      · exact h
    · have ht2 : (s.M k).sel = some t := by
        simp only [attachstack_mon, attach_mon] at ht
        rw [setM_M_ne _ _ e] at ht
        simpa [p3] using ht
      have hks : k ∈ s.mons := p1 ▸ hk
      have htc : t ≠ c := by
        rintro rfl
        exact hf.not_sel hw hks ht2
      rw [ISVISIBLE_eq_of (p4 t htc).1 (p4 t htc).2 (by rw [p3])]
      exact hv k hks t ht2
  · intro t ht
    cases ht

theorem unmanage_all_visible {s : State} (hw : WF s) {c : Nat} (hc : Managed s c) (d : Int)
    (hv : ∀ k ∈ s.mons, SelVisible s k) :
    ∀ k ∈ (unmanage s c d).mons, SelVisible (unmanage s c d) k := by
  unfold unmanage
  apply focus_all_visible (hw.remove hc).1 none
  · intro k hk _
    exact remove_all_visible hv k hk
  · intro t ht
    cases ht

theorem sendmon_all_visible {s : State} (hw : WF s) {c m : Nat} (hc : Managed s c)
    (hm : m ∈ s.mons) (hv : ∀ k ∈ s.mons, SelVisible s k) :
    ∀ k ∈ (sendmon s c m).mons, SelVisible (sendmon s c m) k := by
  unfold sendmon
  split_ifs with e
  · exact hv
  · obtain ⟨h1, h2⟩ := hw.remove hc
    have h3 := (h1.set_mon_fresh h2 m).set_tags
      (upd (detachstack (detach s c) c).tags c
        (({ detachstack (detach s c) c with
            mon := upd (detachstack (detach s c) c).mon c m } : State).M m).curtags)
    have h4 : Fresh ({ detachstack (detach s c) c with
        mon := upd (detachstack (detach s c) c).mon c m,
        tags := upd (detachstack (detach s c) c).tags c
          (({ detachstack (detach s c) c with
            mon := upd (detachstack (detach s c) c).mon c m } : State).M m).curtags } : State) c :=
      h2
    have h5 : WF (attachstack (attach ({ detachstack (detach s c) c with
        mon := upd (detachstack (detach s c) c).mon c m,
        tags := upd (detachstack (detach s c) c).tags c
          (({ detachstack (detach s c) c with
            mon := upd (detachstack (detach s c) c).mon c m } : State).M m).curtags } : State)
        c) c) := by
      apply h3.insert h4
      show upd _ c m c ∈ _
      simp only [upd_same]
      simpa using hm
    apply focus_all_visible h5 none
    · intro k hk _
      simp only [attachstack_mons, attach_mons] at hk
      have hvr := remove_all_visible (c := c) hv k hk
      exact visible_frame (detachstack (detach s c) c) _ c (fun k => by simp)
        (fun k => by simp) (fun u hu => by simp [upd_of_ne _ _ hu]) (h2.not_sel h1 hk) hvr
    · intro t ht
      cases ht

theorem settags_others_visible {s : State} (hw : WF s) {c : Nat}
    (hc : (s.M s.selmon).sel = some c) (v : Nat) (hv : ∀ k ∈ s.mons, SelVisible s k) :
    ∀ k ∈ s.mons, k ≠ s.selmon →
      SelVisible ({ s with tags := upd s.tags c v } : State) k := by
  intro k hk hne
  have hcm : s.mon c = s.selmon := hw.mon_of_stack hw.selmon_mem (hw.sel_mem _ hw.selmon_mem c hc)
  refine visible_frame s ({ s with tags := upd s.tags c v } : State) c (fun _ => rfl)
    (fun _ => rfl) (fun u hu => ⟨upd_of_ne _ _ hu, rfl⟩) ?_ (hv k hk)
  intro h
  have := hw.mon_of_stack hk (hw.sel_mem k hk c h)
  exact hne (this.symm.trans hcm)

theorem tag_all_visible {s : State} (hw : WF s) (ui : Nat)
    (hv : ∀ k ∈ s.mons, SelVisible s k) :
    ∀ k ∈ (tag s ui).mons, SelVisible (tag s ui) k := by
  unfold tag
  split
  · next c hc =>
    split_ifs
    · apply focus_all_visible (hw.set_tags _) none
      · exact settags_others_visible hw hc _ hv
      · intro t ht; cases ht
    · exact hv
  · exact hv

theorem toggletag_all_visible {s : State} (hw : WF s) (ui : Nat)
    (hv : ∀ k ∈ s.mons, SelVisible s k) :
    ∀ k ∈ (toggletag s ui).mons, SelVisible (toggletag s ui) k := by
  unfold toggletag
  split
  · exact hv
  · next c hc =>
    simp only
    split_ifs
    · apply focus_all_visible (hw.set_tags _) none
      · exact settags_others_visible hw hc _ hv
      · intro t ht; cases ht
    · exact hv

theorem toggleview_all_visible {s s1 : State} (hw : WF s) {ui : Nat}
    (h : toggleview s ui = some s1) (hv : ∀ k ∈ s.mons, SelVisible s k) :
    ∀ k ∈ s1.mons, SelVisible s1 k := by
  unfold toggleview at h
  simp only at h
  split_ifs at h with h0
  · split at h
    · cases h
    · next p hp =>
      cases h
      refine focus_all_visible ?_ none ?_ ?_
      · exact hw.setM_other _ _ (fun _ => rfl) (fun _ => rfl) (fun _ => rfl)
      · intro k hk hne t ht
        simp only [setM_mons, setM_selmon] at hk hne
        rw [setM_M_ne _ _ hne] at ht
        have hmt : s.mon t = k := hw.mon_of_stack hk (hw.sel_mem k hk t ht)
        have := hv k hk t ht
        simp only [ISVISIBLE, setM_tags, setM_mon, hmt, setM_M_ne _ _ hne] at this ⊢
        exact this
      · intro t ht; cases ht
  · cases h; exact hv

theorem init_all_visible {s : State} (h : Init s) : ∀ k ∈ s.mons, SelVisible s k := by
  intro k hk t ht
  rw [(h.empty k hk).2.2] at ht
  cases ht

theorem reach_reachable {b : Bool} {s : State} (h : Reach b s) : Reachable s := by
  induction h with
  | init s hi => exact Reachable.init s hi
  | manage rules s c w trans _ hf _ ih => exact Reachable.manage rules s c w trans ih hf
  | unmanage s c d _ hc ih => exact Reachable.unmanage s c d ih hc
  | focus s c _ hc ih => exact Reachable.focus s c ih hc
  | tag s ui _ ih => exact Reachable.tag s ui ih
  | toggletag s ui _ ih => exact Reachable.toggletag s ui ih
  | toggleview s s1 ui _ h ih => exact Reachable.toggleview s s1 ui ih h
  | sendmon s c m _ hc hm ih => exact Reachable.sendmon s c m ih hc hm

theorem reach_selmon_visible {b : Bool} {s : State} (h : Reach b s) :
    SelVisible s s.selmon := by
  induction h with
  | init s hi => exact init_all_visible hi _ hi.selmon_mem
  | manage rules s c w trans _ hf _ ih => exact focus_selmon_visible none
  | unmanage s c d _ hc ih => exact focus_selmon_visible none
  | focus s c _ hc ih => exact focus_selmon_visible c
  | tag s ui _ ih =>
    unfold tag
    split
    · split_ifs
      · exact focus_selmon_visible none
      · exact ih
    · exact ih
  | toggletag s ui _ ih =>
    unfold toggletag
    split
    · exact ih
    · simp only
      split_ifs
      · exact focus_selmon_visible none
      · exact ih
  | toggleview s s1 ui _ h ih =>
    unfold toggleview at h
    simp only at h
    split_ifs at h with h0
    · split at h
      · cases h
      · cases h; exact focus_selmon_visible none
    · cases h; exact ih
  | sendmon s c m _ hc hm ih =>
    unfold sendmon
    split_ifs
    · exact ih
    · exact focus_selmon_visible none

theorem reach_all_visible {s : State} (h : Reach true s) : ∀ k ∈ s.mons, SelVisible s k := by
  induction h with
  | init s hi => exact init_all_visible hi
  | manage rules s c w trans hr hf hp ih =>
    exact manage_all_visible (reachable_wf (reach_reachable hr)) rules hf w trans (hp rfl) ih
  | unmanage s c d hr hc ih =>
    exact unmanage_all_visible (reachable_wf (reach_reachable hr)) hc d ih
  | focus s c hr hc ih =>
    exact focus_all_visible (reachable_wf (reach_reachable hr)) c (fun k hk _ => ih k hk)
      (fun _ _ _ => ih _ (reachable_wf (reach_reachable hr)).selmon_mem)
  | tag s ui hr ih => exact tag_all_visible (reachable_wf (reach_reachable hr)) ui ih
  | toggletag s ui hr ih =>
    exact toggletag_all_visible (reachable_wf (reach_reachable hr)) ui ih
  | toggleview s s1 ui hr h ih =>
    exact toggleview_all_visible (reachable_wf (reach_reachable hr)) h ih
  | sendmon s c m hr hc hm ih =>
    exact sendmon_all_visible (reachable_wf (reach_reachable hr)) hc hm ih

/-! ## Example states -/

theorem exInit_init : Init exInit := by
  refine ⟨by decide, by decide, ?_, ?_⟩
  · intro m _
    exact ⟨rfl, rfl, rfl⟩
  · intro m _
    exact ⟨Nat.one_ne_zero, Nat.one_ne_zero, Nat.zero_lt_two⟩

theorem exInit_fresh (c : Nat) : Fresh exInit c := by
  intro m _
  exact ⟨List.not_mem_nil _, List.not_mem_nil _⟩

theorem exOne_reach : Reach true exOne :=
  Reach.manage [] exInit 1 101 none (Reach.init _ exInit_init) (exInit_fresh 1)
    (fun _ => Or.inl (by decide))

theorem exHidden_reach : Reach false exHidden :=
  Reach.manage exRules exInit 7 100 none (Reach.init _ exInit_init) (exInit_fresh 7)
    (fun h => by cases h)

theorem exTwo_reachable : Reachable exTwo :=
  Reachable.sendmon _ 3 1
    (Reachable.sendmon _ 2 1
      (Reachable.manage [] _ 3 103 none
        (Reachable.manage [] _ 2 102 none (reach_reachable exOne_reach) (by decide))
        (by decide))
      (by decide) (by decide))
    (by decide) (by decide)

/-! ## The claims -/

/-- C1 (evaluation at the failing input): from the two-monitor initial state,
managing one window that a rule places on tag 2 of the non-selected monitor 1
(which shows tag 1) leaves monitor 1 with a selected client that is not
visible: `manage` stores `c->mon->sel = c` without a visibility test, and the
`focus(NULL)` that follows re-derives the selection of the selected monitor
only. -/
theorem selected_client_hidden :
    Reach false exHidden ∧ 1 ∈ exHidden.mons ∧ exHidden.selmon = 0
      ∧ (exHidden.M 1).sel = some 7 ∧ exHidden.mon 7 = 1 ∧ ISVISIBLE exHidden 7 = false :=
  ⟨exHidden_reach, by decide, by decide, by decide, by decide, by decide⟩

/-- What the registry operations keep of the selection invariant: in every
state reachable through manage, unmanage, focus, tag, toggletag, toggleview and
sendmon, every monitor has at most one selected client (`sel` is one pointer),
it is a member of that monitor's recency list and its `mon` link names that
monitor; the selected monitor's selected client is visible; and the selected
client of every monitor is visible when no `manage` step placed its client on
hidden tags of a monitor that is not selected (`strict = true`), the one step
that breaks the invariant. -/
theorem selected_client_visible (strict : Bool) (s : State) (h : Reach strict s) :
    (∀ m ∈ s.mons, ∀ c, (s.M m).sel = some c → c ∈ (s.M m).stack ∧ s.mon c = m)
      ∧ SelVisible s s.selmon
      ∧ (strict = true → ∀ m ∈ s.mons, SelVisible s m) := by
  have hw := reachable_wf (reach_reachable h)
  refine ⟨?_, reach_selmon_visible h, ?_⟩
  · intro m hm c hc
    exact ⟨hw.sel_mem m hm c hc, hw.mon_of_stack hm (hw.sel_mem m hm c hc)⟩
  · intro hs
    subst hs
    exact reach_all_visible h

/-- The invariant kept by the registry operations, at the state with one
managed client. -/
theorem selected_client_visible_witness :
    Reach true exOne
      ∧ ((∀ m ∈ exOne.mons, ∀ c, (exOne.M m).sel = some c →
            c ∈ (exOne.M m).stack ∧ exOne.mon c = m)
        ∧ SelVisible exOne exOne.selmon
        ∧ (true = true → ∀ m ∈ exOne.mons, SelVisible exOne m)) :=
  ⟨exOne_reach, selected_client_visible true exOne exOne_reach⟩

/-- C2: in a state whose monitors all have a non-zero active tag set, `tag`
and `toggletag` (any argument) leave the selected client's tag mask non-zero
if it was, `applyrules` (any rule table) gives a new client placed on a listed
monitor a non-zero tag mask, and `sendmon` to any listed monitor leaves the
moved client's tag mask non-zero if it was. -/
theorem tag_mask_stays_nonzero (s : State) (hm : ∀ m ∈ s.mons, (s.M m).curtags ≠ 0) :
    (∀ ui c, (s.M s.selmon).sel = some c → s.tags c ≠ 0 → (tag s ui).tags c ≠ 0)
      ∧ (∀ ui c, (s.M s.selmon).sel = some c → s.tags c ≠ 0 → (toggletag s ui).tags c ≠ 0)
      ∧ (∀ rules c, s.mon c ∈ s.mons → (applyrules rules s c).tags c ≠ 0)
      ∧ (∀ c m, m ∈ s.mons → s.tags c ≠ 0 → (sendmon s c m).tags c ≠ 0) := by
  refine ⟨?_, ?_, ?_, ?_⟩
  · intro ui c hc ht
    unfold tag
    rw [hc]
    simp only
    split_ifs with h
    · simpa using h
    · exact ht
  · intro ui c hc ht
    unfold toggletag
    rw [hc]
    simp only
    split_ifs with h
    · simpa using h
    · exact ht
  · intro rules c hc
    obtain ⟨b1, _, b3, _, _, b6⟩ :=
      foldl_applyrule_frame c rules { s with tags := upd s.tags c 0 }
    unfold applyrules
    simp only [upd_same]
    split_ifs with h
    · exact h
    · rw [b3]
      exact hm _ (b6 hc)
  · intro c m hmm ht
    unfold sendmon
    split_ifs with h
    · exact ht
    · simp only [focus_tags, attachstack_tags, attach_tags, upd_same]
      show ((detachstack (detach s c) c).M m).curtags ≠ 0
      simpa using hm m hmm

/-- C2 (witness): the state with one managed client. -/
theorem tag_mask_stays_nonzero_witness :
    (∀ m ∈ exOne.mons, (exOne.M m).curtags ≠ 0)
      ∧ ((∀ ui c, (exOne.M exOne.selmon).sel = some c → exOne.tags c ≠ 0 →
            (tag exOne ui).tags c ≠ 0)
        ∧ (∀ ui c, (exOne.M exOne.selmon).sel = some c → exOne.tags c ≠ 0 →
            (toggletag exOne ui).tags c ≠ 0)
        ∧ (∀ rules c, exOne.mon c ∈ exOne.mons → (applyrules rules exOne c).tags c ≠ 0)
        ∧ (∀ c m, m ∈ exOne.mons → exOne.tags c ≠ 0 → (sendmon exOne c m).tags c ≠ 0)) :=
  ⟨by decide, tag_mask_stays_nonzero exOne (by decide)⟩

/-- C3: in every reachable state each client found in a list of a monitor has
its `mon` link on that monitor, occurs exactly once in the monitor's
arrangement list and exactly once in its recency list, and occurs in no list of
another monitor; so the two lists of a monitor have the same members. -/
theorem client_on_one_monitor (s : State) (h : Reachable s) :
    (∀ m ∈ s.mons, ∀ c, (c ∈ (s.M m).clients ∨ c ∈ (s.M m).stack) →
        s.mon c = m ∧ (s.M m).clients.count c = 1 ∧ (s.M m).stack.count c = 1
          ∧ ∀ k ∈ s.mons, k ≠ m → c ∉ (s.M k).clients ∧ c ∉ (s.M k).stack)
      ∧ (∀ m ∈ s.mons, ∀ c, c ∈ (s.M m).clients ↔ c ∈ (s.M m).stack) := by
  have hw := reachable_wf h
  refine ⟨?_, hw.same⟩
  intro m hm c hc
  have hcl : c ∈ (s.M m).clients := by
    rcases hc with h1 | h1
    · exact h1
    · exact (hw.same m hm c).mpr h1
  have hst : c ∈ (s.M m).stack := (hw.same m hm c).mp hcl
  refine ⟨hw.owner m hm c hcl, List.count_eq_one_of_mem (hw.nd_clients m hm) hcl,
    List.count_eq_one_of_mem (hw.nd_stack m hm) hst, ?_⟩
  intro k hk hne
  have h1 : c ∉ (s.M k).clients := fun h2 =>
    hne ((hw.owner k hk c h2).symm.trans (hw.owner m hm c hcl))
  exact ⟨h1, fun h2 => h1 ((hw.same k hk c).mpr h2)⟩

/-- C3 (witness): the two-monitor state with clients on both monitors. -/
theorem client_on_one_monitor_witness :
    Reachable exTwo
      ∧ ((∀ m ∈ exTwo.mons, ∀ c, (c ∈ (exTwo.M m).clients ∨ c ∈ (exTwo.M m).stack) →
            exTwo.mon c = m ∧ (exTwo.M m).clients.count c = 1
              ∧ (exTwo.M m).stack.count c = 1
              ∧ ∀ k ∈ exTwo.mons, k ≠ m → c ∉ (exTwo.M k).clients ∧ c ∉ (exTwo.M k).stack)
        ∧ (∀ m ∈ exTwo.mons, ∀ c, c ∈ (exTwo.M m).clients ↔ c ∈ (exTwo.M m).stack)) :=
  ⟨exTwo_reachable, client_on_one_monitor exTwo exTwo_reachable⟩

theorem hintsize_resizeclient (g : Env) (m : Monitor) (c : Client) (x y w h a b : Int) :
    hintsize g m (resizeclient c x y w h) a b = hintsize g m c a b := rfl

/-- C4 (counterexample): a tiled 400x300 client with border 1 on a 1920 wide
screen, interactive request (2000, 30, 500, 300).  The first call resolves
x = 1920 - WIDTH(c) = 1518 from the stored width 400; after the result is
stored the same request resolves x = 1418 and the call returns 1. -/
theorem applysizehints_idempotence_counterexample :
    (applysizehints exEnv exMon exClient 2000 30 500 300 1).1 = ⟨1518, 30, 500, 300⟩
      ∧ applysizehints exEnv exMon (resize exEnv exMon exClient 2000 30 500 300 1)
          2000 30 500 300 1 = (⟨1418, 30, 500, 300⟩, 1) := by
  decide

theorem clampx_within (g : Env) (m : Monitor) (c d : Client) (x w interact : Int)
    (hb : d.bw = c.bw)
    (h : (interact ≠ 0 ∧ x ≤ g.sw) ∨ (interact = 0 ∧ x < m.wx + m.ww)) :
    clampx g m d x w interact = clampx g m c x w interact := by
  rcases h with ⟨hi, hx⟩ | ⟨hi, hx⟩
  · have : ¬ x > g.sw := not_lt.mpr hx
    simp [clampx, hi, this, hb]
  · have : ¬ x ≥ m.wx + m.ww := not_le.mpr hx
    simp [clampx, hi, this, hb]

theorem clampx_beyond (g : Env) (m : Monitor) (c : Client) (x w interact : Int)
    (h : ¬ ((interact ≠ 0 ∧ x ≤ g.sw) ∨ (interact = 0 ∧ x < m.wx + m.ww))) :
    clampx g m c x w interact = offscreen_x g m c.bw c.w w interact := by
  push_neg at h
  by_cases hi : interact = 0
  · have hx : x ≥ m.wx + m.ww := h.2 hi
    simp [clampx, offscreen_x, hi, hx, WIDTH]
  · have hx : x > g.sw := h.1 hi
    simp [clampx, offscreen_x, hi, hx, WIDTH]

theorem clampy_within (g : Env) (m : Monitor) (c d : Client) (y h interact : Int)
    (hb : d.bw = c.bw)
    (hl : (interact ≠ 0 ∧ y ≤ g.sh) ∨ (interact = 0 ∧ y < m.wy + m.wh)) :
    clampy g m d y h interact = clampy g m c y h interact := by
  rcases hl with ⟨hi, hy⟩ | ⟨hi, hy⟩
  · have : ¬ y > g.sh := not_lt.mpr hy
    simp [clampy, hi, this, hb]
  · have : ¬ y ≥ m.wy + m.wh := not_le.mpr hy
    simp [clampy, hi, this, hb]

theorem clampy_beyond (g : Env) (m : Monitor) (c : Client) (y h interact : Int)
    (hl : ¬ ((interact ≠ 0 ∧ y ≤ g.sh) ∨ (interact = 0 ∧ y < m.wy + m.wh))) :
    clampy g m c y h interact = offscreen_y g m c.bw c.h h interact := by
  push_neg at hl
  by_cases hi : interact = 0
  · have hy : y ≥ m.wy + m.wh := hl.2 hi
    simp [clampy, offscreen_y, hi, hy, HEIGHT]
  · have hy : y > g.sh := hl.1 hi
    simp [clampy, offscreen_y, hi, hy, HEIGHT]

/-- C4 (amended): for every client and request, the second call after the
resolved rectangle `R` was stored resolves the same width and height.  It
resolves the same `x` exactly when the requested `x` lies within the limit of
the off-screen clamp (`x <= sw` in interactive mode, `x < wx + ww` otherwise)
or the clamp, which reads the stored `WIDTH(c)`, gives the same coordinate for
the width stored before the first call as for `R`'s width, as it does when the
stored width already equalled `R`'s; likewise for `y` with the stored height
(`y <= sh`, `y < wy + wh`); and it returns 0 exactly when it resolves the same
`x` and `y`. -/
theorem applysizehints_idempotent (g : Env) (m : Monitor) (c : Client)
    (x y w h interact : Int) :
    ((applysizehints g m (resize g m c x y w h interact) x y w h interact).1.w
        = (applysizehints g m c x y w h interact).1.w
      ∧ (applysizehints g m (resize g m c x y w h interact) x y w h interact).1.h
        = (applysizehints g m c x y w h interact).1.h)
    ∧ ((applysizehints g m (resize g m c x y w h interact) x y w h interact).1.x
          = (applysizehints g m c x y w h interact).1.x
        ↔ ((interact ≠ 0 ∧ x ≤ g.sw) ∨ (interact = 0 ∧ x < m.wx + m.ww)
            ∨ offscreen_x g m c.bw c.w (max 1 w) interact
                = offscreen_x g m c.bw (applysizehints g m c x y w h interact).1.w (max 1 w)
                    interact))
    ∧ ((applysizehints g m (resize g m c x y w h interact) x y w h interact).1.y
          = (applysizehints g m c x y w h interact).1.y
        ↔ ((interact ≠ 0 ∧ y ≤ g.sh) ∨ (interact = 0 ∧ y < m.wy + m.wh)
            ∨ offscreen_y g m c.bw c.h (max 1 h) interact
                = offscreen_y g m c.bw (applysizehints g m c x y w h interact).1.h (max 1 h)
                    interact))
    ∧ ((applysizehints g m (resize g m c x y w h interact) x y w h interact).2 = 0
        ↔ ((applysizehints g m (resize g m c x y w h interact) x y w h interact).1.x
              = (applysizehints g m c x y w h interact).1.x
            ∧ (applysizehints g m (resize g m c x y w h interact) x y w h interact).1.y
              = (applysizehints g m c x y w h interact).1.y))
    ∧ (c.w = (applysizehints g m c x y w h interact).1.w →
        (applysizehints g m (resize g m c x y w h interact) x y w h interact).1.x
          = (applysizehints g m c x y w h interact).1.x)
    ∧ (c.h = (applysizehints g m c x y w h interact).1.h →
        (applysizehints g m (resize g m c x y w h interact) x y w h interact).1.y
          = (applysizehints g m c x y w h interact).1.y) := by
  have hbw : (resize g m c x y w h interact).bw = c.bw := by
    unfold resize
    simp only
    split_ifs <;> rfl
  have hcw : (resize g m c x y w h interact).w = (applysizehints g m c x y w h interact).1.w := by
    unfold resize
    simp only
    split_ifs with h0
    · rfl
    · simp only [applysizehints, ne_eq, ite_eq_right_iff, one_ne_zero, imp_false, not_or,
        not_not] at h0
      exact h0.2.2.1.symm
  have hchh : (resize g m c x y w h interact).h = (applysizehints g m c x y w h interact).1.h := by
    unfold resize
    simp only
    split_ifs with h0
    · rfl
    · simp only [applysizehints, ne_eq, ite_eq_right_iff, one_ne_zero, imp_false, not_or,
        not_not] at h0
      exact h0.2.2.2.symm
  have hcx : (resize g m c x y w h interact).x = (applysizehints g m c x y w h interact).1.x := by
    unfold resize
    simp only
    split_ifs with h0
    · rfl
    · simp only [applysizehints, ne_eq, ite_eq_right_iff, one_ne_zero, imp_false, not_or,
        not_not] at h0
      exact h0.1.symm
  have hcy : (resize g m c x y w h interact).y = (applysizehints g m c x y w h interact).1.y := by
    unfold resize
    simp only
    split_ifs with h0
    · rfl
    · simp only [applysizehints, ne_eq, ite_eq_right_iff, one_ne_zero, imp_false, not_or,
        not_not] at h0
      exact h0.2.1.symm
  have hsz : ∀ a b, hintsize g m (resize g m c x y w h interact) a b = hintsize g m c a b := by
    intro a b
    unfold resize
    simp only
    split_ifs <;> rfl
  have hX : (applysizehints g m (resize g m c x y w h interact) x y w h interact).1.x
        = (applysizehints g m c x y w h interact).1.x
      ↔ ((interact ≠ 0 ∧ x ≤ g.sw) ∨ (interact = 0 ∧ x < m.wx + m.ww)
          ∨ offscreen_x g m c.bw c.w (max 1 w) interact
              = offscreen_x g m c.bw (applysizehints g m c x y w h interact).1.w (max 1 w)
                  interact) := by
    show clampx g m _ x (max 1 w) interact = clampx g m c x (max 1 w) interact ↔ _
    by_cases hin : (interact ≠ 0 ∧ x ≤ g.sw) ∨ (interact = 0 ∧ x < m.wx + m.ww)
    · rw [clampx_within g m c _ x _ interact hbw hin]
      constructor
      · intro _
        rcases hin with h1 | h1
        · exact Or.inl h1
        · exact Or.inr (Or.inl h1)
      · intro _; rfl
    · rw [clampx_beyond g m _ x _ interact hin, clampx_beyond g m c x _ interact hin, hbw, hcw]
      constructor
      · intro e
        exact Or.inr (Or.inr e.symm)
      · rintro (h1 | h1 | h1)
        · exact absurd (Or.inl h1) hin
        · exact absurd (Or.inr h1) hin
        · exact h1.symm
  have hY : (applysizehints g m (resize g m c x y w h interact) x y w h interact).1.y
        = (applysizehints g m c x y w h interact).1.y
      ↔ ((interact ≠ 0 ∧ y ≤ g.sh) ∨ (interact = 0 ∧ y < m.wy + m.wh)
          ∨ offscreen_y g m c.bw c.h (max 1 h) interact
              = offscreen_y g m c.bw (applysizehints g m c x y w h interact).1.h (max 1 h)
                  interact) := by
    show clampy g m _ y (max 1 h) interact = clampy g m c y (max 1 h) interact ↔ _
    by_cases hin : (interact ≠ 0 ∧ y ≤ g.sh) ∨ (interact = 0 ∧ y < m.wy + m.wh)
    · rw [clampy_within g m c _ y _ interact hbw hin]
      constructor
      · intro _
        rcases hin with h1 | h1
        · exact Or.inl h1
        · exact Or.inr (Or.inl h1)
      · intro _; rfl
    · rw [clampy_beyond g m _ y _ interact hin, clampy_beyond g m c y _ interact hin, hbw, hchh]
      constructor
      · intro e
        exact Or.inr (Or.inr e.symm)
      · rintro (h1 | h1 | h1)
        · exact absurd (Or.inl h1) hin
        · exact absurd (Or.inr h1) hin
        · exact h1.symm
  have hS : ((applysizehints g m (resize g m c x y w h interact) x y w h interact).1.w
        = (applysizehints g m c x y w h interact).1.w
      ∧ (applysizehints g m (resize g m c x y w h interact) x y w h interact).1.h
        = (applysizehints g m c x y w h interact).1.h) := by
    constructor
    · show (hintsize g m _ w h).1 = (hintsize g m c w h).1
      rw [hsz]
    · show (hintsize g m _ w h).2 = (hintsize g m c w h).2
      rw [hsz]
  refine ⟨hS, hX, hY, ?_, ?_, ?_⟩
  · have hret : (applysizehints g m (resize g m c x y w h interact) x y w h interact).2
        = if (applysizehints g m (resize g m c x y w h interact) x y w h interact).1.x
              ≠ (resize g m c x y w h interact).x
            ∨ (applysizehints g m (resize g m c x y w h interact) x y w h interact).1.y
              ≠ (resize g m c x y w h interact).y
            ∨ (applysizehints g m (resize g m c x y w h interact) x y w h interact).1.w
              ≠ (resize g m c x y w h interact).w
            ∨ (applysizehints g m (resize g m c x y w h interact) x y w h interact).1.h
              ≠ (resize g m c x y w h interact).h then 1 else 0 := rfl
    rw [hret, hcx, hcy, hcw, hchh]
    constructor
    · intro h0
      split_ifs at h0 with hc
      · cases h0
      · push_neg at hc
        exact ⟨hc.1, hc.2.1⟩
    · rintro ⟨h1, h2⟩
      rw [if_neg]
      push_neg
      exact ⟨h1, h2, hS.1, hS.2⟩
  · intro hw
    exact hX.mpr (Or.inr (Or.inr (by rw [← hw])))
  · intro hh
    exact hY.mpr (Or.inr (Or.inr (by rw [← hh])))

/-- C5 (evaluation at the failing input): a client whose only size hint is a
width increment of 50 is resolved to width 0 for a requested width of 30. -/
theorem applysizehints_zero_width :
    applysizehints exEnv exMon { exClient with incw := 50 } 10 30 30 300 0
      = (⟨10, 30, 0, 300⟩, 1) := by
  decide

theorem lock_set (a : Int) : Int.land (Int.lor a 2) 2 ≠ 0 := by
  intro h
  have h1 := congrArg (fun z => Int.testBit z 1) h
  simp only [Int.testBit_land, Int.testBit_lor] at h1
  have h2 : Int.testBit 2 1 = true := by decide
  have h3 : Int.testBit 0 1 = false := by decide
  simp [h2, h3] at h1

theorem lor_land_vals : Int.land (Int.lor 0 2) 2 = 2 ∧ Int.land (Int.lor 0 2) 1 = 0
    ∧ Int.land (Int.lor 1 2) 2 = 2 ∧ Int.land (Int.lor 1 2) 1 = 1
    ∧ Int.land 0 2 = 0 ∧ Int.land 1 2 = 0 := by decide

/-- C6: for a client with fakefullscreen = 0, isfullscreen = 0, the lock bit
of oldstate clear and isfloating 0 or 1, `setfullscreen(c, 1)` followed by
`setfullscreen(c, 0)` restores x, y, w, h, the border width and the floating
flag, and leaves isfullscreen = 0 with the lock bit clear. -/
theorem fullscreen_roundtrip (m : Monitor) (c : Client) (hff : c.fakefullscreen = 0)
    (hfs : c.isfullscreen = 0) (hlock : Int.land c.oldstate 2 = 0)
    (hfl : c.isfloating = 0 ∨ c.isfloating = 1) :
    (setfullscreen m (setfullscreen m c 1) 0).x = c.x
      ∧ (setfullscreen m (setfullscreen m c 1) 0).y = c.y
      ∧ (setfullscreen m (setfullscreen m c 1) 0).w = c.w
      ∧ (setfullscreen m (setfullscreen m c 1) 0).h = c.h
      ∧ (setfullscreen m (setfullscreen m c 1) 0).bw = c.bw
      ∧ (setfullscreen m (setfullscreen m c 1) 0).isfloating = c.isfloating
      ∧ (setfullscreen m (setfullscreen m c 1) 0).isfullscreen = 0
      ∧ Int.land (setfullscreen m (setfullscreen m c 1) 0).oldstate 2 = 0 := by
  obtain ⟨a0, a1, b0, b1, z0, z1⟩ := lor_land_vals
  have e1 : setfullscreen m c 1 = resizeclient
      ({ c with isfullscreen := 1, oldbw := c.bw, oldstate := Int.lor c.isfloating 2, bw := 0,
                isfloating := 1 } : Client) m.mx m.my m.mw m.mh := by
    simp [setfullscreen, hff, hfs, hlock]
  rw [e1]
  rcases hfl with h | h
  · simp [setfullscreen, resizeclient, hff, h, a0, a1, z0]
  · simp [setfullscreen, resizeclient, hff, h, b0, b1, z1]

/-- C6 (witness): the tiled example client. -/
theorem fullscreen_roundtrip_witness :
    exClient.fakefullscreen = 0 ∧ exClient.isfullscreen = 0
      ∧ Int.land exClient.oldstate 2 = 0
      ∧ (setfullscreen exMon (setfullscreen exMon exClient 1) 0).x = exClient.x
      ∧ (setfullscreen exMon (setfullscreen exMon exClient 1) 0).isfloating
          = exClient.isfloating :=
  have h := fullscreen_roundtrip exMon exClient rfl rfl (by decide) (Or.inl rfl)
  ⟨rfl, rfl, by decide, h.1, h.2.2.2.2.2.1⟩

/-- C7: for every client state with fakefullscreen in {0, 1, 2, 3}, calling
`setfullscreen(c, 1)` twice leaves the client in the same state as calling it
once; in particular the snapshot oldx, oldy, oldw, oldh, oldbw, oldstate taken
by the first call is unchanged by the second. -/
theorem fullscreen_enter_twice (m : Monitor) (c : Client)
    (hff : c.fakefullscreen = 0 ∨ c.fakefullscreen = 1 ∨ c.fakefullscreen = 2
      ∨ c.fakefullscreen = 3) :
    setfullscreen m (setfullscreen m c 1) 1 = setfullscreen m c 1 := by
  have hl := lock_set c.isfloating
  rcases hff with h | h | h | h
  · by_cases hfs : c.isfullscreen = 0
    · by_cases hk : Int.land c.oldstate 2 = 0
      · simp [setfullscreen, resizeclient, h, hfs, hk, hl]
      · simp [setfullscreen, resizeclient, h, hfs, hk, hl]
    · simp [setfullscreen, resizeclient, h, hfs]
  · simp [setfullscreen, resizeclient, h]
  · by_cases hk : Int.land c.oldstate 2 = 0
    · simp [setfullscreen, resizeclient, h, hk, hl]
    · simp [setfullscreen, resizeclient, h, hk, hl]
  · simp [setfullscreen, resizeclient, h]

/-- C7 (witness): the tiled example client; its snapshot after one call holds
the original geometry and is the same after the second call. -/
theorem fullscreen_enter_twice_witness :
    setfullscreen exMon (setfullscreen exMon exClient 1) 1 = setfullscreen exMon exClient 1
      ∧ (setfullscreen exMon exClient 1).oldx = exClient.x
      ∧ (setfullscreen exMon exClient 1).oldw = exClient.w :=
  ⟨fullscreen_enter_twice exMon exClient (Or.inl rfl), by decide, by decide⟩

/-- C4 (witness): an interactive request beyond the right screen edge that
keeps the stored width 400 and changes the height, with `y` inside the screen:
the second call resolves the same rectangle and returns 0. -/
theorem applysizehints_idempotent_witness :
    (2000 : Int) > exEnv.sw
      ∧ exClient.w = (applysizehints exEnv exMon exClient 2000 30 400 500 1).1.w
      ∧ exClient.h ≠ (applysizehints exEnv exMon exClient 2000 30 400 500 1).1.h
      ∧ (applysizehints exEnv exMon (resize exEnv exMon exClient 2000 30 400 500 1)
          2000 30 400 500 1).2 = 0 :=
  have h := applysizehints_idempotent exEnv exMon exClient 2000 30 400 500 1
  ⟨by decide, by decide, by decide,
    h.2.2.2.1.mpr ⟨h.2.2.2.2.1 (by decide),
      h.2.2.1.mpr (Or.inl ⟨by decide, by decide⟩)⟩⟩

theorem exTwo_wf : WF exTwo := reachable_wf exTwo_reachable

/-- C8: from a well-formed registry with `n` monitors, `updategeom` with
`1 <= nn < n` distinct screens ends (the migration loops terminate), keeps the
first `nn` monitors, and every client that was in a list of any monitor is
afterwards in the arrangement list and the recency list of a surviving monitor
named by its `mon` link; the number of managed clients is unchanged. -/
theorem updategeom_keeps_clients (s : State) (hw : WF s) (nn : Nat) (h1 : 1 ≤ nn)
    (h2 : nn < s.mons.length) (ptr : Option (Int × Int)) :
    ∃ s1, updategeom_less s nn ptr = some s1 ∧ s1.mons = s.mons.take nn
      ∧ (∀ m ∈ s.mons, ∀ c, (c ∈ (s.M m).clients ∨ c ∈ (s.M m).stack) →
          ∃ k ∈ s1.mons, c ∈ (s1.M k).clients ∧ c ∈ (s1.M k).stack ∧ s1.mon c = k)
      ∧ nclients s1 = nclients s := by
  obtain ⟨s1, first, keep, removed, a0, a1, a2, a3, a4, _, a6, a7, a8, a9⟩ :=
    updategeom_less_spec hw h1 h2 ptr
  have hfirst : first ∈ s1.mons := by rw [a4]; exact List.mem_cons_self _ _
  refine ⟨s1, a0, ?_, ?_, ?_⟩
  · rw [a4, a1]
    have : (first :: keep).length = nn := by simpa using a2
    rw [← List.cons_append, ← this, List.take_left']
    rfl
  · intro m hm c hc
    have hcl : c ∈ (s.M m).clients := by
      rcases hc with h | h
      · exact h
      · exact (hw.same m hm c).mpr h
    by_cases hr : ∃ r ∈ removed, c ∈ (s.M r).clients
    · have hin : c ∈ (s1.M first).clients := by
        rw [a6]
        apply List.mem_append_left
        obtain ⟨r, hr1, hr2⟩ := hr
        simp only [List.mem_flatten, List.mem_map]
        exact ⟨_, ⟨r, hr1, rfl⟩, by simpa using hr2⟩
      refine ⟨first, hfirst, hin, (a3.same first hfirst c).mp hin, ?_⟩
      rw [a9, if_pos hr]
    · have hmon : s1.mon c = m := by
        rw [a9, if_neg hr]; exact hw.owner m hm c hcl
      have hm2 : m ∈ first :: keep := by
        rw [a1] at hm
        rcases List.mem_cons.mp hm with h | h
        · rw [h]; exact List.mem_cons_self _ _
        · rcases List.mem_append.mp h with h | h
          · exact List.mem_cons_of_mem _ h
          · exact absurd ⟨m, h, hcl⟩ hr
      have hin : c ∈ (s1.M m).clients := by
        rcases List.mem_cons.mp hm2 with h | h
        · rw [h, a6]; exact List.mem_append_right _ (h ▸ hcl)
        · rw [(a8 m h).1]; exact hcl
      have hms : m ∈ s1.mons := by rw [a4]; exact hm2
      exact ⟨m, hms, hin, (a3.same m hms c).mp hin, hmon⟩
  · unfold nclients
    rw [a4, a1]
    have hk : keep.map (fun m => (s1.M m).clients.length)
        = keep.map (fun m => (s.M m).clients.length) := by
      apply List.map_congr_left
      intro k hk
      rw [(a8 k hk).1]
    simp only [List.map_cons, List.map_append, List.sum_cons, List.sum_append, hk, a6,
      List.length_append, List.length_flatten, List.map_map]
    have : (List.length ∘ fun m => (s.M m).clients.reverse)
        = fun m => (s.M m).clients.length := by
      funext m; simp
    rw [this]
    omega

/-- C8 (witness): dropping monitor 1 of the two-monitor state. -/
theorem updategeom_keeps_clients_witness :
    WF exTwo ∧ 1 < exTwo.mons.length
      ∧ ∃ s1, updategeom_less exTwo 1 none = some s1 ∧ s1.mons = exTwo.mons.take 1
        ∧ (∀ m ∈ exTwo.mons, ∀ c, (c ∈ (exTwo.M m).clients ∨ c ∈ (exTwo.M m).stack) →
            ∃ k ∈ s1.mons, c ∈ (s1.M k).clients ∧ c ∈ (s1.M k).stack ∧ s1.mon c = k)
        ∧ nclients s1 = nclients exTwo :=
  ⟨exTwo_wf, by decide, updategeom_keeps_clients exTwo exTwo_wf 1 (le_refl 1) (by decide) none⟩

/-- C9 (counterexample): monitor 0 holds `[1]` and monitor 1 holds `[3, 2]` in
both lists; after monitor 1 is removed both lists of monitor 0 are `[2, 3, 1]`:
the migrated clients 3 and 2 stand before client 1 and in reversed order,
where appending would give `[1, 3, 2]`. -/
theorem updategeom_append_counterexample :
    (exTwo.M 0).clients = [1] ∧ (exTwo.M 0).stack = [1]
      ∧ (exTwo.M 1).clients = [3, 2] ∧ (exTwo.M 1).stack = [3, 2]
      ∧ (updategeom_less exTwo 1 none).map (fun s => ((s.M 0).clients, (s.M 0).stack))
          = some ([2, 3, 1], [2, 3, 1])
      ∧ (updategeom_less exTwo 1 none).map (fun s => (s.M 0).clients)
          ≠ some ((exTwo.M 0).clients ++ (exTwo.M 1).clients) := by
  decide

/-- C9 (amended): when `updategeom` removes the monitors after the first `nn`
(`1 <= nn < n`), their clients are put at the front of the first monitor's
lists: its arrangement list and its recency list both become the reversed
arrangement lists of the removed monitors, taken in monitor-list order,
followed by what the list held before. -/
theorem updategeom_prepends_reversed (s : State) (hw : WF s) (nn : Nat) (h1 : 1 ≤ nn)
    (h2 : nn < s.mons.length) (ptr : Option (Int × Int)) :
    ∃ s1 first keep removed, updategeom_less s nn ptr = some s1
      ∧ s.mons = first :: (keep ++ removed) ∧ keep.length + 1 = nn
      ∧ s1.mons = first :: keep
      ∧ (s1.M first).clients
          = (removed.map (fun m => (s.M m).clients.reverse)).flatten ++ (s.M first).clients
      ∧ (s1.M first).stack
          = (removed.map (fun m => (s.M m).clients.reverse)).flatten ++ (s.M first).stack := by
  obtain ⟨s1, first, keep, removed, a0, a1, a2, _, a4, _, a6, a7, _, _⟩ :=
    updategeom_less_spec hw h1 h2 ptr
  exact ⟨s1, first, keep, removed, a0, a1, a2, a4, a6, a7⟩

/-- C9 (witness): dropping monitor 1 of the two-monitor state. -/
theorem updategeom_prepends_reversed_witness :
    WF exTwo ∧ 1 < exTwo.mons.length
      ∧ ∃ s1 first keep removed, updategeom_less exTwo 1 none = some s1
        ∧ exTwo.mons = first :: (keep ++ removed) ∧ keep.length + 1 = 1
        ∧ s1.mons = first :: keep
        ∧ (s1.M first).clients
            = (removed.map (fun m => (exTwo.M m).clients.reverse)).flatten
                ++ (exTwo.M first).clients
        ∧ (s1.M first).stack
            = (removed.map (fun m => (exTwo.M m).clients.reverse)).flatten
                ++ (exTwo.M first).stack :=
  ⟨exTwo_wf, by decide,
    updategeom_prepends_reversed exTwo exTwo_wf 1 (le_refl 1) (by decide) none⟩

/-- C10: for a client `c` that is a member of its monitor's arrangement list
and recency list, both without repetition: `detach(c)` leaves exactly the
other clients in their order; `detach(c)` then `attach(c)` gives `c` followed
by the other clients in their order, a permutation of the original list; and
`detachstack(c)` then `attachstack(c)` does the same to the recency list. -/
theorem detach_attach_roundtrip (s : State) (c : Nat)
    (hn : (s.M (s.mon c)).clients.Nodup) (hc : c ∈ (s.M (s.mon c)).clients)
    (hsn : (s.M (s.mon c)).stack.Nodup) (hsc : c ∈ (s.M (s.mon c)).stack) :
    ((detach s c).M (s.mon c)).clients = (s.M (s.mon c)).clients.filter (fun t => t != c)
      ∧ ((attach (detach s c) c).M (s.mon c)).clients
          = c :: (s.M (s.mon c)).clients.filter (fun t => t != c)
      ∧ ((attach (detach s c) c).M (s.mon c)).clients.Perm (s.M (s.mon c)).clients
      ∧ ((detachstack s c).M (s.mon c)).stack = (s.M (s.mon c)).stack.filter (fun t => t != c)
      ∧ ((attachstack (detachstack s c) c).M (s.mon c)).stack
          = c :: (s.M (s.mon c)).stack.filter (fun t => t != c)
      ∧ ((attachstack (detachstack s c) c).M (s.mon c)).stack.Perm (s.M (s.mon c)).stack := by
  simp only [detach_clients, attach_clients, detach_mon, detachstack_stack, attachstack_stack,
    detachstack_mon, if_true]
  refine ⟨unlink_eq_filter c _ hn, by rw [unlink_eq_filter c _ hn], perm_cons_unlink hn hc,
    unlink_eq_filter c _ hsn, by rw [unlink_eq_filter c _ hsn], perm_cons_unlink hsn hsc⟩

/-- C10 (witness): client 2 in the middle of the lists `[3, 2, 1]`. -/
theorem detach_attach_roundtrip_witness :
    (exThree.M (exThree.mon 2)).clients = [3, 2, 1]
      ∧ ((attach (detach exThree 2) 2).M (exThree.mon 2)).clients = [2, 3, 1]
      ∧ ((attach (detach exThree 2) 2).M (exThree.mon 2)).clients
          = 2 :: (exThree.M (exThree.mon 2)).clients.filter (fun t => t != 2) :=
  ⟨by decide, by decide,
    (detach_attach_roundtrip exThree 2 (by decide) (by decide) (by decide) (by decide)).2.1⟩

theorem exThree_reachable : Reachable exThree :=
  Reachable.manage [] _ 3 103 none
    (Reachable.manage [] _ 2 102 none (reach_reachable exOne_reach) (by decide)) (by decide)

theorem exThree_wf : WF exThree := reachable_wf exThree_reachable

theorem exMid_reachable : Reachable exMid :=
  Reachable.tag _ 2
    (Reachable.focus _ (some 2) exThree_reachable (fun t h => by cases h; decide))

theorem exMid_wf : WF exMid := reachable_wf exMid_reachable

/-! ## Selection after detachstack and focus -/

theorem find?_congr_mem {p q : Nat → Bool} {l : List Nat} (h : ∀ t ∈ l, p t = q t) :
    l.find? p = l.find? q := by
  induction l with
  | nil => rfl
  | cons a r ih =>
    have ha := h a (List.mem_cons_self _ _)
    have hr := ih (fun t ht => h t (List.mem_cons_of_mem _ ht))
    simp only [List.find?_cons, ha, hr]

theorem ISVISIBLE_eq_visible_on {s : State} {m t : Nat} (h : s.mon t = m) :
    ISVISIBLE s t = visible_on s m t := by
  simp [ISVISIBLE, visible_on, h]

/-- C11: for a member `c` of the recency list of its monitor `m` (a list
without repetition whose members all have their `mon` link on `m`),
`detachstack(c)` leaves the other members in their order; if `c` was `m`'s
selected client the new selection is the first client of the remaining list
whose tags meet `m`'s active tag set, or none when there is no such client;
otherwise the selection is unchanged. -/
theorem detachstack_selection (s : State) (c : Nat)
    (hn : (s.M (s.mon c)).stack.Nodup) (hc : c ∈ (s.M (s.mon c)).stack)
    (hown : ∀ t ∈ (s.M (s.mon c)).stack, s.mon t = s.mon c) :
    ((detachstack s c).M (s.mon c)).stack = (s.M (s.mon c)).stack.filter (fun t => t != c)
      ∧ ((detachstack s c).M (s.mon c)).stack.length + 1 = (s.M (s.mon c)).stack.length
      ∧ ((s.M (s.mon c)).sel = some c →
          ((detachstack s c).M (s.mon c)).sel
            = ((s.M (s.mon c)).stack.filter (fun t => t != c)).find?
                (visible_on s (s.mon c)))
      ∧ ((s.M (s.mon c)).sel ≠ some c →
          ((detachstack s c).M (s.mon c)).sel = (s.M (s.mon c)).sel) := by
  have hf := unlink_eq_filter c _ hn
  refine ⟨by simp [hf], ?_, ?_, ?_⟩
  · have := (perm_cons_unlink hn hc).length_eq
    simpa using this
  · intro hs
    rw [detachstack_sel, if_pos ⟨rfl, hs⟩, hf]
    apply find?_congr_mem
    intro t ht
    exact ISVISIBLE_eq_visible_on (hown t (List.mem_of_mem_filter ht))
  · intro hs
    rw [detachstack_sel, if_neg (fun h => hs h.2)]

/-- C11 (witness): client 3, the selected client at the head of `[3, 2, 1]`. -/
theorem detachstack_selection_witness :
    (exThree.M (exThree.mon 3)).stack = [3, 2, 1]
      ∧ (exThree.M (exThree.mon 3)).sel = some 3
      ∧ ((detachstack exThree 3).M (exThree.mon 3)).stack = [2, 1]
      ∧ ((detachstack exThree 3).M (exThree.mon 3)).sel = some 2
      ∧ ((detachstack exThree 3).M (exThree.mon 3)).stack
          = (exThree.M (exThree.mon 3)).stack.filter (fun t => t != 3) :=
  ⟨by decide, by decide, by decide, by decide,
    (detachstack_selection exThree 3 (by decide) (by decide) (by decide)).1⟩

theorem focus_pick_fallback {s : State} {c : Option Nat}
    (hc : c = none ∨ ∃ t, c = some t ∧ ISVISIBLE s t = false) :
    focus_pick s c = (s.M s.selmon).stack.find? (ISVISIBLE s) := by
  rcases hc with rfl | ⟨t, rfl, ht⟩
  · rfl
  · simp [focus_pick, ht]

/-- C12: when the members of the selected monitor's recency list have their
`mon` link on it, `focus(c)` with `c` NULL or not visible keeps the selected
monitor and makes its selected client the first client of its recency list
whose tags meet its active tag set, or none when the list has no such
client. -/
theorem focus_fallback (s : State) (c : Option Nat)
    (hown : ∀ t ∈ (s.M s.selmon).stack, s.mon t = s.selmon)
    (hc : c = none ∨ ∃ t, c = some t ∧ ISVISIBLE s t = false) :
    (focus s c).selmon = s.selmon
      ∧ ((focus s c).M s.selmon).sel
          = (s.M s.selmon).stack.find? (visible_on s s.selmon) := by
  have hp := focus_pick_fallback hc
  have hv : (s.M s.selmon).stack.find? (ISVISIBLE s)
      = (s.M s.selmon).stack.find? (visible_on s s.selmon) :=
    find?_congr_mem (fun t ht => ISVISIBLE_eq_visible_on (hown t ht))
  cases h : focus_pick s c with
  | none =>
    rw [focus_none h]
    rw [h] at hp
    exact ⟨rfl, by rw [← hv, ← hp]; simp⟩
  | some u =>
    rw [h] at hp
    have hu : s.mon u = s.selmon := hown u (find?_mem_of_eq hp.symm)
    rw [focus_some h]
    refine ⟨by simp [hu], ?_⟩
    rw [← hv, ← hp, ← hu]
    simp

/-- C12 (witness): `focus(NULL)` in the state where the selected client 3 of
`[3, 2, 1]` has just been retagged to a hidden tag. -/
theorem focus_fallback_witness :
    ((focus ({ exThree with tags := upd exThree.tags 3 2 } : State) none).M 0).sel = some 2
      ∧ ((focus ({ exThree with tags := upd exThree.tags 3 2 } : State) none).M
            ({ exThree with tags := upd exThree.tags 3 2 } : State).selmon).sel
          = (({ exThree with tags := upd exThree.tags 3 2 } : State).M
              ({ exThree with tags := upd exThree.tags 3 2 } : State).selmon).stack.find?
              (visible_on ({ exThree with tags := upd exThree.tags 3 2 } : State)
                ({ exThree with tags := upd exThree.tags 3 2 } : State).selmon) :=
  ⟨by decide,
    (focus_fallback ({ exThree with tags := upd exThree.tags 3 2 } : State) none
      (by decide) (Or.inl rfl)).2⟩

/-- C13: for a managed client `c` that is visible, after `focus(c)` the recency
list of its monitor is `c` followed by the other members in their previous
order, `c` is that monitor's selected client and that monitor is the selected
monitor; the arrangement lists and the other recency lists are unchanged. -/
theorem focus_promotes (s : State) (hw : WF s) (c : Nat) (hc : Managed s c)
    (hv : ISVISIBLE s c = true) :
    ((focus s (some c)).M (s.mon c)).stack
        = c :: (s.M (s.mon c)).stack.filter (fun t => t != c)
      ∧ ((focus s (some c)).M (s.mon c)).stack.Perm (s.M (s.mon c)).stack
      ∧ ((focus s (some c)).M (s.mon c)).sel = some c
      ∧ (focus s (some c)).selmon = s.mon c
      ∧ (∀ k, k ≠ s.mon c → ((focus s (some c)).M k).stack = (s.M k).stack)
      ∧ (∀ k, ((focus s (some c)).M k).clients = (s.M k).clients) := by
  have hp : focus_pick s (some c) = some c := by simp [focus_pick, hv]
  have hn := hw.nd_stack _ (hc.mon_mem hw)
  have hmem := hc.mem_stack hw
  have hst : ((focus s (some c)).M (s.mon c)).stack = c :: unlink c (s.M (s.mon c)).stack := by
    rw [focus_some hp]; simp
  refine ⟨by rw [hst, unlink_eq_filter c _ hn], by rw [hst]; exact perm_cons_unlink hn hmem,
    ?_, ?_, ?_, fun k => focus_clients s _ k⟩
  · rw [focus_some hp]; simp
  · rw [focus_some hp]; simp
  · intro k hk
    rw [focus_some hp, setM_M_ne _ _ hk]
    simp [hk]

/-- C13 (witness): focusing client 1, the last of `[3, 2, 1]`. -/
theorem focus_promotes_witness :
    WF exThree ∧ Managed exThree 1 ∧ ISVISIBLE exThree 1 = true
      ∧ ((focus exThree (some 1)).M (exThree.mon 1)).stack = [1, 3, 2]
      ∧ ((focus exThree (some 1)).M (exThree.mon 1)).stack
          = 1 :: (exThree.M (exThree.mon 1)).stack.filter (fun t => t != 1) :=
  ⟨exThree_wf, by decide, by decide, by decide,
    (focus_promotes exThree exThree_wf 1 (by decide) (by decide)).1⟩

/-! ## unmanage and the notify handlers -/

theorem filter_ne_of_not_mem {c : Nat} {l : List Nat} (h : c ∉ l) :
    l.filter (fun t => t != c) = l := by
  apply List.filter_eq_self.mpr
  intro a ha
  have : a ≠ c := fun e => h (e ▸ ha)
  simpa using this

theorem focus_none_selmon {s : State} (hw : WF s) : (focus s none).selmon = s.selmon := by
  cases h : focus_pick s none with
  | none => rw [focus_none h]; rfl
  | some u =>
    have hu : s.mon u = s.selmon := by
      rcases focus_pick_mon hw h with h1 | h1
      · cases h1
      · exact h1
    rw [focus_some h]
    simp [hu]

theorem focus_none_stack {s : State} (hw : WF s) (k : Nat) :
    ((focus s none).M k).stack
      = if k = s.selmon then
          (match (s.M s.selmon).stack.find? (visible_on s s.selmon) with
            | some t => t :: (s.M s.selmon).stack.filter (fun u => u != t)
            | none => (s.M s.selmon).stack)
        else (s.M k).stack := by
  have hv : (s.M s.selmon).stack.find? (ISVISIBLE s)
      = (s.M s.selmon).stack.find? (visible_on s s.selmon) :=
    find?_congr_mem (fun t ht => ISVISIBLE_eq_visible_on (hw.mon_of_stack hw.selmon_mem ht))
  have hp : focus_pick s none = (s.M s.selmon).stack.find? (visible_on s s.selmon) := hv
  cases h : focus_pick s none with
  | none =>
    rw [h] at hp
    rw [focus_none h, ← hp]
    by_cases e : k = s.selmon
    · subst e; simp
    · simp [setM_M_ne _ _ e, e]
  | some u =>
    rw [h] at hp
    have hu : s.mon u = s.selmon := by
      rcases focus_pick_mon hw h with h1 | h1
      · cases h1
      · exact h1
    rw [focus_some h, ← hp]
    by_cases e : k = s.selmon
    · subst e
      simp [hu, unlink_eq_filter u _ (hw.nd_stack _ hw.selmon_mem)]
    · have e2 : k ≠ s.mon u := by rw [hu]; exact e
      simp [setM_M_ne _ _ e2, e, e2]

/-- The state after `unmanage(c, destroyed)` of a managed client. -/
theorem unmanage_spec {s : State} (hw : WF s) {c : Nat} (hc : Managed s c) (d : Int) :
    WF (unmanage s c d) ∧ (unmanage s c d).mons = s.mons
      ∧ (unmanage s c d).selmon = s.selmon
      ∧ (unmanage s c d).win = s.win ∧ (unmanage s c d).tags = s.tags
      ∧ (unmanage s c d).mon = s.mon
      ∧ (∀ k ∈ s.mons,
          ((unmanage s c d).M k).clients = (s.M k).clients.filter (fun t => t != c))
      ∧ (∀ k ∈ s.mons, k ≠ s.selmon →
          ((unmanage s c d).M k).stack = (s.M k).stack.filter (fun t => t != c))
      ∧ ((unmanage s c d).M s.selmon).stack
          = (match ((s.M s.selmon).stack.filter (fun t => t != c)).find?
                (visible_on s s.selmon) with
            | some t =>
              t :: ((s.M s.selmon).stack.filter (fun t => t != c)).filter (fun u => u != t)
            | none => (s.M s.selmon).stack.filter (fun t => t != c)) := by
  obtain ⟨h1, h2⟩ := hw.remove hc
  have hcl : ∀ k ∈ s.mons,
      ((detachstack (detach s c) c).M k).clients = (s.M k).clients.filter (fun t => t != c) := by
    intro k hk
    simp only [detachstack_clients, detach_clients]
    split_ifs with e
    · exact unlink_eq_filter c _ (hw.nd_clients k hk)
    · have : c ∉ (s.M k).clients := fun h => e (hw.owner k hk c h).symm
      exact (filter_ne_of_not_mem this).symm
  have hst : ∀ k ∈ s.mons,
      ((detachstack (detach s c) c).M k).stack = (s.M k).stack.filter (fun t => t != c) := by
    intro k hk
    simp only [detachstack_stack, detach_stack, detach_mon]
    split_ifs with e
    · exact unlink_eq_filter c _ (hw.nd_stack k hk)
    · have : c ∉ (s.M k).stack := fun h => e (hw.mon_of_stack hk h).symm
      exact (filter_ne_of_not_mem this).symm
  have hvis : visible_on (detachstack (detach s c) c) s.selmon = visible_on s s.selmon := by
    funext t
    simp [visible_on]
  unfold unmanage
  refine ⟨wf_focus h1 _ (fun _ h => by cases h), by simp, ?_, by simp, by simp, by simp,
    ?_, ?_, ?_⟩
  · rw [focus_none_selmon h1]; simp
  · intro k hk
    rw [focus_clients]; exact hcl k hk
  · intro k hk hne
    rw [focus_none_stack h1]
    simp only [detachstack_selmon, detach_selmon, hne, if_false]
    exact hst k hk
  · rw [focus_none_stack h1]
    simp only [detachstack_selmon, detach_selmon, if_true, hvis, hst _ hw.selmon_mem]

/-- C14 (counterexample): the selected monitor's recency list is `[3, 2, 1]`
with client 2 hidden; after `unmanage` of client 3 it is `[1, 2]`: the
remaining clients 2 and 1 have changed their order, because `focus(NULL)`
moves the first visible client to the head. -/
theorem unmanage_order_counterexample :
    Reachable exMid ∧ Managed exMid 3 ∧ (exMid.M 0).stack = [3, 2, 1]
      ∧ ISVISIBLE exMid 2 = false
      ∧ ((unmanage exMid 3 0).M 0).stack = [1, 2]
      ∧ ((unmanage exMid 3 0).M 0).stack ≠ (exMid.M 0).stack.filter (fun t => t != 3) :=
  ⟨exMid_reachable, by decide, by decide, by decide, by decide, by decide⟩

/-- C14 (amended): after `unmanage(c, destroyed)` of a managed client, with
either value of `destroyed`, `c` occurs in no arrangement or recency list and
is no monitor's selected client; every arrangement list and every recency list
of a monitor other than the selected one holds the other clients in their
previous order; the selected monitor's recency list holds the other clients
with the first visible one moved to the head (the client `focus(NULL)`
settles on) and the rest in their previous order; so every other client is
still in both lists of its monitor. -/
theorem unmanage_removes (s : State) (hw : WF s) (c : Nat) (hc : Managed s c) (d : Int) :
    (∀ k ∈ s.mons, c ∉ ((unmanage s c d).M k).clients ∧ c ∉ ((unmanage s c d).M k).stack
        ∧ ((unmanage s c d).M k).sel ≠ some c)
      ∧ (∀ k ∈ s.mons,
          ((unmanage s c d).M k).clients = (s.M k).clients.filter (fun t => t != c))
      ∧ (∀ k ∈ s.mons, k ≠ s.selmon →
          ((unmanage s c d).M k).stack = (s.M k).stack.filter (fun t => t != c))
      ∧ ((unmanage s c d).M s.selmon).stack
          = (match ((s.M s.selmon).stack.filter (fun t => t != c)).find?
                (visible_on s s.selmon) with
            | some t =>
              t :: ((s.M s.selmon).stack.filter (fun t => t != c)).filter (fun u => u != t)
            | none => (s.M s.selmon).stack.filter (fun t => t != c))
      ∧ (∀ k ∈ s.mons, ∀ t, t ≠ c →
          ((t ∈ ((unmanage s c d).M k).clients ↔ t ∈ (s.M k).clients)
            ∧ (t ∈ ((unmanage s c d).M k).stack ↔ t ∈ (s.M k).stack)))
      ∧ (unmanage s c d).mon = s.mon := by
  obtain ⟨a1, a2, a3, _, _, a6, a7, a8, a9⟩ := unmanage_spec hw hc d
  have hcl : ∀ k ∈ s.mons, ∀ t, t ∈ ((unmanage s c d).M k).clients ↔ t ∈ (s.M k).clients ∧ t ≠ c := by
    intro k hk t
    rw [a7 k hk]; simp
  have hst : ∀ k ∈ s.mons, ∀ t, t ∈ ((unmanage s c d).M k).stack ↔ t ∈ (s.M k).stack ∧ t ≠ c := by
    intro k hk t
    rw [← a1.same k (a2 ▸ hk) t, hcl k hk t, hw.same k hk t]
  refine ⟨?_, a7, a8, a9, ?_, a6⟩
  · intro k hk
    have h1 : c ∉ ((unmanage s c d).M k).clients := fun h => ((hcl k hk c).mp h).2 rfl
    have h2 : c ∉ ((unmanage s c d).M k).stack := fun h => ((hst k hk c).mp h).2 rfl
    exact ⟨h1, h2, fun h => h2 (a1.sel_mem k (a2 ▸ hk) c h)⟩
  · intro k hk t ht
    exact ⟨by rw [hcl k hk t]; simp [ht], by rw [hst k hk t]; simp [ht]⟩

/-- C14 (witness): `unmanage` of client 3 in the state of the
counterexample. -/
theorem unmanage_removes_witness :
    WF exMid ∧ Managed exMid 3
      ∧ ((unmanage exMid 3 1).M exMid.selmon).stack
          = (match ((exMid.M exMid.selmon).stack.filter (fun t => t != 3)).find?
                (visible_on exMid exMid.selmon) with
            | some t =>
              t :: ((exMid.M exMid.selmon).stack.filter (fun t => t != 3)).filter
                (fun u => u != t)
            | none => (exMid.M exMid.selmon).stack.filter (fun t => t != 3)) :=
  ⟨exMid_wf, by decide, (unmanage_removes exMid exMid_wf 3 (by decide) 1).2.2.2.1⟩

theorem wintoclient_win {s : State} {w c : Nat} (h : wintoclient s w = some c) :
    s.win c = w := by
  unfold wintoclient at h
  obtain ⟨m, _, hf⟩ := List.exists_of_findSome?_eq_some h
  have := List.find?_some hf
  simpa using this

theorem wintoclient_eq_none {s : State} {w : Nat}
    (h : ∀ m ∈ s.mons, ∀ t ∈ (s.M m).clients, s.win t ≠ w) : wintoclient s w = none := by
  unfold wintoclient
  rw [List.findSome?_eq_none_iff]
  intro m hm
  rw [List.find?_eq_none]
  intro t ht
  simpa using h m hm t ht

theorem unmanage_untracks {s : State} (hw : WF s)
    (hinj : ∀ a b, Managed s a → Managed s b → s.win a = s.win b → a = b)
    {w c : Nat} (h : wintoclient s w = some c) (d : Int) :
    wintoclient (unmanage s c d) w = none := by
  have hc := wintoclient_managed h
  obtain ⟨_, a2, _, a4, _, _, a7, _, _⟩ := unmanage_spec hw hc d
  apply wintoclient_eq_none
  intro m hm t ht hwin
  rw [a2] at hm
  rw [a7 m hm] at ht
  have ht1 : t ∈ (s.M m).clients := List.mem_of_mem_filter ht
  have ht2 : t ≠ c := by
    have := (List.mem_filter.mp ht).2
    simpa using this
  rw [a4] at hwin
  exact ht2 (hinj t c ⟨m, hm, ht1⟩ hc (hwin.trans (wintoclient_win h).symm))

/-- C15 (counterexample): window 101 is tracked in the state with one managed
client; after an UnmapNotify event for it with `send_event` set the handler
has returned and `wintoclient(101)` still finds the client. -/
theorem unmapnotify_counterexample :
    wintoclient exOne 101 = some 1 ∧ wintoclient (unmapnotify exOne 101 1) 101 = some 1 := by
  decide

/-- C15 (amended): in a well-formed registry whose managed clients have
pairwise different windows, for every tracked window `w` a DestroyNotify event
and an UnmapNotify event that was not sent by SendEvent (`send_event = 0`)
unmanage its client, so that afterwards `wintoclient(w)` finds no client; an
UnmapNotify event with `send_event` set leaves the registry unchanged; for a
window that is not tracked both handlers leave the state unchanged. -/
theorem notify_unmanages (s : State) (hw : WF s)
    (hinj : ∀ a b, Managed s a → Managed s b → s.win a = s.win b → a = b) (w : Nat) :
    (∀ c, wintoclient s w = some c →
        destroynotify s w = unmanage s c 1 ∧ wintoclient (destroynotify s w) w = none
          ∧ unmapnotify s w 0 = unmanage s c 0 ∧ wintoclient (unmapnotify s w 0) w = none
          ∧ ∀ e : Int, e ≠ 0 → unmapnotify s w e = s)
      ∧ (wintoclient s w = none →
          destroynotify s w = s ∧ ∀ e : Int, unmapnotify s w e = s) := by
  constructor
  · intro c hc
    have e1 : destroynotify s w = unmanage s c 1 := by simp [destroynotify, hc]
    have e2 : unmapnotify s w 0 = unmanage s c 0 := by simp [unmapnotify, hc]
    refine ⟨e1, ?_, e2, ?_, ?_⟩
    · rw [e1]; exact unmanage_untracks hw hinj hc 1
    · rw [e2]; exact unmanage_untracks hw hinj hc 0
    · intro e he
      simp [unmapnotify, hc, he]
  · intro hn
    refine ⟨by simp [destroynotify, hn], fun e => by simp [unmapnotify, hn]⟩

theorem exThree_managed {a : Nat} (ha : Managed exThree a) : a = 3 ∨ a = 2 ∨ a = 1 := by
  obtain ⟨m, hm, hca⟩ := ha
  have hmons : exThree.mons = [0, 1] := by decide
  have l0 : (exThree.M 0).clients = [3, 2, 1] := by decide
  have l1 : (exThree.M 1).clients = [] := by decide
  rw [hmons] at hm
  simp only [List.mem_cons, List.mem_singleton, List.not_mem_nil, or_false] at hm
  rcases hm with rfl | rfl
  · rw [l0] at hca
    simpa using hca
  · rw [l1] at hca
    cases hca

theorem exThree_win_injective :
    ∀ a b, Managed exThree a → Managed exThree b → exThree.win a = exThree.win b → a = b := by
  intro a b ha hb h
  rcases exThree_managed ha with rfl | rfl | rfl <;>
    rcases exThree_managed hb with rfl | rfl | rfl <;>
    first | rfl | exact absurd h (by decide)

/-- C15 (witness): the tracked window 102 of the state with three managed
clients. -/
theorem notify_unmanages_witness :
    WF exThree ∧ wintoclient exThree 102 = some 2
      ∧ wintoclient (destroynotify exThree 102) 102 = none
      ∧ wintoclient (unmapnotify exThree 102 0) 102 = none :=
  have h := (notify_unmanages exThree exThree_wf exThree_win_injective 102).1 2 (by decide)
  ⟨exThree_wf, by decide, h.2.1, h.2.2.2.1⟩

/-! ## Layout and ratio per tag -/

/-- C19: with no selected client `toggletag` changes nothing; for a selected
client with tag mask `t` it changes nothing when `t XOR (mask AND TAGMASK)` is
zero, and otherwise sets the client's tags to that value, leaving the tags of
every other client. -/
theorem toggletag_xor (s : State) (ui : Nat) :
    ((s.M s.selmon).sel = none → toggletag s ui = s)
      ∧ (∀ c, (s.M s.selmon).sel = some c →
          (s.tags c ^^^ (ui &&& TAGMASK) = 0 → toggletag s ui = s)
            ∧ (s.tags c ^^^ (ui &&& TAGMASK) ≠ 0 →
                (toggletag s ui).tags c = s.tags c ^^^ (ui &&& TAGMASK)
                  ∧ ∀ t, t ≠ c → (toggletag s ui).tags t = s.tags t)) := by
  constructor
  · intro h
    simp [toggletag, h]
  · intro c h
    constructor
    · intro h0
      simp [toggletag, h, h0]
    · intro h0
      have e : toggletag s ui
          = focus ({ s with tags := upd s.tags c (s.tags c ^^^ (ui &&& TAGMASK)) } : State)
              none := by
        simp [toggletag, h, h0]
      rw [e]
      refine ⟨by simp, fun t ht => ?_⟩
      simp [upd_of_ne _ _ ht]

theorem setmfact_eval (fl : FloatOps) (s : State) (a : CFloat)
    (hl : ((s.M s.selmon).lt (s.M s.selmon).sellt).arrange ≠ none) :
    setmfact fl s (some a)
      = if (if a.lt (CFloat.fin 1) then fl.fadd a (s.M s.selmon).mfact
              else fl.fsub a (CFloat.fin 1)).lt (CFloat.fin (1 / 20)) = true
            ∨ (CFloat.fin (19 / 20)).lt
                (if a.lt (CFloat.fin 1) then fl.fadd a (s.M s.selmon).mfact
                  else fl.fsub a (CFloat.fin 1)) = true then s
        else setM s s.selmon (fun m =>
          { m with
            mfact := (if a.lt (CFloat.fin 1) then fl.fadd a (s.M s.selmon).mfact
              else fl.fsub a (CFloat.fin 1))
            pertag := { m.pertag with
              mfacts := upd m.pertag.mfacts m.pertag.curtag
                (if a.lt (CFloat.fin 1) then fl.fadd a (s.M s.selmon).mfact
                  else fl.fsub a (CFloat.fin 1)) } }) := by
  unfold setmfact
  simp only [hl, if_false]

theorem setmfact_cases (fl : FloatOps) (s : State) (arg : Option CFloat) :
    setmfact fl s arg = s
      ∨ ∃ f : CFloat, setmfact fl s arg = setM s s.selmon (fun m =>
          { m with
            mfact := f
            pertag := { m.pertag with mfacts := upd m.pertag.mfacts m.pertag.curtag f } }) := by
  cases arg with
  | none => exact Or.inl rfl
  | some a =>
    by_cases hl : ((s.M s.selmon).lt (s.M s.selmon).sellt).arrange = none
    · left
      simp [setmfact, hl]
    · rw [setmfact_eval fl s a hl]
      generalize (if a.lt (CFloat.fin 1) then fl.fadd a (s.M s.selmon).mfact
        else fl.fsub a (CFloat.fin 1)) = f
      by_cases hc : f.lt (CFloat.fin (1 / 20)) = true ∨ (CFloat.fin (19 / 20)).lt f = true
      · rw [if_pos hc]
        exact Or.inl rfl
      · rw [if_neg hc]
        exact Or.inr ⟨f, rfl⟩

theorem setmfact_finite (fl : FloatOps) (s : State) (a r : ℚ)
    (hl : ((s.M s.selmon).lt (s.M s.selmon).sellt).arrange ≠ none)
    (hr : (s.M s.selmon).mfact = CFloat.fin r) :
    ((setmfact fl s (some (CFloat.fin a))).M s.selmon).mfact
      = if 1 / 20 ≤ (if a < 1 then fl.add a r else fl.sub a 1)
            ∧ (if a < 1 then fl.add a r else fl.sub a 1) ≤ 19 / 20 then
          CFloat.fin (if a < 1 then fl.add a r else fl.sub a 1)
        else CFloat.fin r := by
  have hf : (if (CFloat.fin a).lt (CFloat.fin 1) then fl.fadd (CFloat.fin a) (s.M s.selmon).mfact
      else fl.fsub (CFloat.fin a) (CFloat.fin 1))
      = CFloat.fin (if a < 1 then fl.add a r else fl.sub a 1) := by
    rw [hr]
    by_cases h : a < 1 <;> simp [CFloat.lt, FloatOps.fadd, FloatOps.fsub, h]
  rw [setmfact_eval fl s _ hl, hf]
  by_cases hin : 1 / 20 ≤ (if a < 1 then fl.add a r else fl.sub a 1)
      ∧ (if a < 1 then fl.add a r else fl.sub a 1) ≤ 19 / 20
  · have hc : ¬ ((CFloat.fin (if a < 1 then fl.add a r else fl.sub a 1)).lt
          (CFloat.fin (1 / 20)) = true
        ∨ (CFloat.fin (19 / 20)).lt
          (CFloat.fin (if a < 1 then fl.add a r else fl.sub a 1)) = true) := by
      simp only [CFloat.lt, decide_eq_true_eq, not_or, not_lt]
      exact hin
    rw [if_neg hc, if_pos hin, setM_M_self]
  · have hc : (CFloat.fin (if a < 1 then fl.add a r else fl.sub a 1)).lt
          (CFloat.fin (1 / 20)) = true
        ∨ (CFloat.fin (19 / 20)).lt
          (CFloat.fin (if a < 1 then fl.add a r else fl.sub a 1)) = true := by
      simp only [CFloat.lt, decide_eq_true_eq]
      by_contra hn
      push_neg at hn
      exact hin hn
    rw [if_pos hc, if_neg hin, hr]

/-- For every argument other than NaN and every rounding of the float
operations, `setmfact` leaves a finite ratio that is within [0.05, 0.95]
finite and within [0.05, 0.95]; for every argument, whenever it changes the
ratio the new ratio is the value saved in `pertag->mfacts[curtag]`; and when
the active layout has no arrangement function it changes nothing. -/
theorem setmfact_range (fl : FloatOps) (s : State) (arg : Option CFloat) :
    (∀ r : ℚ, arg ≠ some CFloat.nan → (s.M s.selmon).mfact = CFloat.fin r →
        1 / 20 ≤ r → r ≤ 19 / 20 →
        ∃ r1 : ℚ, ((setmfact fl s arg).M s.selmon).mfact = CFloat.fin r1
          ∧ 1 / 20 ≤ r1 ∧ r1 ≤ 19 / 20)
      ∧ (((setmfact fl s arg).M s.selmon).mfact ≠ (s.M s.selmon).mfact →
          ((setmfact fl s arg).M s.selmon).mfact
            = ((setmfact fl s arg).M s.selmon).pertag.mfacts
                ((setmfact fl s arg).M s.selmon).pertag.curtag)
      ∧ (((s.M s.selmon).lt (s.M s.selmon).sellt).arrange = none → setmfact fl s arg = s)
      ∧ (setmfact fl s arg).selmon = s.selmon := by
  refine ⟨?_, ?_, ?_, ?_⟩
  · intro r hnan hr h1 h2
    cases arg with
    | none => exact ⟨r, hr, h1, h2⟩
    | some a =>
      by_cases hl : ((s.M s.selmon).lt (s.M s.selmon).sellt).arrange = none
      · have e : setmfact fl s (some a) = s := by simp [setmfact, hl]
        rw [e]
        exact ⟨r, hr, h1, h2⟩
      · cases a with
        | fin q =>
          rw [setmfact_finite fl s q r hl hr]
          generalize (if q < 1 then fl.add q r else fl.sub q 1) = v
          by_cases hin : 1 / 20 ≤ v ∧ v ≤ 19 / 20
          · rw [if_pos hin]
            exact ⟨v, rfl, hin.1, hin.2⟩
          · rw [if_neg hin]
            exact ⟨r, rfl, h1, h2⟩
        | pinf =>
          have e : setmfact fl s (some CFloat.pinf) = s := by
            rw [setmfact_eval fl s _ hl]
            simp [CFloat.lt, FloatOps.fsub]
          rw [e]
          exact ⟨r, hr, h1, h2⟩
        | ninf =>
          have e : setmfact fl s (some CFloat.ninf) = s := by
            rw [setmfact_eval fl s _ hl, hr]
            simp [CFloat.lt, FloatOps.fadd]
          rw [e]
          exact ⟨r, hr, h1, h2⟩
        | nan => exact absurd rfl hnan
  · intro hne
    rcases setmfact_cases fl s arg with e | ⟨f, e⟩
    · rw [e] at hne
      exact absurd rfl hne
    · rw [e]
      simp
  · intro hl
    cases arg with
    | none => rfl
    | some a => simp [setmfact, hl]
  · rcases setmfact_cases fl s arg with e | ⟨f, e⟩
    · rw [e]
    · rw [e]
      rfl

theorem accurate_bounds {fl : FloatOps} {e : ℚ} (h : Accurate fl e) {a b : ℚ}
    (ha : |a| ≤ 4) (hb : |b| ≤ 4) :
    a + b - e ≤ fl.add a b ∧ fl.add a b ≤ a + b + e
      ∧ a - b - e ≤ fl.sub a b ∧ fl.sub a b ≤ a - b + e := by
  obtain ⟨h1, h2⟩ := h a b ha hb
  rw [abs_le] at h1 h2
  refine ⟨by linarith [h1.1], by linarith [h1.2], by linarith [h2.1], by linarith [h2.2]⟩

theorem near_bounds {a c e : ℚ} (h : |a - c| ≤ e) : c - e ≤ a ∧ a ≤ c + e := by
  rw [abs_le] at h
  exact ⟨by linarith [h.1], by linarith [h.2]⟩

theorem exInit_tiling :
    ((exInit.M exInit.selmon).lt (exInit.M exInit.selmon).sellt).arrange ≠ none := by
  decide

/-- C17 (counterexample): on a monitor with a tiling layout and ratio 0.55,
`setmfact` with argument 0.02 gives ratio 0.57, with argument 1.2 gives ratio
0.2, and with argument 0.5 leaves the ratio at 0.55: an argument below 1.0 is
an increment, an argument from 1.0 on is 1.0 plus the new ratio.  The three
values are those of exact arithmetic; for every rounding of the operations
that is accurate to a thousandth, and every argument within a thousandth of
0.02, 1.2 and 0.5, the first two calls change the ratio and the third leaves
it at 0.55. -/
theorem setmfact_argument_counterexample :
    (exInit.M exInit.selmon).mfact = CFloat.fin (11 / 20)
      ∧ ((exInit.M exInit.selmon).lt (exInit.M exInit.selmon).sellt).arrange ≠ none
      ∧ ((setmfact exactOps exInit (some (CFloat.fin (1 / 50)))).M exInit.selmon).mfact
          = CFloat.fin (57 / 100)
      ∧ ((setmfact exactOps exInit (some (CFloat.fin (6 / 5)))).M exInit.selmon).mfact
          = CFloat.fin (1 / 5)
      ∧ ((setmfact exactOps exInit (some (CFloat.fin (1 / 2)))).M exInit.selmon).mfact
          = CFloat.fin (11 / 20)
      ∧ (∀ (fl : FloatOps) (a : ℚ), Accurate fl (1 / 1000) → |a - 1 / 50| ≤ 1 / 1000 →
          ((setmfact fl exInit (some (CFloat.fin a))).M exInit.selmon).mfact
            ≠ CFloat.fin (11 / 20))
      ∧ (∀ (fl : FloatOps) (a : ℚ), Accurate fl (1 / 1000) → |a - 6 / 5| ≤ 1 / 1000 →
          ((setmfact fl exInit (some (CFloat.fin a))).M exInit.selmon).mfact
            ≠ CFloat.fin (11 / 20))
      ∧ (∀ (fl : FloatOps) (a : ℚ), Accurate fl (1 / 1000) → |a - 1 / 2| ≤ 1 / 1000 →
          ((setmfact fl exInit (some (CFloat.fin a))).M exInit.selmon).mfact
            = CFloat.fin (11 / 20)) := by
  have hr : (exInit.M exInit.selmon).mfact = CFloat.fin (11 / 20) := rfl
  refine ⟨hr, exInit_tiling, ?_, ?_, ?_, ?_, ?_, ?_⟩
  · rw [setmfact_finite exactOps exInit _ _ exInit_tiling hr]
    norm_num [exactOps]
  · rw [setmfact_finite exactOps exInit _ _ exInit_tiling hr]
    norm_num [exactOps]
  · rw [setmfact_finite exactOps exInit _ _ exInit_tiling hr]
    norm_num [exactOps]
  · intro fl a hacc ha
    obtain ⟨a1, a2⟩ := near_bounds ha
    obtain ⟨b1, b2, _, _⟩ := accurate_bounds hacc (a := a) (b := 11 / 20)
      (abs_le.mpr ⟨by linarith, by linarith⟩) (abs_le.mpr ⟨by norm_num, by norm_num⟩)
    rw [setmfact_finite fl exInit _ _ exInit_tiling hr, if_pos (by linarith : a < 1),
      if_pos ⟨by linarith, by linarith⟩]
    intro h
    injection h with h
    linarith
  · intro fl a hacc ha
    obtain ⟨a1, a2⟩ := near_bounds ha
    obtain ⟨_, _, b1, b2⟩ := accurate_bounds hacc (a := a) (b := 1)
      (abs_le.mpr ⟨by linarith, by linarith⟩) (abs_le.mpr ⟨by norm_num, by norm_num⟩)
    rw [setmfact_finite fl exInit _ _ exInit_tiling hr, if_neg (by linarith : ¬ a < 1),
      if_pos ⟨by linarith, by linarith⟩]
    intro h
    injection h with h
    linarith
  · intro fl a hacc ha
    obtain ⟨a1, a2⟩ := near_bounds ha
    obtain ⟨b1, b2, _, _⟩ := accurate_bounds hacc (a := a) (b := 11 / 20)
      (abs_le.mpr ⟨by linarith, by linarith⟩) (abs_le.mpr ⟨by norm_num, by norm_num⟩)
    rw [setmfact_finite fl exInit _ _ exInit_tiling hr, if_pos (by linarith : a < 1),
      if_neg (by intro h; linarith [h.2])]

/-- C19 at a concrete state: client 3 (tags 1) is selected in `exThree`, and
`toggletag` with mask 2 gives it the tags 3. -/
theorem toggletag_xor_witness :
    (exThree.M exThree.selmon).sel = some 3
      ∧ exThree.tags 3 ^^^ (2 &&& TAGMASK) ≠ 0
      ∧ (toggletag exThree 2).tags 3 = exThree.tags 3 ^^^ (2 &&& TAGMASK) :=
  ⟨by decide, by decide,
    (((toggletag_xor exThree 2).2 3 (by decide)).2 (by decide)).1⟩

/-- The range part at a concrete state: the ratio 0.55 of `exInit` is within
range, and so is the ratio after `setmfact` with argument 1.3. -/
theorem setmfact_range_witness :
    (exInit.M exInit.selmon).mfact = CFloat.fin (11 / 20)
      ∧ ∃ r1 : ℚ, ((setmfact exactOps exInit (some (CFloat.fin (13 / 10)))).M
            exInit.selmon).mfact = CFloat.fin r1
          ∧ 1 / 20 ≤ r1 ∧ r1 ≤ 19 / 20 :=
  ⟨rfl, (setmfact_range exactOps exInit (some (CFloat.fin (13 / 10)))).1 (11 / 20)
    (by decide) rfl (by norm_num) (by norm_num)⟩

/-- C17 (amended): with a tiling layout active and a finite ratio `r`, for
every rounding of the float operations that is accurate to `e`, at most a
hundredth, on operands of magnitude at most 4: `setmfact` with an argument
within `e` of 1.02 or of 2.2 leaves the ratio unchanged, and with an argument
`a` within `e` of 1.5 it sets the ratio to the float difference `a - 1.0`,
which is within `2 e` of 0.5.  In general, for every rounding, an argument `a`
of 1.0 or more sets the ratio to the float difference `a - 1.0` when that lies
within [0.05, 0.95], and an argument `a` below 1.0 is an increment: the ratio
becomes the float sum `a + r` when that lies within [0.05, 0.95]; otherwise the
ratio is unchanged. -/
theorem setmfact_argument (fl : FloatOps) (e : ℚ) (s : State) (r : ℚ)
    (hl : ((s.M s.selmon).lt (s.M s.selmon).sellt).arrange ≠ none)
    (hr : (s.M s.selmon).mfact = CFloat.fin r) (he : e ≤ 1 / 100) (hacc : Accurate fl e) :
    (∀ a : ℚ, |a - 51 / 50| ≤ e →
        ((setmfact fl s (some (CFloat.fin a))).M s.selmon).mfact = CFloat.fin r)
      ∧ (∀ a : ℚ, |a - 11 / 5| ≤ e →
        ((setmfact fl s (some (CFloat.fin a))).M s.selmon).mfact = CFloat.fin r)
      ∧ (∀ a : ℚ, |a - 3 / 2| ≤ e →
        ((setmfact fl s (some (CFloat.fin a))).M s.selmon).mfact = CFloat.fin (fl.sub a 1)
          ∧ |fl.sub a 1 - 1 / 2| ≤ 2 * e)
      ∧ (∀ a : ℚ, 1 ≤ a →
        ((setmfact fl s (some (CFloat.fin a))).M s.selmon).mfact
          = if 1 / 20 ≤ fl.sub a 1 ∧ fl.sub a 1 ≤ 19 / 20 then CFloat.fin (fl.sub a 1)
            else CFloat.fin r)
      ∧ (∀ a : ℚ, a < 1 →
        ((setmfact fl s (some (CFloat.fin a))).M s.selmon).mfact
          = if 1 / 20 ≤ fl.add a r ∧ fl.add a r ≤ 19 / 20 then CFloat.fin (fl.add a r)
            else CFloat.fin r) := by
  have hone : |(1 : ℚ)| ≤ 4 := abs_le.mpr ⟨by norm_num, by norm_num⟩
  refine ⟨?_, ?_, ?_, ?_, ?_⟩
  · intro a ha
    obtain ⟨a1, a2⟩ := near_bounds ha
    obtain ⟨_, _, b1, b2⟩ := accurate_bounds hacc (a := a) (b := 1)
      (abs_le.mpr ⟨by linarith, by linarith⟩) hone
    rw [setmfact_finite fl s _ _ hl hr, if_neg (by linarith : ¬ a < 1),
      if_neg (by intro h; linarith [h.1])]
  · intro a ha
    obtain ⟨a1, a2⟩ := near_bounds ha
    obtain ⟨_, _, b1, b2⟩ := accurate_bounds hacc (a := a) (b := 1)
      (abs_le.mpr ⟨by linarith, by linarith⟩) hone
    rw [setmfact_finite fl s _ _ hl hr, if_neg (by linarith : ¬ a < 1),
      if_neg (by intro h; linarith [h.2])]
  · intro a ha
    obtain ⟨a1, a2⟩ := near_bounds ha
    obtain ⟨_, _, b1, b2⟩ := accurate_bounds hacc (a := a) (b := 1)
      (abs_le.mpr ⟨by linarith, by linarith⟩) hone
    rw [setmfact_finite fl s _ _ hl hr, if_neg (by linarith : ¬ a < 1),
      if_pos ⟨by linarith, by linarith⟩]
    exact ⟨rfl, abs_le.mpr ⟨by linarith, by linarith⟩⟩
  · intro a ha
    rw [setmfact_finite fl s _ _ hl hr, if_neg (by linarith : ¬ a < 1)]
  · intro a ha
    rw [setmfact_finite fl s _ _ hl hr, if_pos ha]

theorem accurate_exactOps : Accurate exactOps 0 := by
  intro a b _ _
  simp [exactOps]

/-- C17 (amended) at a concrete state: `exInit` has a tiling layout and the
ratio 0.55; with exact arithmetic the argument 1.5 sets its ratio to 0.5 and
the argument 1.02 leaves it at 0.55. -/
theorem setmfact_argument_witness :
    ((exInit.M exInit.selmon).lt (exInit.M exInit.selmon).sellt).arrange ≠ none
      ∧ (exInit.M exInit.selmon).mfact = CFloat.fin (11 / 20)
      ∧ ((setmfact exactOps exInit (some (CFloat.fin (3 / 2)))).M exInit.selmon).mfact
          = CFloat.fin (1 / 2)
      ∧ ((setmfact exactOps exInit (some (CFloat.fin (51 / 50)))).M exInit.selmon).mfact
          = CFloat.fin (11 / 20) :=
  have h := setmfact_argument exactOps 0 exInit (11 / 20) exInit_tiling rfl (by norm_num)
    accurate_exactOps
  ⟨exInit_tiling, rfl,
    ((h.2.2.1 (3 / 2) (by norm_num)).1).trans (by norm_num [exactOps]),
    h.1 (51 / 50) (by norm_num)⟩

/-- C20 (failing input): client `exClient` is not floating and lives on a
monitor whose active layout has an arrangement function, while the selected
monitor `exFloatMon` has a floating layout; a configure request with the flags
`CWX | CWWidth` and no border width changes the stored `x` from 10 to 5 and the
stored `w` from 400 to 640, because the code tests the selected monitor's
layout. With a tiling layout on the selected monitor the same request leaves
the client as it is. -/
theorem configurerequest_other_monitor :
    exClient.isfloating = 0
      ∧ (exMon.lt exMon.sellt).arrange ≠ none
      ∧ exReq.value_mask &&& CWBorderWidth = 0
      ∧ (exClient.x, exClient.w) = (10, 400)
      ∧ ((configurerequest 0 exFloatMon exMon exClient exReq).x,
          (configurerequest 0 exFloatMon exMon exClient exReq).w) = (5, 640)
      ∧ configurerequest 0 exMon exMon exClient exReq = exClient := by
  decide

/-! ## Saved settings across tag switches -/

theorem sameSettings_refl (m : Monitor) : SameSettings m m := ⟨rfl, rfl, rfl, rfl⟩

theorem sameSettings_trans {m k l : Monitor} (h1 : SameSettings m k) (h2 : SameSettings k l) :
    SameSettings m l :=
  ⟨h2.1.trans h1.1, h2.2.1.trans h1.2.1, h2.2.2.1.trans h1.2.2.1, h2.2.2.2.trans h1.2.2.2⟩

theorem sameSettings_setM (s : State) (j : Nat) (f : Monitor → Monitor)
    (h : ∀ m, SameSettings m (f m)) (k : Nat) : SameSettings (s.M k) ((setM s j f).M k) := by
  unfold setM
  by_cases e : k = j
  · simp only [e, if_true]
    exact h _
  · simp only [e, if_false]
    exact sameSettings_refl _

theorem sameSettings_attachstack (s : State) (c k : Nat) :
    SameSettings (s.M k) ((attachstack s c).M k) := by
  unfold attachstack
  apply sameSettings_setM
  exact fun _ => ⟨rfl, rfl, rfl, rfl⟩

theorem sameSettings_detachstack (s : State) (c k : Nat) :
    SameSettings (s.M k) ((detachstack s c).M k) := by
  unfold detachstack
  simp only
  have h1 : SameSettings (s.M k)
      ((setM s (s.mon c) (fun m => { m with stack := unlink c m.stack })).M k) := by
    apply sameSettings_setM
    exact fun _ => ⟨rfl, rfl, rfl, rfl⟩
  split_ifs
  · refine sameSettings_trans h1 ?_
    apply sameSettings_setM
    exact fun _ => ⟨rfl, rfl, rfl, rfl⟩
  · exact h1

theorem sameSettings_focus (s : State) (c : Option Nat) (k : Nat) :
    SameSettings (s.M k) ((focus s c).M k) := by
  have key : ∀ (s1 : State) (u : Nat), s1.M = s.M →
      SameSettings (s.M k)
        ((setM (attachstack (detachstack s1 u) u) (attachstack (detachstack s1 u) u).selmon
          (fun m => { m with sel := some u })).M k) := by
    intro s1 u e
    have h0 : SameSettings (s.M k) (s1.M k) := by rw [e]; exact sameSettings_refl _
    refine sameSettings_trans h0
      (sameSettings_trans (sameSettings_detachstack s1 u k)
        (sameSettings_trans (sameSettings_attachstack _ u k) ?_))
    apply sameSettings_setM
    exact fun _ => ⟨rfl, rfl, rfl, rfl⟩
  unfold focus
  cases focus_pick s c with
  | none =>
    simp only
    apply sameSettings_setM
    exact fun _ => ⟨rfl, rfl, rfl, rfl⟩
  | some u =>
    simp only
    split_ifs
    · exact key _ u rfl
    · exact key _ u rfl

theorem xor_one_ne (n : Nat) : n ^^^ 1 ≠ n := by
  intro h
  have h1 : n ^^^ (n ^^^ 1) = n ^^^ n := by rw [h]
  rw [← Nat.xor_assoc, Nat.xor_self, Nat.zero_xor] at h1
  exact absurd h1 (by decide)

theorem toggleview_pertag_arrays {p q : Pertag} {n : Nat} (h : toggleview_pertag p n = some q) :
    q.ltidxs = p.ltidxs ∧ q.mfacts = p.mfacts ∧ q.sellts = p.sellts := by
  unfold toggleview_pertag at h
  simp only at h
  split_ifs at h with h1 h2 h3 h4 h5
  · split at h
    · cases h; exact ⟨rfl, rfl, rfl⟩
    · cases h
  · cases h; exact ⟨rfl, rfl, rfl⟩
  · split at h
    · cases h; exact ⟨rfl, rfl, rfl⟩
    · cases h
  · cases h; exact ⟨rfl, rfl, rfl⟩

theorem toggleview_saved {s s1 : State} (hw : WF s) {ui : Nat}
    (h : toggleview s ui = some s1) {a : Nat} {A : Layout} {r : CFloat} (hs : SavedFor a A r s) :
    SavedFor a A r s1 ∧ s1.selmon = s.selmon := by
  unfold toggleview at h
  simp only at h
  split_ifs at h with h0
  · cases hp : toggleview_pertag (s.M s.selmon).pertag
        ((s.M s.selmon).curtags ^^^ (ui &&& TAGMASK)) with
    | none => rw [hp] at h; cases h
    | some p =>
      rw [hp] at h
      simp only [Option.some.injEq] at h
      obtain ⟨e1, e2, e3⟩ := toggleview_pertag_arrays hp
      have hw1 := hw.setM_other s.selmon
        (fun m => { m with
          tagset := upd m.tagset m.seltags ((s.M s.selmon).curtags ^^^ (ui &&& TAGMASK))
          pertag := p
          nmaster := p.nmasters p.curtag
          mfact := p.mfacts p.curtag
          sellt := p.sellts p.curtag
          lt := upd (upd m.lt (p.sellts p.curtag) (p.ltidxs p.curtag (p.sellts p.curtag)))
                  (p.sellts p.curtag ^^^ 1) (p.ltidxs p.curtag (p.sellts p.curtag ^^^ 1)) })
        (fun _ => rfl) (fun _ => rfl) (fun _ => rfl)
      have hsel := focus_none_selmon hw1
      have hset := sameSettings_focus
        (setM s s.selmon (fun m => { m with
          tagset := upd m.tagset m.seltags ((s.M s.selmon).curtags ^^^ (ui &&& TAGMASK))
          pertag := p
          nmaster := p.nmasters p.curtag
          mfact := p.mfacts p.curtag
          sellt := p.sellts p.curtag
          lt := upd (upd m.lt (p.sellts p.curtag) (p.ltidxs p.curtag (p.sellts p.curtag)))
                  (p.sellts p.curtag ^^^ 1) (p.ltidxs p.curtag (p.sellts p.curtag ^^^ 1)) }))
        none s.selmon
      rw [h] at hsel hset
      have hsm : s1.selmon = s.selmon := hsel
      obtain ⟨g1, g2, g3, g4⟩ := hset
      rw [setM_M_self] at g1 g2 g3 g4
      simp only at g1 g2 g3 g4
      refine ⟨?_, hsm⟩
      unfold SavedFor curtag
      rw [hsm, g1, g2, g3, g4, e1, e2, e3]
      refine ⟨hs.1, hs.2.1, fun hc => ?_⟩
      rw [hc]
      refine ⟨rfl, ?_, hs.2.1⟩
      rw [upd_of_ne _ _ (xor_one_ne _).symm, upd_same]
      exact hs.1
  · cases h
    exact ⟨hs, rfl⟩

theorem toggleviews_saved {a : Nat} {A : Layout} {r : CFloat} (us : List Nat) :
    ∀ {s s1 : State}, WF s → toggleviews s us = some s1 → SavedFor a A r s →
      WF s1 ∧ SavedFor a A r s1 ∧ s1.selmon = s.selmon := by
  induction us with
  | nil =>
    intro s s1 hw h hs
    simp only [toggleviews, Option.some.injEq] at h
    subst h
    exact ⟨hw, hs, rfl⟩
  | cons u us ih =>
    intro s s1 hw h hs
    simp only [toggleviews] at h
    cases ht : toggleview s u with
    | none => rw [ht] at h; cases h
    | some s2 =>
      rw [ht] at h
      obtain ⟨h1, h2⟩ := toggleview_saved hw ht hs
      obtain ⟨g1, g2, g3⟩ := ih (wf_toggleview hw ht) h h1
      exact ⟨g1, g2, g3.trans h2⟩

theorem wf_setlayout {s : State} (hw : WF s) (arg : Option Layout) : WF (setlayout s arg) := by
  unfold setlayout
  apply hw.setM_other
  · intro r; rfl
  · intro r; rfl
  · intro r; rfl

theorem wf_setmfact {s : State} (hw : WF s) (fl : FloatOps) (arg : Option CFloat) :
    WF (setmfact fl s arg) := by
  rcases setmfact_cases fl s arg with e | ⟨f, e⟩
  · rw [e]; exact hw
  · rw [e]
    apply hw.setM_other
    · intro r; rfl
    · intro r; rfl
    · intro r; rfl

theorem setlayout_curtag (s : State) (arg : Option Layout) :
    (setlayout s arg).selmon = s.selmon ∧ curtag (setlayout s arg) = curtag s := by
  refine ⟨rfl, ?_⟩
  unfold curtag setlayout
  rw [setM_selmon, setM_M_self]
  cases arg <;> simp only <;> split_ifs <;> rfl

theorem setmfact_curtag (fl : FloatOps) (s : State) (arg : Option CFloat) :
    (setmfact fl s arg).selmon = s.selmon ∧ curtag (setmfact fl s arg) = curtag s := by
  rcases setmfact_cases fl s arg with e | ⟨f, e⟩
  · rw [e]; exact ⟨rfl, rfl⟩
  · rw [e]
    refine ⟨rfl, ?_⟩
    unfold curtag
    rw [setM_selmon, setM_M_self]

theorem setlayout_saved_other {s : State} {a : Nat} {A : Layout} {r : CFloat}
    (hs : SavedFor a A r s) (hc : curtag s ≠ a) (arg : Option Layout) :
    SavedFor a A r (setlayout s arg) := by
  have hc2 := (setlayout_curtag s arg).2
  refine ⟨?_, ?_, fun h => absurd (hc2 ▸ h) hc⟩
  · unfold curtag at hc
    unfold setlayout
    rw [setM_selmon, setM_M_self]
    have h1 := hs.1
    cases arg <;> simp only <;> split_ifs <;>
      (try simp only [upd_of_ne _ _ (Ne.symm hc), upd2, hc, Ne.symm hc, false_and, if_false]) <;>
      exact h1
  · unfold setlayout
    rw [setM_selmon, setM_M_self]
    have h1 := hs.2.1
    cases arg <;> simp only <;> split_ifs <;> exact h1

theorem setmfact_saved_other {s : State} {a : Nat} {A : Layout} {r : CFloat}
    (hs : SavedFor a A r s) (hc : curtag s ≠ a) (fl : FloatOps) (arg : Option CFloat) :
    SavedFor a A r (setmfact fl s arg) := by
  have hc2 := (setmfact_curtag fl s arg).2
  refine ⟨?_, ?_, fun h => absurd (hc2 ▸ h) hc⟩
  · have h1 := hs.1
    rcases setmfact_cases fl s arg with e | ⟨f, e⟩
    · rw [e]; exact h1
    · rw [e, setM_selmon, setM_M_self]
      exact h1
  · have h1 := hs.2.1
    unfold curtag at hc
    rcases setmfact_cases fl s arg with e | ⟨f, e⟩
    · rw [e]; exact h1
    · rw [e, setM_selmon, setM_M_self]
      simp only
      rw [upd_of_ne _ _ (Ne.symm hc)]
      exact h1

theorem setlayout_live (s : State) (A : Layout)
    (hsl : (s.M s.selmon).sellt = (s.M s.selmon).pertag.sellts (curtag s)) :
    ((setlayout s (some A)).M s.selmon).sellt
        = ((setlayout s (some A)).M s.selmon).pertag.sellts (curtag s)
      ∧ ((setlayout s (some A)).M s.selmon).lt ((setlayout s (some A)).M s.selmon).sellt = A
      ∧ ((setlayout s (some A)).M s.selmon).pertag.ltidxs (curtag s)
          ((setlayout s (some A)).M s.selmon).sellt = A := by
  unfold curtag at hsl ⊢
  unfold setlayout
  rw [setM_M_self]
  by_cases ht : A = (s.M s.selmon).lt (s.M s.selmon).sellt
  · subst ht
    simp [upd2, hsl]
  · simp [ht, upd2]

theorem setmfact_accept (fl : FloatOps) (s : State) (ra : ℚ)
    (hl : ((s.M s.selmon).lt (s.M s.selmon).sellt).arrange ≠ none) (hra : 1 ≤ ra)
    (hr : 1 / 20 ≤ fl.sub ra 1 ∧ fl.sub ra 1 ≤ 19 / 20) :
    setmfact fl s (some (CFloat.fin ra)) = setM s s.selmon (fun m =>
      { m with
        mfact := CFloat.fin (fl.sub ra 1)
        pertag := { m.pertag with
          mfacts := upd m.pertag.mfacts m.pertag.curtag (CFloat.fin (fl.sub ra 1)) } }) := by
  have h1 : ¬ ra < 1 := not_lt.mpr hra
  have hf : (if (CFloat.fin ra).lt (CFloat.fin 1) then
        fl.fadd (CFloat.fin ra) (s.M s.selmon).mfact
      else fl.fsub (CFloat.fin ra) (CFloat.fin 1)) = CFloat.fin (fl.sub ra 1) := by
    simp [CFloat.lt, FloatOps.fsub, h1]
  have hc : ¬ ((CFloat.fin (fl.sub ra 1)).lt (CFloat.fin (1 / 20)) = true
      ∨ (CFloat.fin (19 / 20)).lt (CFloat.fin (fl.sub ra 1)) = true) := by
    simp only [CFloat.lt, decide_eq_true_eq, not_or, not_lt]
    exact hr
  rw [setmfact_eval fl s _ hl, hf, if_neg hc]

theorem choose_saved (fl : FloatOps) (s : State) (A : Layout) (ra : ℚ)
    (hsl : (s.M s.selmon).sellt = (s.M s.selmon).pertag.sellts (curtag s))
    (hA : A.arrange ≠ none) (hra : 1 ≤ ra)
    (hr : 1 / 20 ≤ fl.sub ra 1 ∧ fl.sub ra 1 ≤ 19 / 20) :
    SavedFor (curtag s) A (CFloat.fin (fl.sub ra 1))
      (setmfact fl (setlayout s (some A)) (some (CFloat.fin ra))) := by
  obtain ⟨g1, g2, g3⟩ := setlayout_live s A hsl
  obtain ⟨c1, c2⟩ := setlayout_curtag s (some A)
  have hl : (((setlayout s (some A)).M (setlayout s (some A)).selmon).lt
      ((setlayout s (some A)).M (setlayout s (some A)).selmon).sellt).arrange ≠ none := by
    rw [c1, g2]
    exact hA
  rw [setmfact_accept fl _ ra hl hra hr]
  have c3 : ((setlayout s (some A)).M s.selmon).pertag.curtag = curtag s := by
    have := c2
    unfold curtag at this
    rw [c1] at this
    exact this
  unfold SavedFor
  rw [setM_selmon, setM_M_self, c1]
  simp only
  rw [c3]
  refine ⟨?_, upd_same _ _ _, fun _ => ⟨g1, g2, trivial⟩⟩
  rw [← g1]
  exact g3

/-- C16: on the selected monitor, starting with tag `a` current
(`pertag->curtag`), choose layout `A` (a layout with an arrangement function)
with `setlayout` and a ratio with `setmfact` (an argument `ra` of 1.0 or more,
whose ratio `ra - 1.0` as the float subtraction gives it lies within
[0.05, 0.95]); make another tag `b` current by `toggleview` steps; choose any
layout `B` and any ratio argument there; make `a` current again by `toggleview`
steps.  Then the monitor's active layout `lt[sellt]` is `A` and its ratio is
the one chosen on `a`.  The layout slot of the monitor is assumed to be the one
saved for the current tag at the start, as `createmon` sets it up. -/
theorem tag_switch_restore (fl : FloatOps) (s0 s2 s4 : State) (hw : WF s0)
    (hsl : (s0.M s0.selmon).sellt = (s0.M s0.selmon).pertag.sellts (curtag s0))
    (b : Nat) (hab : curtag s0 ≠ b) (A B : Layout) (hA : A.arrange ≠ none)
    (ra : ℚ) (hra : 1 ≤ ra) (hr : 1 / 20 ≤ fl.sub ra 1 ∧ fl.sub ra 1 ≤ 19 / 20)
    (fb : Option CFloat) (us1 us2 : List Nat)
    (h1 : toggleviews (setmfact fl (setlayout s0 (some A)) (some (CFloat.fin ra))) us1
      = some s2)
    (hb : curtag s2 = b)
    (h2 : toggleviews (setmfact fl (setlayout s2 (some B)) fb) us2 = some s4)
    (ha : curtag s4 = curtag s0) :
    (s4.M s4.selmon).lt (s4.M s4.selmon).sellt = A
      ∧ (s4.M s4.selmon).mfact = CFloat.fin (fl.sub ra 1)
      ∧ s4.selmon = s0.selmon := by
  have i1 := choose_saved fl s0 A ra hsl hA hra hr
  have w1 : WF (setmfact fl (setlayout s0 (some A)) (some (CFloat.fin ra))) :=
    wf_setmfact (wf_setlayout hw _) fl _
  obtain ⟨w2, i2, m2⟩ := toggleviews_saved us1 w1 h1 i1
  have hb2 : curtag s2 ≠ curtag s0 := by rw [hb]; exact Ne.symm hab
  have i3 := setlayout_saved_other i2 hb2 (some B)
  have hb3 : curtag (setlayout s2 (some B)) ≠ curtag s0 := by
    rw [(setlayout_curtag s2 (some B)).2]; exact hb2
  have i4 := setmfact_saved_other i3 hb3 fl fb
  have w4 : WF (setmfact fl (setlayout s2 (some B)) fb) :=
    wf_setmfact (wf_setlayout w2 _) fl _
  obtain ⟨_, i5, m5⟩ := toggleviews_saved us2 w4 h2 i4
  obtain ⟨k1, k2, k3⟩ := i5.2.2 ha
  refine ⟨k2, k3, ?_⟩
  rw [m5, (setmfact_curtag fl _ fb).1, (setlayout_curtag s2 (some B)).1, m2,
    (setmfact_curtag fl _ (some (CFloat.fin ra))).1, (setlayout_curtag s0 (some A)).1]

theorem eq_some_getD {α : Type} {o : Option α} (d : α) (h : o.isSome = true) :
    o = some (o.getD d) := by
  cases o with
  | none => cases h
  | some v => rfl

theorem exOnB_run :
    toggleviews (setmfact exactOps (setlayout exInit (some exLtA)) (some (CFloat.fin (8 / 5))))
        [2, 1]
      = some exOnB :=
  eq_some_getD exInit (by decide!)

theorem exBack_run :
    toggleviews (setmfact exactOps (setlayout exOnB (some exLtB)) (some (CFloat.fin (13 / 10))))
        [1, 2]
      = some exBack :=
  eq_some_getD exInit (by decide!)

/-- C16 at a concrete run: from `exInit` with tag 1 current, layout `exLtA`
and ratio 0.6 are chosen, tag 2 is made current (`exOnB`), layout `exLtB` and
ratio 0.3 are chosen, and tag 1 is made current again (`exBack`): the active
layout is `exLtA` and the ratio is 0.6. -/
theorem tag_switch_restore_witness :
    curtag exInit = 1 ∧ curtag exOnB = 2 ∧ curtag exBack = 1
      ∧ (exBack.M exBack.selmon).lt (exBack.M exBack.selmon).sellt = exLtA
      ∧ (exBack.M exBack.selmon).mfact = CFloat.fin (3 / 5) :=
  have h := tag_switch_restore exactOps exInit exOnB exBack (init_wf exInit_init) rfl 2
    (by decide) exLtA exLtB (by decide) (8 / 5) (by norm_num)
    (by constructor <;> norm_num [exactOps]) (some (CFloat.fin (13 / 10))) [2, 1] [1, 2]
    exOnB_run (by decide!) exBack_run (by decide!)
  ⟨by decide, by decide!, by decide!, h.1, h.2.1.trans (by norm_num [exactOps])⟩

/-! ## Screen overlap and pointer grabs -/

/-- C21 (evaluation at the failing input): in interactive mode a request whose
`x` equals the screen width `sw` is not clamped (the test is `*x > sw`), so the
resolved rectangle starts at column 1920 of a 1920 pixel wide screen and shares
no pixel with it. -/
theorem applysizehints_off_screen :
    1 ≤ exFloat.w ∧ 1 ≤ exFloat.h ∧ 0 ≤ exFloat.bw
      ∧ (applysizehints exEnv exMon exFloat 1920 100 400 300 1).1 = ⟨1920, 100, 400, 300⟩
      ∧ ¬ overlaps_screen exEnv exFloat.bw
            (applysizehints exEnv exMon exFloat 1920 100 400 300 1).1 := by
  decide

theorem grab_held_append_ungrab (tr : List PointerCall) :
    grab_held (tr ++ [PointerCall.ungrab]) = false := by
  simp [grab_held, List.foldl_append]

/-- C22 (evaluation at the failing input): `movemouse` with a selected client,
a successful `XGrabPointer` and a failing `getrootptr` returns after the calls
grab, query, with the grab still held, whatever events follow.  `resizemouse`
queries the pointer before it grabs: on every path on which it returns the grab
is not held, and it returns once a ButtonRelease event arrives. -/
theorem movemouse_grab_leak (evs : List DragEvent) :
    movemouse_calls (some exFloat) true false evs
        = some [PointerCall.grab true, PointerCall.query false]
      ∧ grab_held [PointerCall.grab true, PointerCall.query false] = true
      ∧ (∀ sel grab ptr es tr, resizemouse_calls sel grab ptr es = some tr →
          grab_held tr = false)
      ∧ (resizemouse_calls (some exFloat) true true (evs ++ [DragEvent.buttonRelease])).isSome
          = true := by
  refine ⟨by simp [movemouse_calls, exFloat, exClient], by decide, ?_, ?_⟩
  · intro sel grab ptr es tr h
    unfold resizemouse_calls at h
    cases sel with
    | none => cases h; rfl
    | some c =>
      simp only at h
      split_ifs at h
      · cases h; rfl
      · cases h; rfl
      · cases h; rfl
      · cases hd : drag_loop es with
        | none => rw [hd] at h; cases h
        | some t =>
          rw [hd] at h
          cases h
          exact grab_held_append_ungrab _
  · have hl : ∀ es : List DragEvent, (drag_loop (es ++ [DragEvent.buttonRelease])).isSome = true := by
      intro es
      induction es with
      | nil => rfl
      | cons e r ih =>
        cases hr : drag_loop (r ++ [DragEvent.buttonRelease]) with
        | none => rw [hr] at ih; cases ih
        | some t => cases e <;> simp [drag_loop, hr]
    cases hd : drag_loop (evs ++ [DragEvent.buttonRelease]) with
    | none => have := hl evs; rw [hd] at this; cases this
    | some t => simp [resizemouse_calls, exFloat, exClient, hd]

/-! ## Monitor navigation -/

theorem getElem?_inj_of_nodup {l : List Nat} (hn : l.Nodup) :
    ∀ {a b : Nat} {x : Nat}, l[a]? = some x → l[b]? = some x → a = b := by
  induction l with
  | nil => intro a b x h; simp at h
  | cons c r ih =>
    intro a b x ha hb
    have hc : c ∉ r := (List.nodup_cons.mp hn).1
    have hr : r.Nodup := (List.nodup_cons.mp hn).2
    cases a with
    | zero =>
      cases b with
      | zero => rfl
      | succ b =>
        simp only [List.getElem?_cons_zero, Option.some.injEq] at ha
        simp only [List.getElem?_cons_succ] at hb
        subst ha
        exact absurd (List.getElem?_mem hb) hc
    | succ a =>
      cases b with
      | zero =>
        simp only [List.getElem?_cons_zero, Option.some.injEq] at hb
        simp only [List.getElem?_cons_succ] at ha
        subst hb
        exact absurd (List.getElem?_mem ha) hc
      | succ b =>
        simp only [List.getElem?_cons_succ] at ha hb
        rw [ih hr ha hb]

theorem mon_next_getElem? {l : List Nat} (hn : l.Nodup) :
    ∀ {i m : Nat}, l[i]? = some m → mon_next l m = l[i + 1]? := by
  induction l with
  | nil => intro i m h; simp at h
  | cons c r ih =>
    intro i m h
    have hc : c ∉ r := (List.nodup_cons.mp hn).1
    have hr : r.Nodup := (List.nodup_cons.mp hn).2
    cases i with
    | zero =>
      simp only [List.getElem?_cons_zero, Option.some.injEq] at h
      subst h
      simp [mon_next, List.head?_eq_getElem?]
    | succ j =>
      simp only [List.getElem?_cons_succ] at h
      have hne : c ≠ m := fun e => hc (e ▸ List.getElem?_mem h)
      simp only [mon_next, hne, if_false, List.getElem?_cons_succ]
      exact ih hr h

theorem walk_to_pred_getElem? {l : List Nat} (hn : l.Nodup) :
    ∀ {i m : Nat}, l[i + 1]? = some m → walk_to_pred l m = l[i]? := by
  induction l with
  | nil => intro i m h; simp at h
  | cons c r ih =>
    intro i m h
    have hr : r.Nodup := (List.nodup_cons.mp hn).2
    simp only [List.getElem?_cons_succ] at h
    cases i with
    | zero =>
      have : r.head? = some m := by rw [List.head?_eq_getElem?]; exact h
      simp [walk_to_pred, this]
    | succ j =>
      have hne : r.head? ≠ some m := by
        intro e
        rw [List.head?_eq_getElem?] at e
        exact absurd (getElem?_inj_of_nodup hr e h) (by omega)
      simp only [walk_to_pred, hne, if_false, List.getElem?_cons_succ]
      exact ih hr h

theorem getElem?_lt_of_some {l : List Nat} {i m : Nat} (h : l[i]? = some m) : i < l.length := by
  by_contra hlt
  rw [List.getElem?_eq_none (by omega)] at h
  cases h

theorem dirtomon_next {s : State} (hn : s.mons.Nodup) {i : Nat}
    (hi : s.mons[i]? = some s.selmon) :
    dirtomon s 1 = s.mons[(i + 1) % s.mons.length]? := by
  have hlt := getElem?_lt_of_some hi
  have h1 := mon_next_getElem? hn hi
  unfold dirtomon
  simp only [show (1 : Int) > 0 by decide, if_true, h1]
  by_cases hlast : i + 1 < s.mons.length
  · rw [Nat.mod_eq_of_lt hlast]
    cases h : s.mons[i + 1]? with
    | none =>
      rw [List.getElem?_eq_none_iff] at h
      omega
    | some b => rfl
  · have e : i + 1 = s.mons.length := by omega
    rw [e, Nat.mod_self, List.getElem?_eq_none (by omega), List.head?_eq_getElem?]

theorem dirtomon_prev {s : State} (hn : s.mons.Nodup) {i : Nat}
    (hi : s.mons[i]? = some s.selmon) :
    dirtomon s (-1) = s.mons[(i + s.mons.length - 1) % s.mons.length]? := by
  have hlt := getElem?_lt_of_some hi
  unfold dirtomon
  simp only [show ¬ ((-1 : Int) > 0) by decide, if_false]
  cases i with
  | zero =>
    have hh : s.mons.head? = some s.selmon := by rw [List.head?_eq_getElem?]; exact hi
    rw [if_pos hh, List.getLast?_eq_getElem?]
    congr 1
    rw [Nat.zero_add, Nat.mod_eq_of_lt (by omega)]
  | succ j =>
    have hh : s.mons.head? ≠ some s.selmon := by
      intro e
      rw [List.head?_eq_getElem?] at e
      exact absurd (getElem?_inj_of_nodup hn e hi) (by omega)
    rw [if_neg hh, walk_to_pred_getElem? hn hi]
    congr 1
    have : j + 1 + s.mons.length - 1 = j + s.mons.length := by omega
    rw [this, Nat.add_mod_right, Nat.mod_eq_of_lt (by omega)]

theorem getElem?_mod_some {l : List Nat} (k : Nat) (h : 0 < l.length) :
    ∃ m, l[k % l.length]? = some m ∧ m ∈ l := by
  have hlt : k % l.length < l.length := Nat.mod_lt _ h
  exact ⟨l[k % l.length], List.getElem?_eq_getElem hlt, List.getElem_mem hlt⟩

theorem dirtomon_steps_next (k : Nat) :
    ∀ {s : State}, s.mons.Nodup → ∀ {i : Nat}, s.mons[i]? = some s.selmon →
      dirtomon_steps s 1 k = s.mons[(i + k) % s.mons.length]? := by
  induction k with
  | zero =>
    intro s _ i hi
    have hlt := getElem?_lt_of_some hi
    simp only [dirtomon_steps, Nat.add_zero, Nat.mod_eq_of_lt hlt]
    exact hi.symm
  | succ k ih =>
    intro s hn i hi
    have hlt := getElem?_lt_of_some hi
    obtain ⟨m, hm, _⟩ := getElem?_mod_some (l := s.mons) (i + 1) (by omega)
    have hd := dirtomon_next hn hi
    rw [hm] at hd
    simp only [dirtomon_steps, hd]
    have := ih (s := { s with selmon := m }) hn (i := (i + 1) % s.mons.length) hm
    rw [this]
    simp only
    congr 1
    rw [Nat.mod_add_mod]
    congr 1
    omega

/-- C23: in a duplicate-free monitor list that holds the selected monitor at
index `i` (of `n` monitors), `dirtomon(+1)` returns the monitor at index
`(i + 1) mod n` (the successor, the head after the last), `dirtomon(-1)` the
monitor at index `(i + n - 1) mod n` (the predecessor, the last before the
head); stepping to the next monitor and then to the previous one, or the other
way round, returns to the starting monitor; and `n` steps of `dirtomon(+1)`
return to the start. -/
theorem dirtomon_cyclic (s : State) (hn : s.mons.Nodup) (i : Nat)
    (hi : s.mons[i]? = some s.selmon) :
    dirtomon s 1 = s.mons[(i + 1) % s.mons.length]?
      ∧ dirtomon s (-1) = s.mons[(i + s.mons.length - 1) % s.mons.length]?
      ∧ (∃ m, dirtomon s 1 = some m ∧ m ∈ s.mons
          ∧ dirtomon { s with selmon := m } (-1) = some s.selmon)
      ∧ (∃ m, dirtomon s (-1) = some m ∧ m ∈ s.mons
          ∧ dirtomon { s with selmon := m } 1 = some s.selmon)
      ∧ dirtomon_steps s 1 s.mons.length = some s.selmon := by
  have hlt := getElem?_lt_of_some hi
  have hpos : 0 < s.mons.length := by omega
  refine ⟨dirtomon_next hn hi, dirtomon_prev hn hi, ?_, ?_, ?_⟩
  · obtain ⟨m, hm, hmem⟩ := getElem?_mod_some (l := s.mons) (i + 1) hpos
    refine ⟨m, by rw [dirtomon_next hn hi, hm], hmem, ?_⟩
    rw [dirtomon_prev (s := { s with selmon := m }) hn hm]
    simp only
    have e : ((i + 1) % s.mons.length + s.mons.length - 1) % s.mons.length = i := by
      by_cases hlast : i + 1 < s.mons.length
      · rw [Nat.mod_eq_of_lt hlast]
        have : i + 1 + s.mons.length - 1 = i + s.mons.length := by omega
        rw [this, Nat.add_mod_right, Nat.mod_eq_of_lt hlt]
      · have e1 : i + 1 = s.mons.length := by omega
        rw [e1, Nat.mod_self, Nat.zero_add, Nat.mod_eq_of_lt (by omega)]
        omega
    rw [e]
    exact hi
  · obtain ⟨m, hm, hmem⟩ := getElem?_mod_some (l := s.mons) (i + s.mons.length - 1) hpos
    refine ⟨m, by rw [dirtomon_prev hn hi, hm], hmem, ?_⟩
    rw [dirtomon_next (s := { s with selmon := m }) hn hm]
    simp only
    have e : ((i + s.mons.length - 1) % s.mons.length + 1) % s.mons.length = i := by
      cases i with
      | zero =>
        rw [Nat.zero_add, Nat.mod_eq_of_lt (a := s.mons.length - 1) (by omega)]
        have : s.mons.length - 1 + 1 = s.mons.length := by omega
        rw [this, Nat.mod_self]
      | succ j =>
        have : j + 1 + s.mons.length - 1 = j + s.mons.length := by omega
        rw [this, Nat.add_mod_right, Nat.mod_eq_of_lt (a := j) (by omega),
          Nat.mod_eq_of_lt hlt]
    rw [e]
    exact hi
  · rw [dirtomon_steps_next _ hn hi, Nat.add_mod_right, Nat.mod_eq_of_lt hlt]
    exact hi

/-- C23 at a concrete state: `exInit` has the monitors `[0, 1]` with monitor 0
(index 0) selected; the next and the previous monitor are both monitor 1, and
two steps return to monitor 0. -/
theorem dirtomon_cyclic_witness :
    exInit.mons = [0, 1] ∧ exInit.selmon = 0
      ∧ dirtomon exInit 1 = some 1 ∧ dirtomon exInit (-1) = some 1
      ∧ dirtomon_steps exInit 1 exInit.mons.length = some exInit.selmon :=
  have h := dirtomon_cyclic exInit (by decide) 0 (by decide)
  ⟨rfl, rfl, by decide, by decide, h.2.2.2.2⟩

/-! ## Key and error dispatch -/

theorem testBit_bitnot32 (x i : Nat) :
    (bitnot32 x).testBit i = (decide (i < 32) && !x.testBit i) := by
  unfold bitnot32
  have h1 : (4294967295 : Nat) = 2 ^ 32 - 1 := by norm_num
  have h2 : (4294967296 : Nat) = 2 ^ 32 := by norm_num
  rw [Nat.testBit_xor, h1, h2, Nat.testBit_two_pow_sub_one, Nat.testBit_mod_two_pow]
  by_cases h : i < 32 <;> simp [h]

theorem CLEANMASK_absorbs (n s x : Nat) (hx : x &&& (n ||| LockMask) = x) :
    CLEANMASK n (s ||| x) = CLEANMASK n s := by
  apply Nat.eq_of_testBit_eq
  intro i
  have hxi : x.testBit i = true → (n ||| LockMask).testBit i = true := by
    intro h
    have := congrArg (fun z => Nat.testBit z i) hx
    simp only [Nat.testBit_and, h, Bool.true_and] at this
    exact this
  unfold CLEANMASK
  simp only [Nat.testBit_and, Nat.testBit_or, testBit_bitnot32]
  by_cases h32 : i < 32
  · cases hb : x.testBit i with
    | false => simp
    | true =>
      have := hxi hb
      simp only [Nat.testBit_or] at this
      simp [this]
  · simp [h32]

/-- C24: for every value of `numlockmask`, every binding mask `m` and every
event state `s`, `CLEANMASK` does not change when the NumLock bit, the CapsLock
bit or both are added to `s`; so `CLEANMASK(m) == CLEANMASK(s)` holds if and
only if it holds with these bits added, and a row of the key table fires for a
key event independently of them. -/
theorem cleanmask_lock_neutral (n m s : Nat) :
    CLEANMASK n (s ||| n ||| LockMask) = CLEANMASK n s
      ∧ CLEANMASK n (s ||| n) = CLEANMASK n s
      ∧ CLEANMASK n (s ||| LockMask) = CLEANMASK n s
      ∧ (CLEANMASK n m = CLEANMASK n s ↔ CLEANMASK n m = CLEANMASK n (s ||| n))
      ∧ (CLEANMASK n m = CLEANMASK n s ↔ CLEANMASK n m = CLEANMASK n (s ||| LockMask))
      ∧ (CLEANMASK n m = CLEANMASK n s ↔ CLEANMASK n m = CLEANMASK n (s ||| n ||| LockMask))
      ∧ (∀ (k : Key) (keysym : Nat),
          keypress_fires n k keysym (s ||| n ||| LockMask) = keypress_fires n k keysym s) := by
  have h1 : CLEANMASK n (s ||| n) = CLEANMASK n s := by
    apply CLEANMASK_absorbs
    apply Nat.eq_of_testBit_eq
    intro i
    simp only [Nat.testBit_and, Nat.testBit_or]
    cases n.testBit i <;> simp
  have h2 : CLEANMASK n (s ||| LockMask) = CLEANMASK n s := by
    apply CLEANMASK_absorbs
    apply Nat.eq_of_testBit_eq
    intro i
    simp only [Nat.testBit_and, Nat.testBit_or]
    cases LockMask.testBit i <;> simp
  have h3 : CLEANMASK n (s ||| n ||| LockMask) = CLEANMASK n s := by
    rw [Nat.lor_assoc]
    apply CLEANMASK_absorbs
    exact Nat.and_self _
  refine ⟨h3, h1, h2, by rw [h1], by rw [h2], by rw [h3], fun k keysym => ?_⟩
  unfold keypress_fires
  rw [h3]

/-- C25: `xerror` returns 0 without calling the default handler exactly when
the error code is BadWindow or the (request, error) pair is one of the eight
allow-listed pairs; every other error is passed to the default handler. -/
theorem xerror_allow_list (request_code error_code : Nat) :
    (xerror request_code error_code = ErrorAction.swallowed
        ↔ (error_code = BadWindow ∨ (request_code, error_code) ∈ xerror_allowed))
      ∧ (xerror request_code error_code = ErrorAction.passed
        ↔ ¬ (error_code = BadWindow ∨ (request_code, error_code) ∈ xerror_allowed)) := by
  have key : xerror request_code error_code = ErrorAction.swallowed
      ↔ (error_code = BadWindow ∨ (request_code, error_code) ∈ xerror_allowed) := by
    unfold xerror xerror_allowed
    simp only [List.mem_cons, Prod.mk.injEq, List.mem_singleton, List.not_mem_nil, or_false]
    constructor
    · intro h
      split_ifs at h with hc
      exact hc
    · intro h
      rw [if_pos h]
  refine ⟨key, ?_⟩
  rw [← key]
  cases xerror request_code error_code <;> simp

/-! ## Moving a client with the mouse -/

/-- C26: for a tiled client on a monitor whose layout has an arrangement
function, a motion step of `movemouse` whose candidate position after edge
snapping differs from the client's position by at most `snap` in both axes
leaves the client record unchanged (tiled, same geometry); and whenever the
step leaves the client floating, `|nx - c.x| > snap` or `|ny - c.y| > snap`
held for the candidate position.  This is so whether or not the client is
visible and whatever the layout function does. -/
theorem movemouse_hysteresis (g : Env) (snap : Nat) (selm : Monitor) (vis : Bool)
    (layout : Client → Client) (c : Client)
    (ocx ocy x y : Int) (lasttime time : Nat) (ex ey : Int)
    (ht : c.isfloating = 0) (hl : (selm.lt selm.sellt).arrange ≠ none) :
    (((movemouse_nx snap selm c ocx x ex - c.x).natAbs ≤ snap
          ∧ (movemouse_ny snap selm c ocy y ey - c.y).natAbs ≤ snap) →
        (movemouse_motion g snap selm vis layout c ocx ocy x y lasttime time ex ey).1 = c)
      ∧ ((movemouse_motion g snap selm vis layout c ocx ocy x y lasttime time ex
            ey).1.isfloating ≠ 0 →
          (movemouse_nx snap selm c ocx x ex - c.x).natAbs > snap
            ∨ (movemouse_ny snap selm c ocy y ey - c.y).natAbs > snap) := by
  have key : ¬ ((movemouse_nx snap selm c ocx x ex - c.x).natAbs > snap
        ∨ (movemouse_ny snap selm c ocy y ey - c.y).natAbs > snap) →
      (movemouse_motion g snap selm vis layout c ocx ocy x y lasttime time ex ey).1 = c := by
    intro hn
    unfold movemouse_motion
    split_ifs with h1
    · rfl
    · have e1 : ¬ (c.isfloating = 0 ∧ (selm.lt selm.sellt).arrange ≠ none
          ∧ ((movemouse_nx snap selm c ocx x ex - c.x).natAbs > snap
            ∨ (movemouse_ny snap selm c ocy y ey - c.y).natAbs > snap)) :=
        fun h => hn h.2.2
      simp only [if_neg e1]
      rw [if_neg (by rintro (h | h); exact hl h; exact h ht)]
  constructor
  · rintro ⟨hx, hy⟩
    apply key
    rintro (h | h) <;> omega
  · intro hf
    by_contra hn
    rw [key hn] at hf
    exact hf ht

/-- C26 at a concrete step: the tiled `exClient` at (10, 30), dragged by 10
and 5 pixels with `snap = 32`, stays as it is. -/
theorem movemouse_hysteresis_witness :
    exClient.isfloating = 0 ∧ (exMon.lt exMon.sellt).arrange ≠ none
      ∧ (movemouse_nx 32 exMon exClient 10 100 110, movemouse_ny 32 exMon exClient 30 100 105)
          = (0, 20)
      ∧ (movemouse_motion exEnv 32 exMon true (fun c => c) exClient 10 30 100 100 0 1000
            110 105).1 = exClient :=
  ⟨rfl, by decide, by decide,
    (movemouse_hysteresis exEnv 32 exMon true (fun c => c) exClient 10 30 100 100 0 1000
      110 105 rfl (by decide)).1 ⟨by decide, by decide⟩⟩

/-! ## The view toggle and the settings of the current tag -/

theorem and_shiftLeft_ne_zero_iff (n j : Nat) : n &&& (1 <<< j) ≠ 0 ↔ n.testBit j = true := by
  rw [Nat.one_shiftLeft]
  constructor
  · intro h
    by_contra hb
    apply h
    apply Nat.eq_of_testBit_eq
    intro i
    rw [Nat.testBit_and, Nat.testBit_two_pow, Nat.zero_testBit]
    by_cases e : j = i
    · subst e
      simp [hb]
    · simp [e]
  · intro hb h
    have := congrArg (fun z => Nat.testBit z j) h
    simp [Nat.testBit_and, Nat.testBit_two_pow, hb] at this

theorem scanbit_spec (n : Nat) :
    ∀ (fuel i : Nat), (∃ j, i ≤ j ∧ j < i + fuel ∧ n &&& (1 <<< j) ≠ 0) →
      ∃ k, scanbit n fuel i = some k ∧ i ≤ k ∧ k < i + fuel ∧ n &&& (1 <<< k) ≠ 0 := by
  intro fuel
  induction fuel with
  | zero =>
    rintro i ⟨j, h1, h2, _⟩
    omega
  | succ f ih =>
    rintro i ⟨j, h1, h2, h3⟩
    by_cases hb : n &&& (1 <<< i) ≠ 0
    · exact ⟨i, by simp [scanbit, hb], le_refl _, by omega, hb⟩
    · have hij : i ≠ j := fun e => hb (e ▸ h3)
      obtain ⟨k, k1, k2, k3, k4⟩ := ih (i + 1) ⟨j, by omega, by omega, h3⟩
      exact ⟨k, by simp only [scanbit, hb, if_false]; exact k1, by omega, by omega, k4⟩

theorem scanbit_tagset {n : Nat} (h0 : n ≠ 0) (hm : n ≤ TAGMASK) :
    ∃ k, scanbit n 32 0 = some k ∧ k < NUMTAGS ∧ n &&& (1 <<< k) ≠ 0 := by
  have hlt : n < 2 ^ 9 := by
    have : TAGMASK = 511 := by decide
    omega
  obtain ⟨j, hj⟩ := Nat.ne_zero_implies_bit_true h0
  have hj9 : j < 9 := by
    by_contra hge
    have : n < 2 ^ j := lt_of_lt_of_le hlt (Nat.pow_le_pow_right (by norm_num) (by omega))
    rw [Nat.testBit_lt_two_pow this] at hj
    cases hj
  obtain ⟨k, k1, _, _, k4⟩ := scanbit_spec n 32 0
    ⟨j, Nat.zero_le _, by omega, (and_shiftLeft_ne_zero_iff n j).mpr hj⟩
  refine ⟨k, k1, ?_, k4⟩
  by_contra hge
  have hk := (and_shiftLeft_ne_zero_iff n k).mp k4
  have : n < 2 ^ k := lt_of_lt_of_le hlt
    (Nat.pow_le_pow_right (by norm_num) (by unfold NUMTAGS at hge; omega))
  rw [Nat.testBit_lt_two_pow this] at hk
  cases hk

theorem toggleview_pertag_spec {p : Pertag} {n : Nat} (h0 : n ≠ 0) (hm : n ≤ TAGMASK)
    (hc : 1 ≤ p.curtag ∧ p.curtag ≤ NUMTAGS) :
    ∃ q, toggleview_pertag p n = some q
      ∧ 1 ≤ q.curtag ∧ q.curtag ≤ NUMTAGS ∧ n &&& (1 <<< (q.curtag - 1)) ≠ 0
      ∧ q.nmasters = p.nmasters ∧ q.mfacts = p.mfacts ∧ q.sellts = p.sellts
      ∧ q.ltidxs = p.ltidxs := by
  have hne : n ≠ 4294967295 := by
    have : TAGMASK = 511 := by decide
    omega
  have hc0 : p.curtag ≠ 0 := by omega
  unfold toggleview_pertag
  simp only [hne, if_false, hc0]
  by_cases hb : n &&& (1 <<< (p.curtag - 1)) = 0
  · obtain ⟨k, k1, k2, k3⟩ := scanbit_tagset h0 hm
    rw [if_pos hb, k1]
    exact ⟨_, rfl, by simp, by simp only; omega, by simpa using k3, rfl, rfl, rfl, rfl⟩
  · rw [if_neg hb]
    exact ⟨_, rfl, hc.1, hc.2, hb, rfl, rfl, rfl, rfl⟩

theorem focus_keeps {α : Type} (P : Monitor → α)
    (hP : ∀ (m : Monitor) (cl st : List Nat) (se : Option Nat),
      P { m with clients := cl, stack := st, sel := se } = P m)
    (s : State) (c : Option Nat) (k : Nat) : P ((focus s c).M k) = P (s.M k) := by
  have hset : ∀ (t : State) (j : Nat) (f : Monitor → Monitor),
      (∀ m, P (f m) = P m) → P ((setM t j f).M k) = P (t.M k) := by
    intro t j f hf
    rw [setM_M]
    split_ifs
    · exact hf _
    · rfl
  have hst : ∀ (m : Monitor) (st : List Nat), P { m with stack := st } = P m :=
    fun m st => hP m m.clients st m.sel
  have hse : ∀ (m : Monitor) (se : Option Nat), P { m with sel := se } = P m :=
    fun m se => hP m m.clients m.stack se
  have hdet : ∀ (t : State) (u : Nat), P ((detachstack t u).M k) = P (t.M k) := by
    intro t u
    unfold detachstack
    simp only
    split_ifs
    · rw [hset _ _ _ (fun m => hse m _), hset _ _ _ (fun m => hst m _)]
    · rw [hset _ _ _ (fun m => hst m _)]
  have hatt : ∀ (t : State) (u : Nat), P ((attachstack t u).M k) = P (t.M k) := by
    intro t u
    unfold attachstack
    rw [hset _ _ _ (fun m => hst m _)]
  unfold focus
  cases focus_pick s c with
  | none =>
    simp only
    rw [hset _ _ _ (fun m => hse m _)]
  | some u =>
    simp only
    rw [hset _ _ _ (fun m => hse m _), hatt, hdet]
    split_ifs <;> rfl

/-- C27: on a well-formed registry whose selected monitor has its active tag
set within `TAGMASK` and `pertag->curtag` in `1..NUMTAGS`, for every argument
mask: when the tag set XOR (mask AND TAGMASK) is zero `toggleview` changes
nothing; otherwise it returns (the search for the lowest set bit ends), the
selected monitor is kept, its active tag set is the XOR value, `curtag` is in
`1..NUMTAGS` with bit `curtag - 1` set in the new tag set, the saved pertag
arrays (`nmasters`, `mfacts`, `sellts`, `ltidxs`) are the ones from before the
call, and `nmaster`, `mfact`, `sellt` and both layout slots are the values
these arrays hold for `curtag`. -/
theorem toggleview_applies (s : State) (hw : WF s) (ui : Nat)
    (hm : (s.M s.selmon).curtags ≤ TAGMASK)
    (hc : 1 ≤ (s.M s.selmon).pertag.curtag ∧ (s.M s.selmon).pertag.curtag ≤ NUMTAGS) :
    ((s.M s.selmon).curtags ^^^ (ui &&& TAGMASK) = 0 → toggleview s ui = some s)
      ∧ ((s.M s.selmon).curtags ^^^ (ui &&& TAGMASK) ≠ 0 →
          ∃ s1, toggleview s ui = some s1 ∧ s1.selmon = s.selmon
            ∧ (s1.M s1.selmon).curtags = (s.M s.selmon).curtags ^^^ (ui &&& TAGMASK)
            ∧ 1 ≤ (s1.M s1.selmon).pertag.curtag
            ∧ (s1.M s1.selmon).pertag.curtag ≤ NUMTAGS
            ∧ (s1.M s1.selmon).curtags &&& (1 <<< ((s1.M s1.selmon).pertag.curtag - 1)) ≠ 0
            ∧ (s1.M s1.selmon).nmaster
                = (s1.M s1.selmon).pertag.nmasters (s1.M s1.selmon).pertag.curtag
            ∧ (s1.M s1.selmon).mfact
                = (s1.M s1.selmon).pertag.mfacts (s1.M s1.selmon).pertag.curtag
            ∧ (s1.M s1.selmon).sellt
                = (s1.M s1.selmon).pertag.sellts (s1.M s1.selmon).pertag.curtag
            ∧ (s1.M s1.selmon).lt (s1.M s1.selmon).sellt
                = (s1.M s1.selmon).pertag.ltidxs (s1.M s1.selmon).pertag.curtag
                    (s1.M s1.selmon).sellt
            ∧ (s1.M s1.selmon).lt ((s1.M s1.selmon).sellt ^^^ 1)
                = (s1.M s1.selmon).pertag.ltidxs (s1.M s1.selmon).pertag.curtag
                    ((s1.M s1.selmon).sellt ^^^ 1)
            ∧ (s1.M s1.selmon).pertag.nmasters = (s.M s.selmon).pertag.nmasters
            ∧ (s1.M s1.selmon).pertag.mfacts = (s.M s.selmon).pertag.mfacts
            ∧ (s1.M s1.selmon).pertag.sellts = (s.M s.selmon).pertag.sellts
            ∧ (s1.M s1.selmon).pertag.ltidxs = (s.M s.selmon).pertag.ltidxs
            ∧ (s1.M s1.selmon).nmaster
                = (s.M s.selmon).pertag.nmasters (s1.M s1.selmon).pertag.curtag
            ∧ (s1.M s1.selmon).mfact
                = (s.M s.selmon).pertag.mfacts (s1.M s1.selmon).pertag.curtag
            ∧ (s1.M s1.selmon).sellt
                = (s.M s.selmon).pertag.sellts (s1.M s1.selmon).pertag.curtag
            ∧ (s1.M s1.selmon).lt (s1.M s1.selmon).sellt
                = (s.M s.selmon).pertag.ltidxs (s1.M s1.selmon).pertag.curtag
                    (s1.M s1.selmon).sellt
            ∧ (s1.M s1.selmon).lt ((s1.M s1.selmon).sellt ^^^ 1)
                = (s.M s.selmon).pertag.ltidxs (s1.M s1.selmon).pertag.curtag
                    ((s1.M s1.selmon).sellt ^^^ 1)) := by
  constructor
  · intro h0
    simp [toggleview, h0]
  · intro h0
    have hle : (s.M s.selmon).curtags ^^^ (ui &&& TAGMASK) ≤ TAGMASK := by
      have e : TAGMASK = 2 ^ 9 - 1 := by decide
      have h1 : (s.M s.selmon).curtags < 2 ^ 9 := by omega
      have h2 : ui &&& TAGMASK < 2 ^ 9 := by
        have := Nat.and_le_right (n := ui) (m := TAGMASK)
        omega
      have := Nat.xor_lt_two_pow h1 h2
      omega
    obtain ⟨q, hq, q1, q2, q3, q4, q5, q6, q7⟩ := toggleview_pertag_spec h0 hle hc
    have hw1 := hw.setM_other s.selmon
      (fun m => { m with
        tagset := upd m.tagset m.seltags ((s.M s.selmon).curtags ^^^ (ui &&& TAGMASK))
        pertag := q
        nmaster := q.nmasters q.curtag
        mfact := q.mfacts q.curtag
        sellt := q.sellts q.curtag
        lt := upd (upd m.lt (q.sellts q.curtag) (q.ltidxs q.curtag (q.sellts q.curtag)))
                (q.sellts q.curtag ^^^ 1) (q.ltidxs q.curtag (q.sellts q.curtag ^^^ 1)) })
      (fun _ => rfl) (fun _ => rfl) (fun _ => rfl)
    have hsel := focus_none_selmon hw1
    have hrun : toggleview s ui = some (focus (setM s s.selmon (fun m => { m with
        tagset := upd m.tagset m.seltags ((s.M s.selmon).curtags ^^^ (ui &&& TAGMASK))
        pertag := q
        nmaster := q.nmasters q.curtag
        mfact := q.mfacts q.curtag
        sellt := q.sellts q.curtag
        lt := upd (upd m.lt (q.sellts q.curtag) (q.ltidxs q.curtag (q.sellts q.curtag)))
                (q.sellts q.curtag ^^^ 1) (q.ltidxs q.curtag (q.sellts q.curtag ^^^ 1)) }))
        none) := by
      unfold toggleview
      simp only
      rw [if_pos h0, hq]
    refine ⟨_, hrun, hsel, ?_⟩
    have hfields := focus_keeps
      (fun m : Monitor => (m.curtags, m.pertag, m.nmaster, m.mfact, m.sellt, m.lt))
      (fun _ _ _ _ => rfl)
      (setM s s.selmon (fun m => { m with
        tagset := upd m.tagset m.seltags ((s.M s.selmon).curtags ^^^ (ui &&& TAGMASK))
        pertag := q
        nmaster := q.nmasters q.curtag
        mfact := q.mfacts q.curtag
        sellt := q.sellts q.curtag
        lt := upd (upd m.lt (q.sellts q.curtag) (q.ltidxs q.curtag (q.sellts q.curtag)))
                (q.sellts q.curtag ^^^ 1) (q.ltidxs q.curtag (q.sellts q.curtag ^^^ 1)) }))
      none s.selmon
    rw [setM_M_self] at hfields
    simp only [Prod.mk.injEq] at hfields
    obtain ⟨f1, f2, f3, f4, f5, f6⟩ := hfields
    rw [hsel, setM_selmon, f1, f2, f3, f4, f5, f6]
    have l1 : upd (upd (s.M s.selmon).lt (q.sellts q.curtag)
          (q.ltidxs q.curtag (q.sellts q.curtag)))
        (q.sellts q.curtag ^^^ 1) (q.ltidxs q.curtag (q.sellts q.curtag ^^^ 1))
        (q.sellts q.curtag) = q.ltidxs q.curtag (q.sellts q.curtag) := by
      rw [upd_of_ne _ _ (xor_one_ne _).symm, upd_same]
    have l2 : upd (upd (s.M s.selmon).lt (q.sellts q.curtag)
          (q.ltidxs q.curtag (q.sellts q.curtag)))
        (q.sellts q.curtag ^^^ 1) (q.ltidxs q.curtag (q.sellts q.curtag ^^^ 1))
        (q.sellts q.curtag ^^^ 1) = q.ltidxs q.curtag (q.sellts q.curtag ^^^ 1) := by
      rw [upd_same]
    refine ⟨by simp [Monitor.curtags], q1, q2, ?_, rfl, rfl, rfl, l1, l2, q4, q5, q6, q7,
      ?_, ?_, ?_, ?_, ?_⟩
    · simpa [Monitor.curtags] using q3
    · rw [q4]
    · rw [q5]
    · rw [q6]
    · rw [l1, q7]
    · rw [l2, q7]

/-- C27 at a concrete state: `exInit` shows tag 1 with `curtag = 1`;
`toggleview` with mask 2 returns, with the tags 1 and 2 active. -/
theorem toggleview_applies_witness :
    (exInit.M exInit.selmon).curtags ≤ TAGMASK
      ∧ (exInit.M exInit.selmon).pertag.curtag = 1
      ∧ ∃ s1, toggleview exInit 2 = some s1 ∧ s1.selmon = exInit.selmon
          ∧ (s1.M s1.selmon).curtags = 3 :=
  ⟨by decide, rfl,
    match (toggleview_applies exInit (init_wf exInit_init) 2 (by decide) (by decide)).2
        (by decide) with
    | ⟨s1, h1, h2, h3, _⟩ => ⟨s1, h1, h2, h3.trans (by decide)⟩⟩

/-! ## Scratchpads over workspaces -/

/-- C28 (evaluation at the failing input): workspace 1 holds the scratchpad
clients 1 and 2 (key 7) with arrangement list `[1, 2]` and recency list
`[2, 1]`; the selected workspace 0 holds client 3.  `togglescratch` with key 7
moves both to workspace 0, whose arrangement list becomes `[3, 2, 1]`: the
moved clients follow the existing one in recency order, because the second
pass walks `ws->stack`, and not in the order `[1, 2]` of the source
arrangement list. -/
theorem togglescratch_recency_order :
    chain exHeapBoth.next 10 (exHeapBoth.clients 1) = some [1, 2]
      ∧ chain exHeapBoth.snext 10 (exHeapBoth.stack 1) = some [2, 1]
      ∧ chain exHeapBoth.next 10 (exHeapBoth.clients 0) = some [3]
      ∧ (togglescratch_move 10 (fun _ => true) (fun _ => false) exHeapBoth 7).map
          (fun h => (chain h.next 10 (h.clients 0), chain h.next 10 (h.clients 1)))
          = some (some [3, 2, 1], some []) := by
  decide

/-- C29 (evaluation at the failing input): workspace 1 holds the arrangement
list `[1, 2]` where only client 1 has the scratch key 7.  After the second pass
of `togglescratch` the temporary list starts at client 1, its last collected
client, whose link `next` still points to client 2; the third loop follows this
link: client 2, which has another key, gets `ws = selws` and is appended to the
arrangement list of the selected workspace, which becomes `[3, 1, 2]`, while
workspace 1 still lists it. -/
theorem togglescratch_moves_stranger :
    exHeapOne.scratchkey 2 ≠ 7 ∧ exHeapOne.ws 2 = 1 ∧ exHeapOne.selws = 0
      ∧ (togglescratch_collect 10 (fun _ => true) (fun _ => false) exHeapOne 7).map
          (fun st => (st.last, st.heap.next 1, chain st.heap.next 10 st.monclients))
          = some (some 1, some 2, some [1, 2])
      ∧ (togglescratch_move 10 (fun _ => true) (fun _ => false) exHeapOne 7).map
          (fun h => (h.ws 2, chain h.next 10 (h.clients 0), chain h.next 10 (h.clients 1)))
          = some (0, some [3, 1, 2], some [2]) := by
  decide

/-! ## Bar module placement -/

/-- C30 (evaluation at the failing input): on a bar with inner area
`[0, 100]`, a module of width 20 aligned `BAR_ALIGN_RIGHT_CENTER` is placed at
`[40, 60)`; the branch then sets `lw = lx + lw - x + w = 80` where its sibling
`BAR_ALIGN_LEFT_CENTER` subtracts `w`, so the free area right of the module is
taken to be `[60, 140)`, and the following module of width 10 aligned
`BAR_ALIGN_RIGHT` is placed at `[130, 140)`, outside the bar. -/
theorem drawbarwin_right_center :
    drawbarwin exBar exBarRules = [some (40, 20), some (130, 10)]
      ∧ (place_module ⟨0, 100, 0, 100⟩ BAR_ALIGN_RIGHT_CENTER 20).1 = ⟨60, 80, 0, 40⟩
      ∧ (place_module ⟨0, 100, 0, 100⟩ BAR_ALIGN_LEFT_CENTER 20).1 = ⟨0, 40, 60, 40⟩
      ∧ ¬ ((130 : Int) + 10 ≤ exBar.bw - exBar.borderpx) := by
  decide

end Dawn
